import Mathlib

/-!
# AL_USDMaya `ProxyShape`: transform-operation stack editor and required-path table

A shallow embedding of the parts of `lib/AL_USDMaya/AL/usdmaya/nodes/ProxyShape.cpp`
that edit a prim's ordered transform operations (`addTranslateOp`, `addScaleOp`,
`addRotateOp`), that garbage-collect the required-path table
(`cleanupTransformRefs`), that persist that table as text
(`serialiseTransformRefs`, `deserialiseTransformRefs`), that listen to stage
notices and run the resync (`variantSelectionListener`, `onObjectsChanged`,
`onPrimResync`, `filterUpdatablePrims`, `validateTransforms`,
`findExcludedGeometry`), that set the root prim path (`onAttributeChanged`,
`reloadStage`), that write driven matrices (`updateDrivenTransforms`), that
restore the translator context and the schema prims
(`deserialiseTranslatorContext`, `deserialiseSchemaPrims`) and that cache the
driven prims and serve their rotation (`initPrim`, the rotate-order branch of
`getInternalValueInContext`, the rotate branch of `setInternalValueInContext`).

Conventions of the embedding:

* a `std::vector` is a `List`; an iterator is the list position it points at;
* `std::string` and `MString` are lists of characters (`Str`);
* `uint32_t` values are natural numbers, reduced modulo `2 ^ 32` where the
  source converts to the type;
* the `std::map` `m_requiredPaths` is its list of entries in iteration order,
  which for a well-formed map is strictly ascending in the key;
* an out-of-range `MStringArray::operator[]` is a fault: the function returns
  `none`;
* what the USD and Maya libraries and the headers `ProxyShape.h` and
  `TransformationMatrix.h` contribute is taken as a parameter (`OpRanks`,
  `Host`, `Collaborators`, `StageLoader`, `BlobCodec`, `DrivenEnv`), and the
  theorems hold for every value of it;
* a write past the end of a `std::vector` is a fault: the function returns
  `none`;
* a call through a null `m_stage` is a fault: the function returns `none`;
* notices that USD sends while one of the functions runs are not followed.
-/

namespace AL.usdmaya.nodes

/-! ## Transform-operation stack -/

/-- One `UsdGeomXformOp` as far as the stack editor inspects it: the result of
`GetBaseName()` and of `IsInverseOp()`. -/
structure UsdGeomXformOp where
  baseName : String
  isInverseOp : Bool
deriving DecidableEq

/-- The declarations of `TransformationMatrix.h` used by the stack editor: the
function `xformOpToEnum` from attribute names to `TransformOperation` values and
the enumerators `kTranslate`, `kRotate` and `kScale` (enumerators are compared
as unsigned integers). The header is not among the sources, so they are
parameters. -/
structure OpRanks where
  xformOpToEnum : String → Nat
  kTranslate : Nat
  kRotate : Nat
  kScale : Nat

/-- The loop body shared by `addScaleOp` and `addRotateOp`:
`attrName = it->GetBaseName(); if(it->IsInverseOp()) attrName += "INV";`
followed by `xformOpToEnum(attrName)`. -/
def opType (R : OpRanks) (op : UsdGeomXformOp) : Nat :=
  R.xformOpToEnum (if op.isInverseOp then op.baseName ++ "INV" else op.baseName)

/-- The call `ops.insert(ops.begin() + pos, x)` of `std::vector`, for
`pos ≤ ops.size()`. -/
def vectorInsert {α : Type} (ops : List α) (pos : Nat) (x : α) : List α :=
  ops.take pos ++ x :: ops.drop pos

/-- The function `addTranslateOp`: `translateOp` is what `xform.AddTranslateOp()`
returned; the result is the vector `ops` after the call, which is also the
order written back with `SetXformOpOrder`. -/
def addTranslateOp (translateOp : UsdGeomXformOp) (ops : List UsdGeomXformOp) :
    List UsdGeomXformOp :=
  vectorInsert ops 0 translateOp

/-- The `while(ops.begin() != it)` loop of `addScaleOp`, started with the
iterator at position `it` (`ops.end()` is `ops.length`). Each round steps the
iterator back and inserts behind the op it points at when that op's type is
below `kScale`; when the iterator reaches `ops.begin()` the op is inserted at
the start of the array. -/
def addScaleOp.loop (R : OpRanks) (scaleOp : UsdGeomXformOp) (ops : List UsdGeomXformOp) :
    Nat → List UsdGeomXformOp
  | 0 => vectorInsert ops 0 scaleOp
  | it + 1 =>
    match ops.get? it with
    | some op =>
      if opType R op < R.kScale then vectorInsert ops (it + 1) scaleOp
      else addScaleOp.loop R scaleOp ops it
    | none => addScaleOp.loop R scaleOp ops it

/-- The function `addScaleOp`: `scaleOp` is what `xform.AddScaleOp()` returned. -/
def addScaleOp (R : OpRanks) (scaleOp : UsdGeomXformOp) (ops : List UsdGeomXformOp) :
    List UsdGeomXformOp :=
  addScaleOp.loop R scaleOp ops ops.length

/-- The `while(ops.end() != it)` loop of `addRotateOp` on the part of the
vector from the iterator onwards: the op is inserted in front of the first op
whose type is above `kRotate`, and at `ops.end()` when the loop runs out. -/
def addRotateOp.loop (R : OpRanks) (rotateOp : UsdGeomXformOp) :
    List UsdGeomXformOp → List UsdGeomXformOp
  | [] => [rotateOp]
  | op :: rest =>
    if opType R op > R.kRotate then rotateOp :: op :: rest
    else op :: addRotateOp.loop R rotateOp rest

/-- The function `addRotateOp`: `rotateOp` is what `xform.AddRotateXYZOp()`
returned. -/
def addRotateOp (R : OpRanks) (rotateOp : UsdGeomXformOp) (ops : List UsdGeomXformOp) :
    List UsdGeomXformOp :=
  addRotateOp.loop R rotateOp ops

/-- The stack `res` is the stack `ops` with the op `x` put in at one position and
nothing else changed: it is one longer, and deleting `x` at that position gives
`ops` back. -/
def InsertedInto (x : UsdGeomXformOp) (ops res : List UsdGeomXformOp) : Prop :=
  res.length = ops.length + 1 ∧ ∃ i, res.get? i = some x ∧ res.eraseIdx i = ops

/-- A rank table in the order of the spec (Translate 0, Rotate 4, Scale 10,
anything else 14), used to evaluate the editor on concrete stacks. -/
def sampleRanks : OpRanks where
  xformOpToEnum := fun n =>
    if n = "translate" then 0 else if n = "rotateXYZ" then 4 else if n = "scale" then 10 else 14
  kTranslate := 0
  kRotate := 4
  kScale := 10

/-- The ops the three `Add...Op` calls of USD return with default arguments. -/
def sampleTranslate : UsdGeomXformOp := ⟨"translate", false⟩

/-- See `sampleTranslate`. -/
def sampleRotate : UsdGeomXformOp := ⟨"rotateXYZ", false⟩

/-- See `sampleTranslate`. -/
def sampleScale : UsdGeomXformOp := ⟨"scale", false⟩

/-! ## Required-path table -/

/-- Characters of a `std::string` or `MString`. -/
abbrev Str := List Char

/-- A Maya node handle (`MObject`). -/
abbrev MObject := Nat

/-- The null handle `MObject::kNullObj`. -/
def MObject.kNullObj : MObject := 0

/-- Modelled from the spec: the value type `TransformReference` of the
required-path table, declared in `ProxyShape.h`, which is not among the
sources. The spec's RequiredPathEntry has a native node and the counts
requiredCount, selectedCount and translatorRefCount, each a `u32`; the
constructor in `ProxyShape.cpp` also stores the `Transform*` of the node
(`none` is the null pointer). -/
structure TransformReference where
  m_node : MObject
  m_transform : Option MObject
  m_required : Nat
  m_selected : Nat
  m_refCount : Nat
deriving DecidableEq

/-- The accessor `required()`. -/
def TransformReference.required (r : TransformReference) : Nat := r.m_required

/-- The accessor `selected()`. -/
def TransformReference.selected (r : TransformReference) : Nat := r.m_selected

/-- The accessor `refCount()`. -/
def TransformReference.refCount (r : TransformReference) : Nat := r.m_refCount

/-- The constructor
`TransformReference(MObject mayaNode, Transform* node, uint32_t r, uint32_t s, uint32_t rc)`. -/
def TransformReference.make (mayaNode : MObject) (node : Option MObject) (r s rc : Nat) :
    TransformReference :=
  { m_node := mayaNode, m_transform := node, m_required := r, m_selected := s, m_refCount := rc }

/-- The entries of `m_requiredPaths` in iteration order. -/
abbrev RequiredPaths (Path : Type) := List (Path × TransformReference)

/-- Well-formedness of a `std::map`: keys strictly ascending, hence at most one
entry per path. -/
def RequiredPaths.WF {Path : Type} [LinearOrder Path] (m : RequiredPaths Path) : Prop :=
  (m.map Prod.fst).Pairwise (· < ·)

/-- The call `m_requiredPaths.emplace(path, ref)`: nothing happens when the key
is present, otherwise the entry is added at its place in key order. Keys are
compared with `<` only, as `std::map` does. -/
def emplace {Path : Type} [LinearOrder Path] (path : Path) (ref : TransformReference) :
    RequiredPaths Path → RequiredPaths Path
  | [] => [(path, ref)]
  | e :: rest =>
    if path < e.1 then (path, ref) :: e :: rest
    else if e.1 < path then e :: emplace path ref rest
    else e :: rest

/-- The lookup `m_requiredPaths.find(path)`. -/
def findEntry {Path : Type} [LinearOrder Path] (path : Path) :
    RequiredPaths Path → Option TransformReference
  | [] => none
  | e :: rest => if e.1 = path then some e.2 else findEntry path rest

/-- The function `ProxyShape::cleanupTransformRefs`: the loop over the map that
erases the entry under the iterator when `selected()`, `required()` and
`refCount()` are all zero and steps over it otherwise. -/
def cleanupTransformRefs {Path : Type} : RequiredPaths Path → RequiredPaths Path
  | [] => []
  | it :: rest =>
    if it.2.selected = 0 ∧ it.2.required = 0 ∧ it.2.refCount = 0 then
      cleanupTransformRefs rest
    else
      it :: cleanupTransformRefs rest

/-! ## Text codec of the required-path table -/

/-- The decimal digit `d < 10` as a character. -/
def digitChar (d : Nat) : Char := Char.ofNat (48 + d)

/-- Decimal digits of `n`, most significant first, with `fuel` rounds left. -/
def printUnsigned.go : Nat → Nat → Str
  | 0, _ => []
  | fuel + 1, n =>
    if n < 10 then [digitChar n] else printUnsigned.go fuel (n / 10) ++ [digitChar (n % 10)]

/-- What `oss << uint32_t(x)` appends: the conversion to `uint32_t` and the
decimal digits of the value. -/
def printUnsigned (x : Nat) : Str :=
  printUnsigned.go (x % 2 ^ 32 + 1) (x % 2 ^ 32)

/-- Value of the leading decimal digits of a string, continuing from `acc`. -/
def readDigits : Nat → Str → Nat
  | acc, [] => acc
  | acc, c :: cs => if c.isDigit then readDigits (acc * 10 + (c.toNat - 48)) cs else acc

/-- The call `MString::asUnsigned()` on a string of decimal digits, converted to
`uint32_t`. -/
def asUnsigned (s : Str) : Nat := readDigits 0 s % 2 ^ 32

/-- The collaborators of the codec that live in Maya, in USD and in headers
outside the sources, for a type `Path` of scene paths (`SdfPath`):

* `fullPathName node` is `MFnDagNode fn(node); fn.getPath(path); path.fullPathName()`;
* `getDependNode name` is `MSelectionList sl; sl.add(name)` followed by
  `sl.getDependNode(0, node)`, `none` when either fails;
* `isTransform node` is `MFnDependencyNode(node).typeId() == AL_USDMAYA_TRANSFORM`;
* `GetText` and `SdfPath` are `SdfPath::GetText` and the constructor of `SdfPath`
  from a string;
* `splitSkipsEmpty` says whether `MString::split` leaves empty substrings out
  of the array it fills; the Maya documentation does not settle it, so both
  behaviours are covered. -/
structure Host (Path : Type) where
  fullPathName : MObject → Str
  getDependNode : Str → Option MObject
  isTransform : MObject → Bool
  GetText : Path → Str
  SdfPath : Str → Path
  splitSkipsEmpty : Bool

/-- The call `str.split(c, array)` of `MString`. -/
def MString.split {Path : Type} (H : Host Path) (c : Char) (str : Str) : List Str :=
  if H.splitSkipsEmpty then (str.splitOn c).filter (fun s => s ≠ []) else str.splitOn c

/-- The state of a `ProxyShape` the codec works on: the table and the string
attribute behind `serializedRefCountsPlug()`. -/
structure ProxyShape (Path : Type) where
  m_requiredPaths : RequiredPaths Path
  serializedRefCounts : Str
deriving DecidableEq

/-- The text `serialiseTransformRefs` writes for one entry. -/
def serialiseEntry {Path : Type} (H : Host Path) (iter : Path × TransformReference) : Str :=
  H.fullPathName iter.2.m_node ++ [' '] ++ H.GetText iter.1 ++ [' ']
    ++ printUnsigned iter.2.required ++ [' ']
    ++ printUnsigned iter.2.selected ++ [' ']
    ++ printUnsigned iter.2.refCount ++ [';']

/-- The stream contents after the loop of `serialiseTransformRefs`. -/
def serialiseEntries {Path : Type} (H : Host Path) : RequiredPaths Path → Str
  | [] => []
  | iter :: rest => serialiseEntry H iter ++ serialiseEntries H rest

/-- The function `ProxyShape::serialiseTransformRefs`. -/
def serialiseTransformRefs {Path : Type} (H : Host Path) (self : ProxyShape Path) :
    ProxyShape Path :=
  { self with serializedRefCounts := serialiseEntries H self.m_requiredPaths }

/-- The body of the loop of `deserialiseTransformRefs` for the substring
`strs[i]`: `none` is an `MStringArray` read past the end. The two branches on
the node type differ only in the `Transform*` that is stored. -/
def deserialiseRecord {Path : Type} [LinearOrder Path] (H : Host Path) (m : RequiredPaths Path)
    (stri : Str) : Option (RequiredPaths Path) :=
  if stri.length ≠ 0 then
    let tstrs := MString.split H ' ' stri
    match tstrs.get? 0 with
    | none => none
    | some nodeName =>
      match H.getDependNode nodeName with
      | none => some m
      | some node =>
        match tstrs.get? 2, tstrs.get? 3, tstrs.get? 4, tstrs.get? 1 with
        | some t2, some t3, some t4, some t1 =>
          let ptr := if H.isTransform node then some node else none
          some (emplace (H.SdfPath t1)
            (TransformReference.make node ptr (asUnsigned t2) (asUnsigned t3) (asUnsigned t4)) m)
        | _, _, _, _ => none
  else some m

/-- The loop of `deserialiseTransformRefs` over the substrings `strs`. -/
def deserialiseRecords {Path : Type} [LinearOrder Path] (H : Host Path) :
    RequiredPaths Path → List Str → Option (RequiredPaths Path)
  | m, [] => some m
  | m, stri :: rest =>
    match deserialiseRecord H m stri with
    | none => none
    | some m' => deserialiseRecords H m' rest

/-- The function `ProxyShape::deserialiseTransformRefs`. -/
def deserialiseTransformRefs {Path : Type} [LinearOrder Path] (H : Host Path)
    (self : ProxyShape Path) : Option (ProxyShape Path) :=
  match deserialiseRecords H self.m_requiredPaths (MString.split H ';' self.serializedRefCounts) with
  | none => none
  | some m => some { self with m_requiredPaths := m, serializedRefCounts := [] }

/-- The five fields of the record of one entry: the node's DAG path, the text
of the scene path and the three counts in decimal. -/
def recordFields {Path : Type} (H : Host Path) (iter : Path × TransformReference) : List Str :=
  [H.fullPathName iter.2.m_node, H.GetText iter.1, printUnsigned iter.2.required,
    printUnsigned iter.2.selected, printUnsigned iter.2.refCount]

/-- The record of one entry without the `;` that ends it: the five fields with
one space between neighbours. -/
def recordBody {Path : Type} (H : Host Path) (iter : Path × TransformReference) : Str :=
  [' '].intercalate (recordFields H iter)

/-- The `TransformReference` that `deserialiseTransformRefs` builds from the
record of the entry `ref`, when the record's node path resolves to the node of
`ref`: the `Transform*` is looked up again and the counts are read back. -/
def restoredReference {Path : Type} (H : Host Path) (ref : TransformReference) :
    TransformReference :=
  TransformReference.make ref.m_node (if H.isTransform ref.m_node then some ref.m_node else none)
    (ref.required % 2 ^ 32) (ref.selected % 2 ^ 32) (ref.refCount % 2 ^ 32)

/-- What the claims compare of a table: per entry the path, the node and the
three counts. -/
def RequiredPaths.contents {Path : Type} (m : RequiredPaths Path) :
    List (Path × MObject × Nat × Nat × Nat) :=
  m.map (fun e => (e.1, e.2.m_node, e.2.required, e.2.selected, e.2.refCount))

/-- A character sequence free of the record separator `;` and of the field
separator, the space. -/
def noSeparator (s : Str) : Prop := ';' ∉ s ∧ ' ' ∉ s

instance (s : Str) : Decidable (noSeparator s) := by
  unfold noSeparator; infer_instance

instance {Path : Type} [LinearOrder Path] (m : RequiredPaths Path) : Decidable m.WF := by
  unfold RequiredPaths.WF; infer_instance

/-- The entry `e` can be restored from its record in the scene `H`: its node has
a non-empty DAG path without separator that the scene resolves back to the
node, its scene path has a non-empty text without separator that parses back
to the path, and its counts are `uint32_t` values. -/
def Host.Restorable {Path : Type} (H : Host Path) (e : Path × TransformReference) : Prop :=
  H.fullPathName e.2.m_node ≠ [] ∧ noSeparator (H.fullPathName e.2.m_node)
    ∧ H.getDependNode (H.fullPathName e.2.m_node) = some e.2.m_node
    ∧ H.GetText e.1 ≠ [] ∧ noSeparator (H.GetText e.1) ∧ H.SdfPath (H.GetText e.1) = e.1
    ∧ e.2.required < 2 ^ 32 ∧ e.2.selected < 2 ^ 32 ∧ e.2.refCount < 2 ^ 32

instance {Path : Type} [DecidableEq Path] (H : Host Path) (e : Path × TransformReference) :
    Decidable (H.Restorable e) := by
  unfold Host.Restorable; infer_instance

/-- The record of the entry `e` is read back to the scene path of `e`: the
texts of its node and of its scene path are free of separators, the text of
the scene path is non-empty and parses back to the path, and, when the node
has no DAG path (a null or deleted node, written as an empty name), the text
of the scene path is not the name of a node. -/
def Host.Reparsable {Path : Type} (H : Host Path) (e : Path × TransformReference) : Prop :=
  noSeparator (H.fullPathName e.2.m_node)
    ∧ H.GetText e.1 ≠ [] ∧ noSeparator (H.GetText e.1) ∧ H.SdfPath (H.GetText e.1) = e.1
    ∧ (H.fullPathName e.2.m_node = [] → H.getDependNode (H.GetText e.1) = none)

instance {Path : Type} [DecidableEq Path] (H : Host Path) (e : Path × TransformReference) :
    Decidable (H.Reparsable e) := by
  unfold Host.Reparsable; infer_instance

/-- A table whose only entry, for path `1`, is required once and bound to the
null handle: the entry `acquire` creates before a node exists. -/
def nullNodeTable : RequiredPaths Nat :=
  [(1, TransformReference.make MObject.kNullObj none 1 0 0)]

/-- A persisted string whose first record has two fields only, with a node
path the sample scene resolves, and whose second record is well-formed. -/
def shortRecordString : Str :=
  "|root|one|rig /root/one/rig;|root|two|rig /root/two/rig 1 0 1;".toList

/-- A persisted string whose first record names a node the sample scene does
not have, and whose second record is well-formed. -/
def unknownNodeString : Str :=
  "|root|gone /root/one/rig 1 0 1;|root|two|rig /root/two/rig 1 0 1;".toList

/-- A small scene for evaluating the codec: scene paths are numbered, path `1`
is `/root/one/rig` bound to node `11` with DAG path `|root|one|rig`, path `2` is
`/root/two/rig` bound to node `12` with DAG path `|root|two|rig`; any other
path has the text `/`, and any other node, the null handle included, has no DAG
path. -/
def sampleHost (skip : Bool) : Host Nat where
  fullPathName := fun n =>
    if n = 11 then "|root|one|rig".toList else if n = 12 then "|root|two|rig".toList else []
  getDependNode := fun s =>
    if s = "|root|one|rig".toList then some 11
    else if s = "|root|two|rig".toList then some 12 else none
  isTransform := fun _ => true
  GetText := fun p =>
    if p = 1 then "/root/one/rig".toList else if p = 2 then "/root/two/rig".toList
    else "/".toList
  SdfPath := fun s =>
    if s = "/root/one/rig".toList then 1 else if s = "/root/two/rig".toList then 2 else 0
  splitSkipsEmpty := skip

/-- The table of the save and reload test: both rigs, each held once. -/
def sampleTable : RequiredPaths Nat :=
  [(1, TransformReference.make 11 (some 11) 1 0 1),
   (2, TransformReference.make 12 (some 12) 1 0 1)]

/-! ## Stage, prims and the collaborators of the resync -/

/-- What the code reads from a `UsdPrim` handle: `GetPath()`/`GetPrimPath()`,
`IsValid()` (also the conversion to `bool`), `GetTypeName()`, the string that
`GetMetadata(Metadata::transformType, &s)` leaves in `s` (empty when the
metadata is not authored) and the result of
`GetMetadata(Metadata::excludeFromProxyShape, &b)` (`none` when the call
returns false, otherwise the value stored in `b`). -/
structure UsdPrim (Path : Type) where
  path : Path
  isValid : Bool
  typeName : String
  transformType : Str
  excludeFromProxyShape : Option Bool
deriving DecidableEq

/-- The two capabilities of a translator that `filterUpdatablePrims` asks for. -/
structure Translator where
  supportsUpdate : Bool
  needsTransformParent : Bool
deriving DecidableEq

/-- A `UsdStage` as far as the code looks at it: `id` stands for the identity
of the stage object (what `sender != m_stage` compares), `traversal` lists the
prims that `fileio::TransformIterator(m_stage, parentPath)` visits, `subtree p`
those that `fileio::TransformIterator(p, parentPath)` visits, and
`excludedSchema` collects the paths of the prims on which
`SetCustomDataByKey(fileio::ALSchemaType, ALExcludedPrimSchema)` was called. -/
structure UsdStage (Path : Type) where
  id : Nat
  GetPrimAtPath : Path → UsdPrim Path
  traversal : List (UsdPrim Path)
  subtree : UsdPrim Path → List (UsdPrim Path)
  excludedSchema : List Path

/-- The collaborators of the listener and of the resync that are not among the
sources (`SchemaNodeRefDB`, `TranslatorContext`, `ProxyShapePostLoadProcess`,
the translator manufacture, `ProxyShape.h`) or belong to USD. `W` is the state
they keep: the Maya scene and the schema-node registry. They may change `W`
and, where they receive the proxy shape, its required-path table; they are
taken not to touch the dirty state or the stage of the proxy shape.

* `emptyPath` is `SdfPath()`; `HasPrefix a b` is `a.HasPrefix(b)`;
* `preRemoveEntry path w` is `db.preRemoveEntry(path, outPathVector)`: the new
  registry state and the paths appended to `outPathVector`;
* `isSchemaPrim` is `SchemaPrimsUtils::isSchemaPrim`;
* `getTypeForPath` is `schemaDB().context()->getTypeForPath`, `translator` is
  `manufacture.get(type)` (`none` for a null `TranslatorRefPtr`);
* `findRequiredPath` is `ProxyShape::findRequiredPath`;
* the remaining fields are the calls of the same names in `onPrimResync`,
  `constructExcludedPrims` and `findExcludedGeometry`. -/
structure Collaborators (Path W : Type) where
  emptyPath : Path
  HasPrefix : Path → Path → Bool
  preRemoveEntry : Path → W → W × List Path
  isSchemaPrim : UsdPrim Path → Bool
  getTypeForPath : W → Path → String
  translator : String → Option Translator
  findRequiredPath : RequiredPaths Path → Path → MObject
  lock : W → W
  unlock : W → W
  removeEntries : List Path → RequiredPaths Path → W → RequiredPaths Path × W
  updatePrimTypes : W → W
  createTranformChainsForSchemaPrims : List (UsdPrim Path) → List (MObject × UsdPrim Path) →
    RequiredPaths Path → W → List (MObject × UsdPrim Path) × RequiredPaths Path × W
  createSchemaPrims : List (MObject × UsdPrim Path) → RequiredPaths Path → W →
    RequiredPaths Path × W
  connectSchemaPrims : List (MObject × UsdPrim Path) → RequiredPaths Path → W →
    RequiredPaths Path × W
  constructGLImagingEngine : W → W
  getExcludePrimPaths : W → List Path

/-- The calls a resync pass makes, in the order it makes them; the proxy shape
state keeps them in `trace`, which nothing else writes. -/
inductive Step (Path : Type) where
  | primResync (primPath : Path) (variantPrimsToSwitch : List Path)
  | huntForNativeNodesUnderPrim (primPath : Path)
  | lock
  | removeEntries (paths : List Path)
  | cleanupTransformRefs
  | filterUpdatablePrims
  | updatePrimTypes
  | createTranformChainsForSchemaPrims
  | createSchemaPrims
  | unlock
  | connectSchemaPrims
  | validateTransforms
  | constructGLImagingEngine
deriving DecidableEq

/-- The members of a `ProxyShape` that the listener, the resync and the
attribute callback read and write. `transformPrims node` describes the
`Transform` behind a non-null `Transform*` for `node`: `none` when
`tm->transform()` is null, otherwise the prim `tm->transform()->prim()`.
`world` is the state of the collaborators and `trace` the calls made by the
resync passes so far. -/
structure ProxyShapeData (Path W : Type) where
  m_stage : Option (UsdStage Path)
  m_path : Path
  m_compositionHasChanged : Bool
  m_variantChangePath : Path
  m_variantSwitchedPrims : List Path
  m_requiredPaths : RequiredPaths Path
  m_excludedTaggedGeometry : List Path
  m_excludedGeometry : List Path
  transformPrims : MObject → Option (UsdPrim Path)
  world : W
  trace : List (Step Path)

/-- The test of `filterUpdatablePrims` on the prim under the iterator:
`type == it->GetTypeName() && translator && translator->supportsUpdate() &&
translator->needsTransformParent()` with `type` the type on record for the
prim's path and `translator` the translator registered for `type`. -/
def filterUpdatablePrims.updatable {Path W : Type} (C : Collaborators Path W) (w : W)
    (it : UsdPrim Path) : Bool :=
  let type := C.getTypeForPath w it.path
  decide (type = it.typeName) &&
    (match C.translator type with
     | some translator => translator.supportsUpdate && translator.needsTransformParent
     | none => false)

/-- The loop of `filterUpdatablePrims`. `front` is the part of
`variantPrimsToSwitch` before the iterator, the last argument the part from the
iterator onwards, `objs` is `objsToCreate`. After
`variantPrimsToSwitch.erase(it)` the iterator stands on the element that
followed the erased one (the later elements of the vector move down one place
and the source goes on with the same iterator). -/
def filterUpdatablePrims.loop {Path W : Type} (C : Collaborators Path W) (w : W)
    (m : RequiredPaths Path) :
    List (UsdPrim Path) → List (MObject × UsdPrim Path) → List (UsdPrim Path) →
      List (UsdPrim Path) × List (MObject × UsdPrim Path)
  | front, objs, [] => (front, objs)
  | front, objs, it :: rest =>
    if filterUpdatablePrims.updatable C w it then
      filterUpdatablePrims.loop C w m front (objs ++ [(C.findRequiredPath m it.path, it)]) rest
    else
      filterUpdatablePrims.loop C w m (front ++ [it]) objs rest

/-- The function `ProxyShape::filterUpdatablePrims`: the first component is
`variantPrimsToSwitch` after the call, the second the returned `objsToCreate`. -/
def filterUpdatablePrims {Path W : Type} (C : Collaborators Path W) (w : W)
    (m : RequiredPaths Path) (variantPrimsToSwitch : List (UsdPrim Path)) :
    List (UsdPrim Path) × List (MObject × UsdPrim Path) :=
  filterUpdatablePrims.loop C w m [] [] variantPrimsToSwitch

/-- The body of the loop of `validateTransforms` for the entry `it`, on the
pair of `transformPrims` and the local `pathsToNuke`. -/
def validateTransforms.visit {Path : Type} (stage : UsdStage Path)
    (st : (MObject → Option (UsdPrim Path)) × List Path) (it : Path × TransformReference) :
    (MObject → Option (UsdPrim Path)) × List Path :=
  match it.2.m_transform with
  | none => st
  | some tm =>
    match st.1 tm with
    | none => st
    | some prim =>
      if !prim.isValid then
        let newPrim := stage.GetPrimAtPath it.1
        if newPrim.isValid then
          if newPrim.isValid && decide (newPrim.transformType = []) then
            (Function.update st.1 tm (some newPrim), st.2)
          else st
        else (st.1, st.2 ++ [it.1])
      else st

/-- The function `ProxyShape::validateTransforms`, together with the contents
of its local `pathsToNuke` when it returns (the source drops them). -/
def validateTransforms {Path W : Type} (self : ProxyShapeData Path W) :
    ProxyShapeData Path W × List Path :=
  match self.m_stage with
  | some stage =>
    let st := self.m_requiredPaths.foldl (validateTransforms.visit stage) (self.transformPrims, [])
    ({ self with transformPrims := st.1 }, st.2)
  | none => (self, [])

/-- The function `ProxyShape::primHasExcludedParent`, on the current contents
of `m_excludedTaggedGeometry`. -/
def primHasExcludedParent {Path W : Type} (C : Collaborators Path W)
    (m_excludedTaggedGeometry : List Path) (prim : UsdPrim Path) : Bool :=
  if prim.isValid then
    m_excludedTaggedGeometry.any (fun excludedPath => C.HasPrefix prim.path excludedPath)
  else false

/-- The body of the loop of `findExcludedGeometry` for the visited prim, on the
pair of `m_excludedTaggedGeometry` and the stage's `excludedSchema`. -/
def findExcludedGeometry.visit {Path W : Type} (C : Collaborators Path W)
    (st : List Path × List Path) (prim : UsdPrim Path) : List Path × List Path :=
  if !prim.isValid then st
  else
    let excludeGeo := match prim.excludeFromProxyShape with
      | some b => b
      | none => false
    let tagged := if excludeGeo then st.1 ++ [prim.path] else st.1
    if excludeGeo || primHasExcludedParent C tagged prim then (tagged, st.2 ++ [prim.path])
    else (tagged, st.2)

/-- The function `ProxyShape::constructExcludedPrims`. -/
def constructExcludedPrims {Path W : Type} (C : Collaborators Path W)
    (self : ProxyShapeData Path W) : ProxyShapeData Path W :=
  { self with m_excludedGeometry := C.getExcludePrimPaths self.world,
              world := C.constructGLImagingEngine self.world }

/-- The function `ProxyShape::findExcludedGeometry`. -/
def findExcludedGeometry {Path W : Type} (C : Collaborators Path W)
    (self : ProxyShapeData Path W) : ProxyShapeData Path W :=
  match self.m_stage with
  | none => self
  | some stage =>
    let st := stage.traversal.foldl (findExcludedGeometry.visit C) ([], stage.excludedSchema)
    constructExcludedPrims C
      { self with m_excludedTaggedGeometry := st.1,
                  m_stage := some { stage with excludedSchema := st.2 } }

/-- The function `ProxyShape::huntForNativeNodesUnderPrim`: `none` is the call
`m_stage->GetPrimAtPath` through a null stage pointer. -/
def huntForNativeNodesUnderPrim {Path W : Type} (C : Collaborators Path W) (startPath : Path)
    (self : ProxyShapeData Path W) : Option (List (UsdPrim Path) × ProxyShapeData Path W) :=
  match self.m_stage with
  | none => none
  | some stage =>
    let prims := (stage.subtree (stage.GetPrimAtPath startPath)).filter
      (fun prim => prim.isValid && C.isSchemaPrim prim)
    some (prims, findExcludedGeometry C self)

/-- Appends a call to the trace. -/
def ProxyShapeData.log {Path W : Type} (self : ProxyShapeData Path W) (s : Step Path) :
    ProxyShapeData Path W :=
  { self with trace := self.trace ++ [s] }

/-- Records the call `s` of a resync pass together with what it leaves in the
required-path table and in the state of the collaborators. -/
def ProxyShapeData.step {Path W : Type} (self : ProxyShapeData Path W) (s : Step Path)
    (m : RequiredPaths Path) (w : W) : ProxyShapeData Path W :=
  { self with trace := self.trace ++ [s], m_requiredPaths := m, world := w }

/-- The part of `onPrimResync` from `schemaNodeDB.lock()` to
`cleanupTransformRefs()`. -/
def onPrimResync.remove {Path W : Type} (C : Collaborators Path W)
    (variantPrimsToSwitch : List Path) (self : ProxyShapeData Path W) : ProxyShapeData Path W :=
  let s1 := self.step Step.lock self.m_requiredPaths (C.lock self.world)
  let removed := C.removeEntries variantPrimsToSwitch s1.m_requiredPaths s1.world
  let s2 := s1.step (Step.removeEntries variantPrimsToSwitch) removed.1 removed.2
  let s3 : ProxyShapeData Path W := { s2 with m_variantSwitchedPrims := [] }
  s3.step Step.cleanupTransformRefs (cleanupTransformRefs s3.m_requiredPaths) s3.world

/-- The part of `onPrimResync` from `filterUpdatablePrims` to
`connectSchemaPrims`, for the prims `primsToSwitch` found by the hunt. -/
def onPrimResync.create {Path W : Type} (C : Collaborators Path W)
    (primsToSwitch : List (UsdPrim Path)) (self : ProxyShapeData Path W) :
    ProxyShapeData Path W :=
  let filtered := filterUpdatablePrims C self.world self.m_requiredPaths primsToSwitch
  let s1 := self.step Step.filterUpdatablePrims self.m_requiredPaths self.world
  let s2 := s1.step Step.updatePrimTypes s1.m_requiredPaths (C.updatePrimTypes s1.world)
  let chains := C.createTranformChainsForSchemaPrims filtered.1 filtered.2
    s2.m_requiredPaths s2.world
  let s3 := s2.step Step.createTranformChainsForSchemaPrims chains.2.1 chains.2.2
  let created := C.createSchemaPrims chains.1 s3.m_requiredPaths s3.world
  let s4 := s3.step Step.createSchemaPrims created.1 created.2
  let s5 := s4.step Step.unlock s4.m_requiredPaths (C.unlock s4.world)
  let connected := C.connectSchemaPrims chains.1 s5.m_requiredPaths s5.world
  s5.step Step.connectSchemaPrims connected.1 connected.2

/-- The end of `onPrimResync`: `validateTransforms()` and
`constructGLImagingEngine()`. -/
def onPrimResync.finish {Path W : Type} (C : Collaborators Path W)
    (self : ProxyShapeData Path W) : ProxyShapeData Path W :=
  let s1 := (validateTransforms (self.log Step.validateTransforms)).1
  s1.step Step.constructGLImagingEngine s1.m_requiredPaths (C.constructGLImagingEngine s1.world)

/-- The function `ProxyShape::onPrimResync`, statement by statement; `none` is
the fault of `huntForNativeNodesUnderPrim` on a null stage. -/
def onPrimResync {Path W : Type} (C : Collaborators Path W) (primPath : Path)
    (variantPrimsToSwitch : List Path) (self : ProxyShapeData Path W) :
    Option (ProxyShapeData Path W) :=
  match huntForNativeNodesUnderPrim C primPath
      ((self.log (Step.primResync primPath variantPrimsToSwitch)).log
        (Step.huntForNativeNodesUnderPrim primPath)) with
  | none => none
  | some found =>
    some (onPrimResync.finish C
      (onPrimResync.create C found.1 (onPrimResync.remove C variantPrimsToSwitch found.2)))

/-- The function `ProxyShape::onObjectsChanged`. `opening` is
`MFileIO::isOpeningFile()`, `sender` the identity of the stage that sent the
notice (`none` for a null or expired pointer). -/
def onObjectsChanged {Path W : Type} (C : Collaborators Path W) (opening : Bool)
    (sender : Option Nat) (self : ProxyShapeData Path W) : Option (ProxyShapeData Path W) :=
  if opening then some self
  else if sender = none ∨ sender ≠ self.m_stage.map (fun stage => stage.id) then some self
  else if self.m_compositionHasChanged then
    match onPrimResync C self.m_variantChangePath self.m_variantSwitchedPrims
        { self with m_compositionHasChanged := false } with
    | none => none
    | some after =>
      some { after with m_variantSwitchedPrims := [], m_variantChangePath := C.emptyPath }
  else some self

/-! ## Change listener -/

/-- The token `SdfFieldKeys->VariantSelection`. -/
def SdfFieldKeys.VariantSelection : String := "variantSelection"

/-- The token `SdfFieldKeys->Active`. -/
def SdfFieldKeys.Active : String := "active"

/-- An `SdfChangeList::Entry` as far as the listener reads it: the keys of
`infoChanged` in iteration order. -/
structure SdfChangeListEntry where
  infoChanged : List String
deriving DecidableEq

/-- The contents of an `SdfNotice::LayersDidChange`: for every layer of
`GetChangeListMap()`, in iteration order, its `GetEntryList()` of paths with
their entries. -/
abbrev LayersDidChange (Path : Type) := List (List (Path × SdfChangeListEntry))

/-- The field keys on which the listener reacts. -/
def isCompositionField (key : String) : Bool :=
  decide (key = SdfFieldKeys.VariantSelection ∨ key = SdfFieldKeys.Active)

/-- The function `ProxyShape::onPrePrimChanged`, called on
`m_variantSwitchedPrims`. Modelled from the spec: `preRemoveEntry` of the
registry, which is not among the sources, identifies the affected entries
rooted at `path` and appends them to the vector it is given. -/
def onPrePrimChanged {Path W : Type} (C : Collaborators Path W) (path : Path)
    (self : ProxyShapeData Path W) : ProxyShapeData Path W :=
  { self with world := (C.preRemoveEntry path self.world).1,
              m_variantSwitchedPrims :=
                self.m_variantSwitchedPrims ++ (C.preRemoveEntry path self.world).2 }

/-- The body of the innermost loop of `variantSelectionListener`, for the key
`key` of `entry.infoChanged` of the entry at `path`. -/
def variantSelectionListener.field {Path W : Type} (C : Collaborators Path W) (path : Path)
    (self : ProxyShapeData Path W) (key : String) : ProxyShapeData Path W :=
  if isCompositionField key then
    onPrePrimChanged C path
      { self with m_compositionHasChanged := true, m_variantChangePath := path }
  else self

/-- The function `ProxyShape::variantSelectionListener`; `opening` is
`MFileIO::isOpeningFile()`. -/
def variantSelectionListener {Path W : Type} (C : Collaborators Path W) (opening : Bool)
    (notice : LayersDidChange Path) (self : ProxyShapeData Path W) : ProxyShapeData Path W :=
  if opening then self
  else
    notice.foldl (fun s layer =>
      layer.foldl (fun s entry =>
        entry.2.infoChanged.foldl (variantSelectionListener.field C entry.1) s) s) self

/-- The entries of a sequence of notices in the order the listener sees them. -/
def allEntries {Path : Type} (notices : List (LayersDidChange Path)) :
    List (Path × SdfChangeListEntry) :=
  notices.flatMap (fun notice => notice.flatten)

/-- The paths the listener reacts on, in iteration order: the path of an entry
once for every key of its `infoChanged` that is `VariantSelection` or `Active`. -/
def compositionEdits {Path : Type} (entries : List (Path × SdfChangeListEntry)) : List Path :=
  entries.flatMap (fun entry =>
    (entry.2.infoChanged.filter isCompositionField).map (fun _ => entry.1))

/-- The entries with a changed field `VariantSelection` or `Active`, in
iteration order. -/
def compositionEntries {Path : Type} (entries : List (Path × SdfChangeListEntry)) :
    List (Path × SdfChangeListEntry) :=
  entries.filter (fun entry => entry.2.infoChanged.any isCompositionField)

/-- The listener run on a sequence of notices, none of them during file open. -/
def listenAll {Path W : Type} (C : Collaborators Path W) (notices : List (LayersDidChange Path))
    (self : ProxyShapeData Path W) : ProxyShapeData Path W :=
  notices.foldl (fun s notice => variantSelectionListener C false notice s) self

/-- The pre-removal callback run for the paths `edits` one after the other,
from the registry state `w`: the registry state afterwards and everything the
calls appended. -/
def preRemovals {Path W : Type} (C : Collaborators Path W) : List Path → W → W × List Path
  | [], w => (w, [])
  | path :: rest, w =>
    let r := preRemovals C rest (C.preRemoveEntry path w).1
    (r.1, (C.preRemoveEntry path w).2 ++ r.2)

/-! ## Root prim path and stage loading -/

/-- The input attributes `reloadStage` reads from the data block: `m_filePath`,
`m_serializedSessionLayer`, `m_unloaded` and `m_primPath`. -/
structure ReloadInputs where
  file : Str
  serializedSessionLayer : Str
  unloaded : Bool
  primPath : Str
deriving DecidableEq

/-- The libraries behind `reloadStage`: `TfStringTrimRight`, `resolvePath` (the
`ArResolver`), `TfIsFile(path, true)`, `SdfLayer::FindOrOpen` (`none` for a null
layer; a layer is named by a number), `UsdStage::Open` for a root layer, the
session layer imported from the given string and the `unloaded` flag (`none`
for a null stage), the effect of `setLayerAndClearAttribute` on the layer node,
and `cmds::ProxyShapePostLoadProcess::initialise`, which works on the
required-path table and on the state of the collaborators. -/
structure StageLoader (Path W : Type) where
  TfStringTrimRight : Str → Str
  resolvePath : Str → Str
  TfIsFile : Str → Bool
  FindOrOpen : Str → Option Nat
  Open : Nat → Str → Bool → Option (UsdStage Path)
  setLayerAndClearAttribute : Str → W → W
  initialise : UsdStage Path → RequiredPaths Path → W → RequiredPaths Path × W

/-- The part of `reloadStage` that opens the stage: from `m_stage =
UsdStageRefPtr()` to the end of the `isValidPath` branches (the warnings shown
to the user are left out). -/
def reloadStage.openStage {Path W : Type} (L : StageLoader Path W) (inp : ReloadInputs)
    (self : ProxyShapeData Path W) : ProxyShapeData Path W :=
  let trimmed := L.TfStringTrimRight inp.file
  let resolved := if ¬ "./".toList.isPrefixOf trimmed then L.resolvePath trimmed else trimmed
  let fileString := if resolved = [] then inp.file else resolved
  let isValidPath := "//".toList.isPrefixOf fileString || L.TfIsFile fileString
  if isValidPath then
    let w := if inp.serializedSessionLayer.length ≠ 0 then
        L.setLayerAndClearAttribute inp.serializedSessionLayer self.world
      else self.world
    match L.FindOrOpen fileString with
    | some rootLayer =>
      { self with m_stage := L.Open rootLayer inp.serializedSessionLayer inp.unloaded, world := w }
    | none => { self with m_stage := none, world := w }
  else { self with m_stage := none }

/-- The part of `reloadStage` under the comment `Get the prim`: `none` is the
call `m_stage->GetPrimAtPath` through a null stage pointer. -/
def reloadStage.getPrim {Path W : Type} (H : Host Path) (primPathStr : Str)
    (self : ProxyShapeData Path W) : Option (ProxyShapeData Path W) :=
  let rootPath := H.SdfPath "/".toList
  if primPathStr.length ≠ 0 then
    match self.m_stage with
    | none => none
    | some stage =>
      if !(stage.GetPrimAtPath (H.SdfPath primPathStr)).isValid then
        some { self with m_path := rootPath }
      else some { self with m_path := H.SdfPath primPathStr }
  else some { self with m_path := rootPath }

/-- The end of `reloadStage`: under `if(m_stage && !MFileIO::isOpeningFile())`
the calls `findExcludedGeometry()` and
`cmds::ProxyShapePostLoadProcess::initialise(this)` (the profiler report is left
out). -/
def reloadStage.postLoad {Path W : Type} (C : Collaborators Path W) (L : StageLoader Path W)
    (opening : Bool) (self : ProxyShapeData Path W) : ProxyShapeData Path W :=
  if opening then self
  else
    match self.m_stage with
    | some _ =>
      let found := findExcludedGeometry C self
      match found.m_stage with
      | some stage =>
        { found with m_requiredPaths := (L.initialise stage found.m_requiredPaths found.world).1,
                     world := (L.initialise stage found.m_requiredPaths found.world).2 }
      | none => found
    | none => self

/-- The function `ProxyShape::reloadStage`; `opening` is
`MFileIO::isOpeningFile()`. -/
def reloadStage {Path W : Type} (H : Host Path) (C : Collaborators Path W)
    (L : StageLoader Path W) (opening : Bool) (inp : ReloadInputs)
    (self : ProxyShapeData Path W) : Option (ProxyShapeData Path W) :=
  match reloadStage.getPrim H inp.primPath (reloadStage.openStage L inp self) with
  | none => none
  | some s => some (reloadStage.postLoad C L opening s)

/-- The plug an attribute-changed callback is called for. -/
inductive Plug where
  | m_filePath
  | m_primPath
  | m_excludePrimPaths
  | other
deriving DecidableEq

/-- The function `ProxyShape::onAttributeChanged`: `attributeSet` is
`msg & MNodeMessage::kAttributeSet`, `inp` holds the values of the input
attributes (`inp.primPath` is `plug.asString()` for the prim path plug). -/
def onAttributeChanged {Path W : Type} (H : Host Path) (C : Collaborators Path W)
    (L : StageLoader Path W) (opening : Bool) (attributeSet : Bool) (plug : Plug)
    (inp : ReloadInputs) (proxy : ProxyShapeData Path W) : Option (ProxyShapeData Path W) :=
  let rootPath := H.SdfPath "/".toList
  if attributeSet then
    match plug with
    | Plug.m_filePath => reloadStage H C L opening inp proxy
    | Plug.m_primPath =>
      match proxy.m_stage with
      | some stage =>
        let primPathStr := inp.primPath
        let moved : ProxyShapeData Path W :=
          if primPathStr.length ≠ 0 then
            if !(stage.GetPrimAtPath (H.SdfPath primPathStr)).isValid then
              { proxy with m_path := rootPath }
            else { proxy with m_path := H.SdfPath primPathStr }
          else { proxy with m_path := rootPath }
        some { moved with world := C.constructGLImagingEngine moved.world }
      | none => some proxy
    | Plug.m_excludePrimPaths =>
      match proxy.m_stage with
      | some _ => some (constructExcludedPrims C proxy)
      | none => some proxy
    | Plug.other => some proxy
  else some proxy

/-! ## Driven transforms -/

/-- The enumeration `UsdGeomXformOp::Type`. -/
inductive XformOpType where
  | TypeInvalid
  | TypeTranslate
  | TypeScale
  | TypeRotateX
  | TypeRotateY
  | TypeRotateZ
  | TypeRotateXYZ
  | TypeRotateXZY
  | TypeRotateYXZ
  | TypeRotateYZX
  | TypeRotateZXY
  | TypeRotateZYX
  | TypeOrient
  | TypeTransform
deriving DecidableEq

/-- A transform op with what is authored on it: `GetOpType()` and the
time samples of its attribute (`M` are the values, `T` the times). -/
structure AuthoredOp (M T : Type) where
  opType : XformOpType
  samples : List (T × M)
deriving DecidableEq

/-- Modelled from the spec: `TransformationMatrix::pushMatrix(matrix, op, time)`,
declared in `TransformationMatrix.h`, overwrites the time-sampled value of the
op: afterwards the op holds `matrix` at `time` and its other samples as before. -/
def pushMatrix {M T : Type} [DecidableEq T] (matrix : M) (op : AuthoredOp M T) (time : T) :
    AuthoredOp M T :=
  { op with samples := (time, matrix) :: op.samples.filter (fun s => s.1 ≠ time) }

/-- The op `xform.AddTransformOp()` creates: a matrix op without samples; USD
appends it to the prim's op order. -/
def AddTransformOp {M T : Type} : AuthoredOp M T :=
  { opType := XformOpType.TypeTransform, samples := [] }

/-- The members of `DrivenTransforms` that `updateDrivenTransforms` reads:
the dirty indices (`std::vector<int32_t>`) and the matrix stored for an index
(the record is taken to hold a matrix for every index of a driven prim). -/
structure DrivenTransforms (M : Type) where
  m_dirtyMatrices : List Int
  m_drivenMatrix : Nat → M

/-- The loop `for (auto& it : xformops)` of `updateDrivenTransforms`: the ops
after the matrix was pushed into the first op of type `TypeTransform`, `none`
when the loop ends with `pushed` still false. -/
def updateDrivenTransforms.push {M T : Type} [DecidableEq T] (matrix : M) (time : T) :
    List (AuthoredOp M T) → Option (List (AuthoredOp M T))
  | [] => none
  | it :: rest =>
    if it.opType = XformOpType.TypeTransform then some (pushMatrix matrix it time :: rest)
    else (updateDrivenTransforms.push matrix time rest).map (fun ops => it :: ops)

/-- The body of the outer loop of `updateDrivenTransforms` for the dirty index
`idx`, on the ordered ops of every prim (`opStacks`). The comparison
`idx >= drivenPrims.size()` converts the `int32_t` to `size_t`, so a negative
index compares as `2 ^ 64 + idx`. -/
def updateDrivenTransforms.visit {Path M T : Type} [DecidableEq Path] [DecidableEq T]
    (drivenPrims : List (UsdPrim Path)) (drivenTransforms : DrivenTransforms M) (currentTime : T)
    (opStacks : Path → List (AuthoredOp M T)) (idx : Int) : Path → List (AuthoredOp M T) :=
  if (idx % 2 ^ 64).toNat ≥ drivenPrims.length then opStacks
  else
    match drivenPrims.get? idx.toNat with
    | none => opStacks
    | some usdPrim =>
      if !usdPrim.isValid then opStacks
      else
        let xformops := opStacks usdPrim.path
        match updateDrivenTransforms.push (drivenTransforms.m_drivenMatrix idx.toNat)
            currentTime xformops with
        | some ops => Function.update opStacks usdPrim.path ops
        | none =>
          Function.update opStacks usdPrim.path
            (xformops ++ [pushMatrix (drivenTransforms.m_drivenMatrix idx.toNat)
              AddTransformOp currentTime])

/-- The function `ProxyShape::updateDrivenTransforms`. -/
def updateDrivenTransforms {Path M T : Type} [DecidableEq Path] [DecidableEq T]
    (drivenPrims : List (UsdPrim Path)) (drivenTransforms : DrivenTransforms M) (currentTime : T)
    (opStacks : Path → List (AuthoredOp M T)) : Path → List (AuthoredOp M T) :=
  drivenTransforms.m_dirtyMatrices.foldl
    (updateDrivenTransforms.visit drivenPrims drivenTransforms currentTime) opStacks

/-- The root prim path that the prim path string `primPathStr` selects on the
stage `stage`: the pseudo-root `/` for the empty string and for a path without
a prim, otherwise the given path. -/
def selectedRootPath {Path : Type} (H : Host Path) (stage : UsdStage Path) (primPathStr : Str) :
    Path :=
  if primPathStr = [] then H.SdfPath "/".toList
  else if (stage.GetPrimAtPath (H.SdfPath primPathStr)).isValid then H.SdfPath primPathStr
  else H.SdfPath "/".toList

/-- A driven prim for evaluating `updateDrivenTransforms`: path `1`, valid. -/
def sampleDrivenPrim : UsdPrim Nat :=
  { path := 1, isValid := true, typeName := "Xform", transformType := [],
    excludeFromProxyShape := none }

/-- Ordered ops for evaluating `updateDrivenTransforms`: the prim at path `1`
has a translate op and a matrix op holding matrix `5` at time `0`; other prims
have no ops. Matrices and times are numbers. -/
def sampleOpStacks : Nat → List (AuthoredOp Nat Nat) := fun path =>
  if path = 1 then
    [{ opType := XformOpType.TypeTranslate, samples := [] },
     { opType := XformOpType.TypeTransform, samples := [(0, 5)] }]
  else []

/-- A driven-transforms record whose matrix for index `i` is `40 + i`. -/
def sampleDrivenTransforms : DrivenTransforms Nat :=
  { m_dirtyMatrices := [0], m_drivenMatrix := fun i => 40 + i }

/-! ## Restoring the translator context and the schema prims -/

/-- The string attributes behind `serializedTrCtxPlug()` and
`serializedSchemaPrimsPlug()` together with the state `W` of the schema-node
registry and its translator context. -/
structure PersistedBlobs (W : Type) where
  serializedTrCtx : Str
  serializedSchemaPrims : Str
  world : W

/-- The two parsers of the registry, which are not among the sources:
`m_schemaNodeDB.context()->deserialise(value)` and
`m_schemaNodeDB.deserialize(string)`. They receive the string by value. -/
structure BlobCodec (W : Type) where
  contextDeserialise : Str → W → W
  dbDeserialize : Str → W → W

/-- The function `ProxyShape::deserialiseTranslatorContext`. -/
def deserialiseTranslatorContext {W : Type} (B : BlobCodec W) (self : PersistedBlobs W) :
    PersistedBlobs W :=
  { self with world := B.contextDeserialise self.serializedTrCtx self.world }

/-- The function `ProxyShape::deserialiseSchemaPrims`. -/
def deserialiseSchemaPrims {W : Type} (B : BlobCodec W) (self : PersistedBlobs W) :
    PersistedBlobs W :=
  { self with world := B.dbDeserialize self.serializedSchemaPrims self.world,
              serializedSchemaPrims := [] }

/-! ## Driven prims: caches and internal values -/

/-- An `MVector` with components of type `D`. -/
structure MVector (D : Type) where
  x : D
  y : D
  z : D
deriving DecidableEq

/-- What is authored on the attribute of a transform op: a double or a vector. -/
inductive OpValue (D : Type) where
  | double (d : D)
  | vector (v : MVector D)
deriving DecidableEq

/-- The values authored on the ops of one prim. -/
abbrev OpValues (D : Type) := UsdGeomXformOp → Option (OpValue D)

/-- What `initPrim` and the internal-value callbacks take from Maya, USD and
`TransformationMatrix.h`:

* `elementByLogicalIndex i` is `plug.elementByLogicalIndex(i, &status)` on
  `m_drivenPrimPaths` followed by `element.asString()`, `none` when the status
  is a failure;
* `emptyPath` is `SdfPath()`, the value of a new element of `m_paths`;
* `GetOpType` is `UsdGeomXformOp::GetOpType`;
* `AddRotateXYZOp` is the op `xform.AddRotateXYZOp()` returns;
* `radToDeg d` is `d * (180.0 / 3.141592654)`;
* `pushDouble` and `pushVector` are the functions of `TransformationMatrix`
  with these names, on the values authored on the prim's ops;
* `ranks` holds `xformOpToEnum` and its enumerators. -/
structure DrivenEnv (Path D : Type) where
  elementByLogicalIndex : Nat → Option Str
  emptyPath : Path
  GetOpType : UsdGeomXformOp → XformOpType
  AddRotateXYZOp : UsdGeomXformOp
  radToDeg : D → D
  pushDouble : D → UsdGeomXformOp → OpValues D → OpValues D
  pushVector : MVector D → UsdGeomXformOp → OpValues D → OpValues D
  ranks : OpRanks

/-- The members the driven-prim code works on: the stage, the caches `m_paths`
and `m_prims`, and for every prim path the ordered ops of the prim
(`GetOrderedXformOps`, written with `SetXformOpOrder`) and the values authored
on them. -/
structure DrivenState (Path D : Type) where
  m_stage : Option (UsdStage Path)
  m_paths : List Path
  m_prims : List (UsdPrim Path)
  xformOpOrder : Path → List UsdGeomXformOp
  opValues : Path → OpValues D

/-- The call `v.resize(n)` of `std::vector`, with `d` the value of a new
element. -/
def vectorResize {α : Type} (v : List α) (n : Nat) (d : α) : List α :=
  v.take n ++ List.replicate (n - v.length) d

/-- A default-constructed `UsdPrim`: invalid. -/
def UsdPrim.invalid {Path : Type} (emptyPath : Path) : UsdPrim Path :=
  { path := emptyPath, isValid := false, typeName := "", transformType := [],
    excludeFromProxyShape := none }

/-- The assignment `v[i] = x` of `std::vector`: `none` is a write past the end. -/
def vectorAssign {α : Type} (v : List α) (i : Nat) (x : α) : Option (List α) :=
  if i < v.length then some (v.set i x) else none

/-- The end of `initPrim` for a valid prim: when the last ordered op is of
type `TypeTransform` it is erased from the order. -/
def initPrim.dropMatrixOp {Path D : Type} [DecidableEq Path] (E : DrivenEnv Path D)
    (prim : UsdPrim Path) (self : DrivenState Path D) : DrivenState Path D :=
  let xformops := self.xformOpOrder prim.path
  match xformops.getLast? with
  | some back =>
    if E.GetOpType back = XformOpType.TypeTransform then
      { self with xformOpOrder := Function.update self.xformOpOrder prim.path xformops.dropLast }
    else self
  | none => self

/-- The function `ProxyShape::initPrim` for the `uint32_t` `index`: the returned
flag and the state afterwards; `none` is a write past the end of `m_paths` or
`m_prims`. The resizing of the four driven plugs is left out. -/
def initPrim {Path D : Type} [DecidableEq Path] (H : Host Path) (E : DrivenEnv Path D)
    (index : Nat) (self : DrivenState Path D) : Option (Bool × DrivenState Path D) :=
  match E.elementByLogicalIndex index with
  | none => some (false, self)
  | some path =>
    match self.m_stage with
    | some stage =>
      let resized : DrivenState Path D :=
        if self.m_paths.length ≥ index then
          { self with
            m_paths := vectorResize self.m_paths ((index + 1) % 2 ^ 32) E.emptyPath,
            m_prims := vectorResize self.m_prims ((index + 1) % 2 ^ 32)
              (UsdPrim.invalid E.emptyPath) }
        else self
      match vectorAssign resized.m_paths index (H.SdfPath path) with
      | none => none
      | some paths =>
        match vectorAssign resized.m_prims index (stage.GetPrimAtPath (H.SdfPath path)) with
        | none => none
        | some prims =>
          let written : DrivenState Path D := { resized with m_paths := paths, m_prims := prims }
          if (stage.GetPrimAtPath (H.SdfPath path)).isValid then
            some (true, initPrim.dropMatrixOp E (stage.GetPrimAtPath (H.SdfPath path)) written)
          else some (false, written)
    | none => some (false, self)

/-- The test `m_prims.size() <= index || !m_prims[index]` that the callbacks
make before calling `initPrim`. -/
def needsInit {Path D : Type} (index : Nat) (self : DrivenState Path D) : Bool :=
  match self.m_prims.get? index with
  | some prim => !prim.isValid
  | none => true

/-- The `switch` in the rotate-order loop of `getInternalValueInContext`: the
value of `rotateOrder` after it. -/
def rotateOrderOf (rotateOrder : Int) : XformOpType → Int
  | XformOpType.TypeRotateX => 0
  | XformOpType.TypeRotateY => 0
  | XformOpType.TypeRotateZ => 0
  | XformOpType.TypeRotateXYZ => 0
  | XformOpType.TypeRotateYZX => 1
  | XformOpType.TypeRotateZXY => 2
  | XformOpType.TypeRotateXZY => 3
  | XformOpType.TypeRotateYXZ => 4
  | XformOpType.TypeRotateZYX => 5
  | _ => rotateOrder

/-- The loop `for(it = ...; it != end && rotateOrder == -1; ++it)` of the
rotate-order branch over the ops from the iterator to `end`. -/
def rotateOrderLoop {Path D : Type} (E : DrivenEnv Path D) :
    List UsdGeomXformOp → Int → Int
  | [], rotateOrder => rotateOrder
  | it :: rest, rotateOrder =>
    if rotateOrder = -1 then rotateOrderLoop E rest (rotateOrderOf rotateOrder (E.GetOpType it))
    else rotateOrder

/-- The branch `plug.array() == m_drivenRotateOrder` of
`ProxyShape::getInternalValueInContext` for the logical index `index`: the
returned flag, the value set on the data handle (`none` when nothing is set)
and the state afterwards. The iterator of the loop is initialised with
`xformops.end()`, so the loop runs over the ops from position
`xformops.size()` on. -/
def getInternalValueInContext.rotateOrder {Path D : Type} [DecidableEq Path] (H : Host Path)
    (E : DrivenEnv Path D) (index : Nat) (self : DrivenState Path D) :
    Option (Bool × Option Int × DrivenState Path D) :=
  let entered : Option (Bool × DrivenState Path D) :=
    if needsInit index self then initPrim H E index self else some (true, self)
  match entered with
  | none => none
  | some (false, s) => some (false, none, s)
  | some (true, s) =>
    match s.m_prims.get? index with
    | none => none
    | some prim =>
      if prim.isValid then
        let xformops := s.xformOpOrder prim.path
        let rotateOrder := rotateOrderLoop E (xformops.drop xformops.length) (-1)
        some (true, some (max rotateOrder 0), s)
      else some (true, none, s)

/-- The vector `v * radToDeg`. -/
def MVector.toDegrees {Path D : Type} (E : DrivenEnv Path D) (v : MVector D) : MVector D :=
  { x := E.radToDeg v.x, y := E.radToDeg v.y, z := E.radToDeg v.z }

/-- The loop over the ops in the rotate branch of `setInternalValueInContext`:
the values after the push into the first rotate op, `none` when the loop ends
without having met one. -/
def setInternalValueInContext.pushRotation {Path D : Type} (E : DrivenEnv Path D)
    (v : MVector D) (values : OpValues D) : List UsdGeomXformOp → Option (OpValues D)
  | [] => none
  | it :: rest =>
    match E.GetOpType it with
    | XformOpType.TypeRotateX => some (E.pushDouble (MVector.toDegrees E v).x it values)
    | XformOpType.TypeRotateY => some (E.pushDouble (MVector.toDegrees E v).y it values)
    | XformOpType.TypeRotateZ => some (E.pushDouble (MVector.toDegrees E v).z it values)
    | XformOpType.TypeRotateXYZ => some (E.pushVector (MVector.toDegrees E v) it values)
    | XformOpType.TypeRotateXZY => some (E.pushVector (MVector.toDegrees E v) it values)
    | XformOpType.TypeRotateYXZ => some (E.pushVector (MVector.toDegrees E v) it values)
    | XformOpType.TypeRotateYZX => some (E.pushVector (MVector.toDegrees E v) it values)
    | XformOpType.TypeRotateZXY => some (E.pushVector (MVector.toDegrees E v) it values)
    | XformOpType.TypeRotateZYX => some (E.pushVector (MVector.toDegrees E v) it values)
    | _ => setInternalValueInContext.pushRotation E v values rest

/-- The branch `plug.array() == m_drivenRotate` of
`ProxyShape::setInternalValueInContext` for the logical index `index` and the
vector `v` of the data handle: the returned flag and the state afterwards. -/
def setInternalValueInContext.rotate {Path D : Type} [DecidableEq Path] (H : Host Path)
    (E : DrivenEnv Path D) (index : Nat) (v : MVector D) (self : DrivenState Path D) :
    Option (Bool × DrivenState Path D) :=
  let entered : Option (Bool × DrivenState Path D) :=
    if needsInit index self then initPrim H E index self else some (true, self)
  match entered with
  | none => none
  | some (false, s) => some (false, s)
  | some (true, s) =>
    match s.m_prims.get? index with
    | none => none
    | some prim =>
      let xformops := s.xformOpOrder prim.path
      match setInternalValueInContext.pushRotation E v (s.opValues prim.path) xformops with
      | some values =>
        some (true, { s with opValues := Function.update s.opValues prim.path values })
      | none =>
        some (true,
          { s with
            xformOpOrder := Function.update s.xformOpOrder prim.path
              (addRotateOp E.ranks E.AddRotateXYZOp xformops),
            opValues := Function.update s.opValues prim.path
              (E.pushVector v E.AddRotateXYZOp (s.opValues prim.path)) })

/-! ## Sample values for the listener and the resync -/

/-- Collaborators without any state: nothing is registered, no prim is a schema
prim, every call leaves the table as it is; scene paths are numbers and `0` is
the empty path. -/
def sampleCollaborators : Collaborators Nat Unit where
  emptyPath := 0
  HasPrefix := fun a b => decide (a = b)
  preRemoveEntry := fun path w => (w, [path])
  isSchemaPrim := fun _ => false
  getTypeForPath := fun _ _ => "ALMayaReference"
  translator := fun type =>
    if type = "ALMayaReference" then some { supportsUpdate := true, needsTransformParent := true }
    else none
  findRequiredPath := fun m path =>
    match findEntry path m with
    | some ref => ref.m_node
    | none => MObject.kNullObj
  lock := fun w => w
  unlock := fun w => w
  removeEntries := fun _ m w => (m, w)
  updatePrimTypes := fun w => w
  createTranformChainsForSchemaPrims := fun _ objs m w => (objs, m, w)
  createSchemaPrims := fun _ m w => (m, w)
  connectSchemaPrims := fun _ m w => (m, w)
  constructGLImagingEngine := fun w => w
  getExcludePrimPaths := fun _ => []

/-- A prim handle: valid, of the given type, without metadata. -/
def samplePrim (path : Nat) (typeName : String) : UsdPrim Nat :=
  { path := path, isValid := true, typeName := typeName, transformType := [],
    excludeFromProxyShape := none }

/-- A stage with the prims `/root/one/rig` (path `1`) and `/root/two/rig`
(path `2`); any other path gives an invalid prim. -/
def sampleStage : UsdStage Nat where
  id := 7
  GetPrimAtPath := fun path =>
    if path = 1 ∨ path = 2 then samplePrim path "ALMayaReference"
    else { samplePrim path "" with isValid := false }
  traversal := [samplePrim 1 "ALMayaReference", samplePrim 2 "ALMayaReference"]
  subtree := fun prim => [prim]
  excludedSchema := []

/-- A proxy shape with the sample stage and table, a variant change recorded at
path `1` and path `2` pending for removal. -/
def sampleData : ProxyShapeData Nat Unit where
  m_stage := some sampleStage
  m_path := 0
  m_compositionHasChanged := true
  m_variantChangePath := 1
  m_variantSwitchedPrims := [2]
  m_requiredPaths := sampleTable
  m_excludedTaggedGeometry := []
  m_excludedGeometry := []
  transformPrims := fun _ => none
  world := ()
  trace := []

/-- The sample proxy shape before a stage was opened. -/
def sampleDataNoStage : ProxyShapeData Nat Unit :=
  { sampleData with m_stage := none }

/-- A loader for which every file opens the sample stage. -/
def sampleLoader : StageLoader Nat Unit where
  TfStringTrimRight := fun s => s
  resolvePath := fun s => s
  TfIsFile := fun _ => true
  FindOrOpen := fun _ => some 0
  Open := fun _ _ _ => some sampleStage
  setLayerAndClearAttribute := fun _ w => w
  initialise := fun _ m w => (m, w)

/-- A loader for which no path names a file. -/
def sampleLoaderMissingFile : StageLoader Nat Unit :=
  { sampleLoader with TfIsFile := fun _ => false }

/-- A stage whose prim at path `1` carries the custom transform type `joint`
and which has no prim at any other path. -/
def sampleJointStage : UsdStage Nat :=
  { sampleStage with
    GetPrimAtPath := fun path =>
      if path = 1 then { samplePrim 1 "" with transformType := "joint".toList }
      else { samplePrim path "" with isValid := false } }

/-- The sample proxy shape on the stage with the joint, the transforms of both
entries of the table pointing at prims that are no longer valid. -/
def sampleJointData : ProxyShapeData Nat Unit :=
  { sampleData with
    m_stage := some sampleJointStage,
    transformPrims := fun node =>
      if node = 11 ∨ node = 12 then some { samplePrim 0 "" with isValid := false } else none }

/-- Whether the prim is valid and its `excludeFromProxyShape` metadata is
authored with the value true. -/
def excludedTag {Path : Type} (prim : UsdPrim Path) : Bool :=
  prim.isValid && decide (prim.excludeFromProxyShape = some true)

/-- The sample collaborators with scene paths written as decimal numbers, a
child having one more digit than its parent: `11` and `12` lie below `1`. -/
def sampleTreeCollaborators : Collaborators Nat Unit :=
  { sampleCollaborators with HasPrefix := fun a b => decide (a = b) || decide (a / 10 = b) }

/-- A stage whose traversal visits the tagged prim `1`, its child `11`
without metadata and the prim `2` without metadata. -/
def sampleTaggedStage : UsdStage Nat :=
  { sampleStage with
    traversal := [{ samplePrim 1 "" with excludeFromProxyShape := some true },
      samplePrim 11 "", samplePrim 2 ""] }

/-- The sample proxy shape on the stage with the tagged prim, its tagged set
holding a stale path. -/
def sampleTaggedData : ProxyShapeData Nat Unit :=
  { sampleData with m_stage := some sampleTaggedStage, m_excludedTaggedGeometry := [5] }

/-- Whether the rotate branch of `setInternalValueInContext` pushes into an op
of this type: one of the nine rotate types. -/
def XformOpType.isRotate : XformOpType → Bool
  | XformOpType.TypeRotateX => true
  | XformOpType.TypeRotateY => true
  | XformOpType.TypeRotateZ => true
  | XformOpType.TypeRotateXYZ => true
  | XformOpType.TypeRotateXZY => true
  | XformOpType.TypeRotateYXZ => true
  | XformOpType.TypeRotateYZX => true
  | XformOpType.TypeRotateZXY => true
  | XformOpType.TypeRotateZYX => true
  | _ => false

/-- Whether the op type is one of the six three-axis rotate types. -/
def XformOpType.isThreeAxisRotate : XformOpType → Bool
  | XformOpType.TypeRotateXYZ => true
  | XformOpType.TypeRotateXZY => true
  | XformOpType.TypeRotateYXZ => true
  | XformOpType.TypeRotateYZX => true
  | XformOpType.TypeRotateZXY => true
  | XformOpType.TypeRotateZYX => true
  | _ => false

/-- A `rotateZYX` op. -/
def sampleRotateZYX : UsdGeomXformOp := ⟨"rotateZYX", false⟩

/-- An environment for the driven prims with whole numbers as doubles: the
elements `0` and `1` of the driven prim paths name the two rigs, the op type is
read off the base name, a pushed value replaces what is authored on the op and
`57` stands for the factor `180.0 / 3.141592654`. -/
def sampleDrivenEnv : DrivenEnv Nat Int where
  elementByLogicalIndex := fun i =>
    if i = 0 then some "/root/one/rig".toList
    else if i = 1 then some "/root/two/rig".toList else none
  emptyPath := 0
  GetOpType := fun op =>
    if op.baseName = "translate" then XformOpType.TypeTranslate
    else if op.baseName = "rotateXYZ" then XformOpType.TypeRotateXYZ
    else if op.baseName = "rotateZYX" then XformOpType.TypeRotateZYX
    else if op.baseName = "scale" then XformOpType.TypeScale
    else if op.baseName = "transform" then XformOpType.TypeTransform
    else XformOpType.TypeInvalid
  AddRotateXYZOp := sampleRotate
  radToDeg := fun d => d * 57
  pushDouble := fun d op values => Function.update values op (some (OpValue.double d))
  pushVector := fun v op values => Function.update values op (some (OpValue.vector v))
  ranks := sampleRanks

/-- Driven prims on the sample stage with empty caches: the rig at path `1`
has a translate and a `rotateZYX` op, the rig at path `2` a translate op only;
nothing is authored on the ops. -/
def sampleDrivenState : DrivenState Nat Int where
  m_stage := some sampleStage
  m_paths := []
  m_prims := []
  xformOpOrder := fun path =>
    if path = 1 then [sampleTranslate, sampleRotateZYX]
    else if path = 2 then [sampleTranslate] else []
  opValues := fun _ _ => none

/-- The sample driven prims after both rigs were cached, followed by an
element for the prim at path `0`, which is not valid. -/
def sampleDrivenCached : DrivenState Nat Int :=
  { sampleDrivenState with
    m_paths := [1, 2, 0],
    m_prims := [sampleStage.GetPrimAtPath 1, sampleStage.GetPrimAtPath 2,
      sampleStage.GetPrimAtPath 0] }

/-- The calls that the recording collaborators keep a record of. -/
inductive RegistryCall where
  | constructGLImagingEngine
  | lock
  | removeEntries
  | updatePrimTypes
  | createTranformChainsForSchemaPrims
  | createSchemaPrims
  | unlock
  | connectSchemaPrims
deriving DecidableEq

/-- The state of the recording collaborators: whether the registry is locked,
the calls received so far, each with the lock state it found, and the node and
path of every element of the `objsToCreate` handed to
`createTranformChainsForSchemaPrims`. -/
structure RegistryLog where
  locked : Bool
  calls : List (RegistryCall × Bool)
  objsToCreate : List (MObject × Nat)
deriving DecidableEq

/-- Appends a call to the record. -/
def RegistryLog.record (w : RegistryLog) (call : RegistryCall) : RegistryLog :=
  { w with calls := w.calls ++ [(call, w.locked)] }

/-- Collaborators that record the calls they receive. Every prim is a schema
prim of a type that is updated in place, `removeEntries` releases the
transforms of the removed paths (their three counts become zero), and the
creation calls leave the table as it is. -/
def recordingCollaborators : Collaborators Nat RegistryLog where
  emptyPath := 0
  HasPrefix := fun a b => decide (a = b)
  preRemoveEntry := fun path w => (w, [path])
  isSchemaPrim := fun _ => true
  getTypeForPath := fun _ _ => "ALMayaReference"
  translator := fun type =>
    if type = "ALMayaReference" then some { supportsUpdate := true, needsTransformParent := true }
    else none
  findRequiredPath := fun m path =>
    match findEntry path m with
    | some ref => ref.m_node
    | none => MObject.kNullObj
  lock := fun w => { w.record RegistryCall.lock with locked := true }
  unlock := fun w => { w.record RegistryCall.unlock with locked := false }
  removeEntries := fun paths m w =>
    (m.map (fun e =>
        if e.1 ∈ paths then (e.1, TransformReference.make e.2.m_node e.2.m_transform 0 0 0)
        else e),
      w.record RegistryCall.removeEntries)
  updatePrimTypes := fun w => w.record RegistryCall.updatePrimTypes
  createTranformChainsForSchemaPrims := fun _ objs m w =>
    (objs, m,
      { w.record RegistryCall.createTranformChainsForSchemaPrims with
        objsToCreate := objs.map (fun o => (o.1, o.2.path)) })
  createSchemaPrims := fun _ m w => (m, w.record RegistryCall.createSchemaPrims)
  connectSchemaPrims := fun _ m w => (m, w.record RegistryCall.connectSchemaPrims)
  constructGLImagingEngine := fun w => w.record RegistryCall.constructGLImagingEngine
  getExcludePrimPaths := fun _ => []

/-- The sample proxy shape with the recording collaborators, the registry
unlocked and nothing recorded. -/
def recordingData : ProxyShapeData Nat RegistryLog where
  m_stage := some sampleStage
  m_path := 0
  m_compositionHasChanged := true
  m_variantChangePath := 2
  m_variantSwitchedPrims := [2]
  m_requiredPaths := sampleTable
  m_excludedTaggedGeometry := []
  m_excludedGeometry := []
  transformPrims := fun _ => none
  world := { locked := false, calls := [], objsToCreate := [] }
  trace := []

/-! ## Theorems: required-path cleanup -/

theorem cleanupTransformRefs_eq_filter {Path : Type} (t : RequiredPaths Path) :
    cleanupTransformRefs t
      = t.filter (fun e => decide (e.2.required ≠ 0 ∨ e.2.selected ≠ 0 ∨ e.2.refCount ≠ 0)) := by
  induction t with
  | nil => rfl
  | cons e rest ih =>
    by_cases h : e.2.selected = 0 ∧ e.2.required = 0 ∧ e.2.refCount = 0
    · have hf : ¬ (e.2.required ≠ 0 ∨ e.2.selected ≠ 0 ∨ e.2.refCount ≠ 0) := by
        rcases h with ⟨h1, h2, h3⟩
        simp [h1, h2, h3]
      simp only [cleanupTransformRefs, if_pos h, ih]
      rw [List.filter_cons_of_neg (by simpa using hf)]
    · have hf : e.2.required ≠ 0 ∨ e.2.selected ≠ 0 ∨ e.2.refCount ≠ 0 := by
        by_contra hc
        push_neg at hc
        exact h ⟨hc.2.1, hc.1, hc.2.2⟩
      simp only [cleanupTransformRefs, if_neg h, ih]
      rw [List.filter_cons_of_pos (by simpa using hf)]

/-- C1: for every required-path table `t`, `cleanupTransformRefs` keeps, in
their order and unchanged (path, node, `Transform*` and the three counts),
exactly the entries with a nonzero `required`, `selected` or `refCount`; an
entry of `t` is missing from the result if and only if its three counts are all
zero. -/
theorem cleanupTransformRefs_removes_iff_all_zero {Path : Type} (t : RequiredPaths Path) :
    cleanupTransformRefs t
        = t.filter (fun e => decide (e.2.required ≠ 0 ∨ e.2.selected ≠ 0 ∨ e.2.refCount ≠ 0))
      ∧ (∀ e, e ∈ cleanupTransformRefs t
          ↔ e ∈ t ∧ (e.2.required ≠ 0 ∨ e.2.selected ≠ 0 ∨ e.2.refCount ≠ 0))
      ∧ (∀ e, e ∈ t → (e ∉ cleanupTransformRefs t
          ↔ e.2.required = 0 ∧ e.2.selected = 0 ∧ e.2.refCount = 0)) := by
  have hmem : ∀ e, e ∈ cleanupTransformRefs t
      ↔ e ∈ t ∧ (e.2.required ≠ 0 ∨ e.2.selected ≠ 0 ∨ e.2.refCount ≠ 0) := by
    intro e
    rw [cleanupTransformRefs_eq_filter, List.mem_filter]
    simp
  refine ⟨cleanupTransformRefs_eq_filter t, hmem, ?_⟩
  intro e he
  rw [hmem]
  constructor
  · intro h
    by_contra hc
    apply h
    refine ⟨he, ?_⟩
    by_contra hd
    push_neg at hd
    exact hc hd
  · rintro ⟨h1, h2, h3⟩ ⟨_, hor⟩
    rcases hor with h | h | h
    · exact h h1
    · exact h h2
    · exact h h3

/-! ## Theorems: transform-operation stack -/

theorem vectorInsert_length {α : Type} (ops : List α) (i : Nat) (x : α) (hi : i ≤ ops.length) :
    (vectorInsert ops i x).length = ops.length + 1 := by
  simp only [vectorInsert, List.length_append, List.length_cons, List.length_take,
    List.length_drop]
  omega

theorem vectorInsert_get? {α : Type} (ops : List α) (i : Nat) (x : α) (hi : i ≤ ops.length) :
    (vectorInsert ops i x).get? i = some x := by
  have hl : (ops.take i).length = i := by simp [List.length_take, hi]
  simp only [vectorInsert, List.get?_eq_getElem?]
  rw [List.getElem?_append_right (by omega)]
  simp [hl]

theorem vectorInsert_eraseIdx {α : Type} (ops : List α) (i : Nat) (x : α) (hi : i ≤ ops.length) :
    (vectorInsert ops i x).eraseIdx i = ops := by
  have hl : (ops.take i).length = i := by simp [List.length_take, hi]
  simp only [vectorInsert]
  rw [List.eraseIdx_append_of_length_le (by omega)]
  simp [hl]

theorem vectorInsert_sublist {α : Type} (ops : List α) (i : Nat) (x : α) :
    List.Sublist ops (vectorInsert ops i x) := by
  have h : List.Sublist (ops.take i ++ ops.drop i) (ops.take i ++ x :: ops.drop i) :=
    List.Sublist.append (List.Sublist.refl _) (List.sublist_cons_self _ _)
  simpa [vectorInsert] using h

theorem vectorInsert_zero {α : Type} (ops : List α) (x : α) : vectorInsert ops 0 x = x :: ops := by
  simp [vectorInsert]

theorem vectorInsert_succ {α : Type} (a : α) (ops : List α) (i : Nat) (x : α) :
    vectorInsert (a :: ops) (i + 1) x = a :: vectorInsert ops i x := by
  simp [vectorInsert]

theorem vectorInsert_end {α : Type} (ops : List α) (x : α) :
    vectorInsert ops ops.length x = ops ++ [x] := by
  simp [vectorInsert]

theorem addRotateOp_loop_position (R : OpRanks) (rotateOp : UsdGeomXformOp)
    (ops : List UsdGeomXformOp) :
    ∃ i, i ≤ ops.length ∧ addRotateOp.loop R rotateOp ops = vectorInsert ops i rotateOp
      ∧ (∀ j op, j < i → ops.get? j = some op → ¬ R.kRotate < opType R op)
      ∧ (∀ op, ops.get? i = some op → R.kRotate < opType R op) := by
  induction ops with
  | nil =>
    refine ⟨0, le_refl _, ?_, ?_, ?_⟩
    · simp [addRotateOp.loop, vectorInsert]
    · intro j op hj
      omega
    · intro op h
      simp at h
  | cons a rest ih =>
    by_cases ha : R.kRotate < opType R a
    · refine ⟨0, Nat.zero_le _, ?_, ?_, ?_⟩
      · simp [addRotateOp.loop, ha, vectorInsert]
      · intro j op hj
        omega
      · intro op h
        simp at h
        rw [← h]
        exact ha
    · obtain ⟨i, hi, heq, hbefore, hat⟩ := ih
      refine ⟨i + 1, by simp; omega, ?_, ?_, ?_⟩
      · have hgt : ¬ opType R a > R.kRotate := ha
        simp only [addRotateOp.loop, if_neg hgt, heq, vectorInsert_succ]
      · intro j op hj hget
        cases j with
        | zero =>
          simp at hget
          rw [← hget]
          exact ha
        | succ j =>
          simp only [List.get?_cons_succ] at hget
          exact hbefore j op (by omega) hget
      · intro op hget
        simp only [List.get?_cons_succ] at hget
        exact hat op hget

theorem addScaleOp_loop_position (R : OpRanks) (scaleOp : UsdGeomXformOp)
    (ops : List UsdGeomXformOp) (it : Nat) (hit : it ≤ ops.length) :
    ∃ i, i ≤ it ∧ addScaleOp.loop R scaleOp ops it = vectorInsert ops i scaleOp
      ∧ (∀ j op, i ≤ j → j < it → ops.get? j = some op → ¬ opType R op < R.kScale)
      ∧ (0 < i → ∃ op, ops.get? (i - 1) = some op ∧ opType R op < R.kScale) := by
  induction it with
  | zero =>
    refine ⟨0, le_refl _, ?_, ?_, ?_⟩
    · simp [addScaleOp.loop]
    · intro j op _ hj
      omega
    · intro h
      omega
  | succ it ih =>
    have hlt : it < ops.length := by omega
    have hget : ops.get? it = some (ops.get ⟨it, hlt⟩) := List.get?_eq_get hlt
    by_cases hop : opType R (ops.get ⟨it, hlt⟩) < R.kScale
    · refine ⟨it + 1, le_refl _, ?_, ?_, ?_⟩
      · simp only [addScaleOp.loop, hget, if_pos hop]
      · intro j op h1 h2
        omega
      · intro _
        exact ⟨_, hget, hop⟩
    · obtain ⟨i, hi, heq, hafter, hat⟩ := ih (by omega)
      refine ⟨i, by omega, ?_, ?_, hat⟩
      · simp only [addScaleOp.loop, hget, if_neg hop, heq]
      · intro j op h1 h2 hj
        by_cases hji : j = it
        · subst hji
          rw [hget] at hj
          cases hj
          exact hop
        · exact hafter j op h1 (by omega) hj

/-- C5: for every stack `ops`, `addRotateOp` puts the new Rotate op at a
position `i` such that no op before `i` has a type above `kRotate` and the op
at `i`, when there is one, has a type above `kRotate`: immediately before the
first op of greater rank. When no op has a greater rank the new op is appended
at the end. In particular, with Translate ranked below Rotate and Rotate below
Scale, inserting into `[t, s]` gives `[t, rotateOp, s]`. -/
theorem addRotateOp_before_first_greater (R : OpRanks) (rotateOp : UsdGeomXformOp)
    (ops : List UsdGeomXformOp) :
    (∃ i, i ≤ ops.length
        ∧ addRotateOp R rotateOp ops = ops.take i ++ rotateOp :: ops.drop i
        ∧ (∀ j op, j < i → ops.get? j = some op → ¬ R.kRotate < opType R op)
        ∧ (∀ op, ops.get? i = some op → R.kRotate < opType R op))
      ∧ ((∀ op ∈ ops, ¬ R.kRotate < opType R op) → addRotateOp R rotateOp ops = ops ++ [rotateOp])
      ∧ (∀ t s, opType R t = R.kTranslate → opType R s = R.kScale →
          R.kTranslate < R.kRotate → R.kRotate < R.kScale →
          addRotateOp R rotateOp [t, s] = [t, rotateOp, s]) := by
  refine ⟨?_, ?_, ?_⟩
  · obtain ⟨i, hi, heq, h1, h2⟩ := addRotateOp_loop_position R rotateOp ops
    exact ⟨i, hi, heq, h1, h2⟩
  · intro hall
    obtain ⟨i, hi, heq, _, h2⟩ := addRotateOp_loop_position R rotateOp ops
    have hlen : i = ops.length := by
      by_contra hne
      have hlt : i < ops.length := by omega
      have hget : ops.get? i = some (ops.get ⟨i, hlt⟩) := List.get?_eq_get hlt
      exact hall _ (List.get_mem ops i hlt) (h2 _ hget)
    subst hlen
    rw [addRotateOp, heq, vectorInsert_end]
  · intro t s ht hs htr hrs
    have h1 : ¬ opType R t > R.kRotate := by rw [ht]; omega
    have h2 : opType R s > R.kRotate := by rw [hs]; exact hrs
    simp [addRotateOp, addRotateOp.loop, h1, h2]

/-- Witness of C5 on the sample rank table: Rotate goes between Translate and
Scale. -/
theorem addRotateOp_before_first_greater_witness :
    addRotateOp sampleRanks sampleRotate [sampleTranslate, sampleScale]
      = [sampleTranslate, sampleRotate, sampleScale] :=
  (addRotateOp_before_first_greater sampleRanks sampleRotate []).2.2
    sampleTranslate sampleScale (by decide) (by decide) (by decide) (by decide)

/-- C6: for every stack `ops`, `addScaleOp` puts the new Scale op at a position
`i` such that no op at `i` or later has a type below `kScale` and, when
`0 < i`, the op at `i - 1` has a type below `kScale`: immediately after the
first op of smaller rank met when scanning backward from the end. When no op
has a smaller rank the new op goes to index 0. In particular, with Rotate
ranked below Scale, inserting into `[r]` gives `[r, scaleOp]`. -/
theorem addScaleOp_after_last_smaller (R : OpRanks) (scaleOp : UsdGeomXformOp)
    (ops : List UsdGeomXformOp) :
    (∃ i, i ≤ ops.length
        ∧ addScaleOp R scaleOp ops = ops.take i ++ scaleOp :: ops.drop i
        ∧ (∀ j op, i ≤ j → ops.get? j = some op → ¬ opType R op < R.kScale)
        ∧ (0 < i → ∃ op, ops.get? (i - 1) = some op ∧ opType R op < R.kScale))
      ∧ ((∀ op ∈ ops, ¬ opType R op < R.kScale) → addScaleOp R scaleOp ops = scaleOp :: ops)
      ∧ (∀ r, opType R r = R.kRotate → R.kRotate < R.kScale →
          addScaleOp R scaleOp [r] = [r, scaleOp]) := by
  obtain ⟨i, hi, heq, h1, h2⟩ := addScaleOp_loop_position R scaleOp ops ops.length (le_refl _)
  refine ⟨⟨i, hi, heq, ?_, h2⟩, ?_, ?_⟩
  · intro j op hij hget
    have hj : j < ops.length := by
      by_contra hge
      rw [List.get?_eq_none.mpr (by omega)] at hget
      cases hget
    exact h1 j op hij hj hget
  · intro hall
    have hzero : i = 0 := by
      by_contra hne
      obtain ⟨op, hget, hlt⟩ := h2 (by omega)
      exact hall op (List.get?_mem hget) hlt
    subst hzero
    rw [addScaleOp, heq, vectorInsert_zero]
  · intro r hr hrs
    have h : opType R r < R.kScale := by rw [hr]; exact hrs
    simp [addScaleOp, addScaleOp.loop, h, vectorInsert]

/-- Witness of C6 on the sample rank table: Scale goes behind Rotate. -/
theorem addScaleOp_after_last_smaller_witness :
    addScaleOp sampleRanks sampleScale [sampleRotate] = [sampleRotate, sampleScale] :=
  (addScaleOp_after_last_smaller sampleRanks sampleScale []).2.2
    sampleRotate (by decide) (by decide)

/-- C7: for every stack `ops`, the stack `addTranslateOp` returns has the new
Translate op at index 0, followed by the elements of `ops` in their original
order. -/
theorem addTranslateOp_at_front (translateOp : UsdGeomXformOp) (ops : List UsdGeomXformOp) :
    (addTranslateOp translateOp ops).get? 0 = some translateOp
      ∧ (addTranslateOp translateOp ops).tail = ops
      ∧ addTranslateOp translateOp ops = translateOp :: ops := by
  simp [addTranslateOp, vectorInsert]

/-- C8: insertion never reorders. For each of `addTranslateOp`, `addRotateOp`
and `addScaleOp`, for every stack `ops` (canonical or not) and whatever op `x`
is inserted, the result is one op longer than `ops`, deleting the inserted op
from it gives `ops` back unchanged, and `ops` is a sublist of it, so the ops
present before keep their relative order. -/
theorem insertion_never_reorders (R : OpRanks) (x : UsdGeomXformOp) (ops : List UsdGeomXformOp) :
    (InsertedInto x ops (addTranslateOp x ops) ∧ List.Sublist ops (addTranslateOp x ops))
      ∧ (InsertedInto x ops (addRotateOp R x ops) ∧ List.Sublist ops (addRotateOp R x ops))
      ∧ (InsertedInto x ops (addScaleOp R x ops) ∧ List.Sublist ops (addScaleOp R x ops)) := by
  have key : ∀ i, i ≤ ops.length →
      InsertedInto x ops (vectorInsert ops i x) ∧ List.Sublist ops (vectorInsert ops i x) := by
    intro i hi
    exact ⟨⟨vectorInsert_length ops i x hi, i, vectorInsert_get? ops i x hi,
      vectorInsert_eraseIdx ops i x hi⟩, vectorInsert_sublist ops i x⟩
  refine ⟨?_, ?_, ?_⟩
  · exact key 0 (Nat.zero_le _)
  · obtain ⟨i, hi, heq, _, _⟩ := addRotateOp_loop_position R x ops
    rw [addRotateOp, heq]
    exact key i hi
  · obtain ⟨i, hi, heq, _, _⟩ := addScaleOp_loop_position R x ops ops.length (le_refl _)
    rw [addScaleOp, heq]
    exact key i hi

/-! ## Theorems: printing and reading unsigned numbers -/

theorem digitChar_isDigit (d : Nat) (h : d < 10) : (digitChar d).isDigit = true := by
  interval_cases d <;> decide

theorem digitChar_toNat (d : Nat) (h : d < 10) : (digitChar d).toNat - 48 = d := by
  interval_cases d <;> decide

theorem isDigit_ne_separator (c : Char) (h : c.isDigit = true) : c ≠ ';' ∧ c ≠ ' ' := by
  constructor <;> (intro hc; subst hc; revert h; decide)

theorem printUnsigned_go_isDigit (fuel n : Nat) :
    ∀ c ∈ printUnsigned.go fuel n, c.isDigit = true := by
  induction fuel generalizing n with
  | zero => simp [printUnsigned.go]
  | succ fuel ih =>
    intro c hc
    by_cases hn : n < 10
    · simp only [printUnsigned.go, if_pos hn, List.mem_singleton] at hc
      rw [hc]
      exact digitChar_isDigit n hn
    · simp only [printUnsigned.go, if_neg hn, List.mem_append, List.mem_singleton] at hc
      rcases hc with hc | hc
      · exact ih _ c hc
      · rw [hc]
        exact digitChar_isDigit _ (Nat.mod_lt _ (by decide))

theorem printUnsigned_go_ne_nil (fuel n : Nat) : printUnsigned.go (fuel + 1) n ≠ [] := by
  by_cases hn : n < 10
  · simp [printUnsigned.go, hn]
  · simp [printUnsigned.go, hn]

theorem readDigits_printUnsigned_go (fuel n : Nat) (hfuel : n < fuel) (acc : Nat) (rest : Str) :
    readDigits acc (printUnsigned.go fuel n ++ rest)
      = readDigits (acc * 10 ^ (printUnsigned.go fuel n).length + n) rest := by
  induction fuel generalizing n acc rest with
  | zero => omega
  | succ fuel ih =>
    by_cases hn : n < 10
    · simp only [printUnsigned.go, if_pos hn, List.singleton_append, readDigits,
        digitChar_isDigit n hn, if_true, digitChar_toNat n hn, List.length_singleton, pow_one]
    · simp only [printUnsigned.go, if_neg hn, List.append_assoc, List.singleton_append,
        List.length_append, List.length_singleton]
      rw [ih (n / 10) (by omega)]
      have hd : n % 10 < 10 := Nat.mod_lt _ (by decide)
      simp only [readDigits, digitChar_isDigit _ hd, if_true, digitChar_toNat _ hd]
      congr 1
      rw [pow_succ]
      nlinarith [Nat.div_add_mod n 10]

theorem printUnsigned_isDigit (x : Nat) : ∀ c ∈ printUnsigned x, c.isDigit = true :=
  printUnsigned_go_isDigit _ _

theorem printUnsigned_ne_nil (x : Nat) : printUnsigned x ≠ [] :=
  printUnsigned_go_ne_nil _ _

theorem printUnsigned_no_semicolon (x : Nat) : ';' ∉ printUnsigned x := by
  intro h
  exact (isDigit_ne_separator _ (printUnsigned_isDigit x _ h)).1 rfl

theorem printUnsigned_no_space (x : Nat) : ' ' ∉ printUnsigned x := by
  intro h
  exact (isDigit_ne_separator _ (printUnsigned_isDigit x _ h)).2 rfl

theorem asUnsigned_printUnsigned (x : Nat) : asUnsigned (printUnsigned x) = x % 2 ^ 32 := by
  have h := readDigits_printUnsigned_go (x % 2 ^ 32 + 1) (x % 2 ^ 32) (by omega) 0 []
  simp only [List.append_nil, Nat.zero_mul, Nat.zero_add, readDigits] at h
  rw [asUnsigned, printUnsigned, h, Nat.mod_mod]

/-! ## Theorems: splitting the persisted string -/

theorem splitOn_sep_first (c : Char) (xs rest : Str) (h : c ∉ xs) :
    (xs ++ c :: rest).splitOn c = xs :: rest.splitOn c := by
  unfold List.splitOn
  refine List.splitOnP_first _ _ ?_ c (by simp) rest
  intro x hx hxc
  have : x = c := by simpa using hxc
  exact h (this ▸ hx)

theorem splitOn_no_sep (c : Char) (xs : Str) (h : c ∉ xs) : xs.splitOn c = [xs] := by
  unfold List.splitOn
  refine List.splitOnP_eq_single _ _ ?_
  intro x hx hxc
  have : x = c := by simpa using hxc
  exact h (this ▸ hx)

theorem recordBody_eq {Path : Type} (H : Host Path) (e : Path × TransformReference) :
    recordBody H e = H.fullPathName e.2.m_node ++ ' ' :: (H.GetText e.1 ++ ' ' ::
      (printUnsigned e.2.required ++ ' ' :: (printUnsigned e.2.selected ++ ' ' ::
        printUnsigned e.2.refCount))) := by
  simp [recordBody, recordFields, List.intercalate, List.intersperse]

theorem serialiseEntry_eq {Path : Type} (H : Host Path) (e : Path × TransformReference) :
    serialiseEntry H e = recordBody H e ++ [';'] := by
  simp [recordBody_eq, serialiseEntry]

theorem serialiseEntries_eq {Path : Type} (H : Host Path) (m : RequiredPaths Path) :
    serialiseEntries H m = (m.map (fun e => recordBody H e ++ [';'])).flatten := by
  induction m with
  | nil => rfl
  | cons e rest ih => simp [serialiseEntries, serialiseEntry_eq, ih]

theorem recordBody_ne_nil {Path : Type} (H : Host Path) (e : Path × TransformReference) :
    recordBody H e ≠ [] := by
  rw [recordBody_eq]
  simp

theorem recordBody_no_semicolon {Path : Type} (H : Host Path) (e : Path × TransformReference)
    (hn : ';' ∉ H.fullPathName e.2.m_node) (hp : ';' ∉ H.GetText e.1) :
    ';' ∉ recordBody H e := by
  rw [recordBody_eq]
  have h1 := printUnsigned_no_semicolon e.2.required
  have h2 := printUnsigned_no_semicolon e.2.selected
  have h3 := printUnsigned_no_semicolon e.2.refCount
  simp only [List.mem_append, List.mem_cons, not_or]
  refine ⟨hn, by decide, hp, by decide, h1, by decide, h2, by decide, h3⟩

theorem splitOn_recordBody {Path : Type} (H : Host Path) (e : Path × TransformReference)
    (hn : ' ' ∉ H.fullPathName e.2.m_node) (hp : ' ' ∉ H.GetText e.1) :
    (recordBody H e).splitOn ' ' = recordFields H e := by
  rw [recordBody_eq, splitOn_sep_first _ _ _ hn, splitOn_sep_first _ _ _ hp,
    splitOn_sep_first _ _ _ (printUnsigned_no_space _),
    splitOn_sep_first _ _ _ (printUnsigned_no_space _),
    splitOn_no_sep _ _ (printUnsigned_no_space _)]
  rfl

theorem splitOn_serialiseEntries {Path : Type} (H : Host Path) (m : RequiredPaths Path)
    (h : ∀ e ∈ m, ';' ∉ H.fullPathName e.2.m_node ∧ ';' ∉ H.GetText e.1) :
    (serialiseEntries H m).splitOn ';' = m.map (recordBody H) ++ [[]] := by
  induction m with
  | nil => rfl
  | cons e rest ih =>
    have he := h e (List.mem_cons_self _ _)
    simp only [serialiseEntries, serialiseEntry_eq, List.append_assoc, List.singleton_append,
      List.map_cons, List.cons_append]
    rw [splitOn_sep_first _ _ _ (recordBody_no_semicolon H e he.1 he.2), List.nil_append,
      ih (fun x hx => h x (List.mem_cons_of_mem _ hx))]

theorem split_serialiseEntries {Path : Type} (H : Host Path) (m : RequiredPaths Path)
    (h : ∀ e ∈ m, ';' ∉ H.fullPathName e.2.m_node ∧ ';' ∉ H.GetText e.1) :
    MString.split H ';' (serialiseEntries H m)
      = m.map (recordBody H) ++ (if H.splitSkipsEmpty then [] else [[]]) := by
  unfold MString.split
  rw [splitOn_serialiseEntries H m h]
  by_cases hs : H.splitSkipsEmpty = true
  · simp only [hs, if_true, List.filter_append, List.append_nil]
    have h1 : (m.map (recordBody H)).filter (fun s => decide (s ≠ [])) = m.map (recordBody H) := by
      rw [List.filter_eq_self]
      intro s hs'
      obtain ⟨e, _, rfl⟩ := List.mem_map.mp hs'
      simpa using recordBody_ne_nil H e
    rw [h1]
    simp
  · simp [hs]

theorem count_semicolon_serialiseEntries {Path : Type} (H : Host Path) (m : RequiredPaths Path)
    (h : ∀ e ∈ m, ';' ∉ H.fullPathName e.2.m_node ∧ ';' ∉ H.GetText e.1) :
    (serialiseEntries H m).count ';' = m.length := by
  induction m with
  | nil => rfl
  | cons e rest ih =>
    have he := h e (List.mem_cons_self _ _)
    have hb : (recordBody H e).count ';' = 0 :=
      List.count_eq_zero_of_not_mem (recordBody_no_semicolon H e he.1 he.2)
    simp only [serialiseEntries, serialiseEntry_eq, List.count_append, hb,
      ih (fun x hx => h x (List.mem_cons_of_mem _ hx)), List.length_cons]
    simp
    omega

/-- C9: `serialiseTransformRefs` leaves the table alone and writes, for every
entry in the table's iteration order, exactly one record: the five fields node
path, scene path, `required`, `selected`, `refCount` with a single space between
neighbours and a `;` at the end, nothing between records. The counts are
written as decimal digits whose value is the count as a `uint32_t`. The empty
table gives the empty string, and a table of `n` entries whose node and scene
paths contain no `;` gives a string with exactly `n` characters `;`. -/
theorem serialiseTransformRefs_format {Path : Type} (H : Host Path) (self : ProxyShape Path) :
    (serialiseTransformRefs H self).m_requiredPaths = self.m_requiredPaths
      ∧ (serialiseTransformRefs H self).serializedRefCounts
          = (self.m_requiredPaths.map
              (fun e => [' '].intercalate (recordFields H e) ++ [';'])).flatten
      ∧ (∀ x, printUnsigned x ≠ [] ∧ (∀ c ∈ printUnsigned x, c.isDigit = true)
          ∧ readDigits 0 (printUnsigned x) = x % 2 ^ 32)
      ∧ (self.m_requiredPaths = [] → (serialiseTransformRefs H self).serializedRefCounts = [])
      ∧ ((∀ e ∈ self.m_requiredPaths, ';' ∉ H.fullPathName e.2.m_node ∧ ';' ∉ H.GetText e.1) →
          (serialiseTransformRefs H self).serializedRefCounts.count ';'
            = self.m_requiredPaths.length) := by
  refine ⟨rfl, ?_, ?_, ?_, ?_⟩
  · exact serialiseEntries_eq H self.m_requiredPaths
  · intro x
    refine ⟨printUnsigned_ne_nil x, printUnsigned_isDigit x, ?_⟩
    have h2 := readDigits_printUnsigned_go (x % 2 ^ 32 + 1) (x % 2 ^ 32) (by omega) 0 []
    simpa [readDigits, printUnsigned] using h2
  · intro hnil
    simp [serialiseTransformRefs, hnil, serialiseEntries]
  · intro h
    exact count_semicolon_serialiseEntries H self.m_requiredPaths h

/-- Witness of C9: the two entries of the sample table are written as two
records, so the string has two `;`. -/
theorem serialiseTransformRefs_format_witness :
    (serialiseTransformRefs (sampleHost true) ⟨sampleTable, []⟩).serializedRefCounts.count ';' = 2 :=
  (serialiseTransformRefs_format (sampleHost true) ⟨sampleTable, []⟩).2.2.2.2 (by decide)

/-! ## Theorems: `emplace` on a well-formed table -/

theorem mem_emplace {Path : Type} [LinearOrder Path] (k : Path) (v : TransformReference)
    (m : RequiredPaths Path) : ∀ x ∈ emplace k v m, x = (k, v) ∨ x ∈ m := by
  induction m with
  | nil =>
    intro x hx
    simp only [emplace, List.mem_singleton] at hx
    exact Or.inl hx
  | cons e rest ih =>
    intro x hx
    by_cases h1 : k < e.1
    · simp only [emplace, if_pos h1, List.mem_cons] at hx
      rcases hx with hx | hx | hx
      · exact Or.inl hx
      · exact Or.inr (hx ▸ List.mem_cons_self _ _)
      · exact Or.inr (List.mem_cons_of_mem _ hx)
    · by_cases h2 : e.1 < k
      · simp only [emplace, if_neg h1, if_pos h2, List.mem_cons] at hx
        rcases hx with hx | hx
        · exact Or.inr (hx ▸ List.mem_cons_self _ _)
        · rcases ih x hx with h | h
          · exact Or.inl h
          · exact Or.inr (List.mem_cons_of_mem _ h)
      · simp only [emplace, if_neg h1, if_neg h2] at hx
        exact Or.inr hx

theorem emplace_WF {Path : Type} [LinearOrder Path] (k : Path) (v : TransformReference)
    (m : RequiredPaths Path) (hm : m.WF) : (emplace k v m).WF := by
  induction m with
  | nil => simp [emplace, RequiredPaths.WF]
  | cons e rest ih =>
    unfold RequiredPaths.WF at hm ih ⊢
    simp only [List.map_cons, List.pairwise_cons] at hm
    by_cases h1 : k < e.1
    · simp only [emplace, if_pos h1, List.map_cons, List.pairwise_cons]
      refine ⟨?_, hm.1, hm.2⟩
      intro a ha
      rcases List.mem_cons.mp ha with ha | ha
      · rw [ha]
        exact h1
      · exact lt_trans h1 (hm.1 a ha)
    · by_cases h2 : e.1 < k
      · simp only [emplace, if_neg h1, if_pos h2, List.map_cons, List.pairwise_cons]
        refine ⟨?_, ih hm.2⟩
        intro a ha
        obtain ⟨x, hx, rfl⟩ := List.mem_map.mp ha
        rcases mem_emplace k v rest x hx with h | h
        · rw [h]
          exact h2
        · exact hm.1 _ (List.mem_map_of_mem _ h)
      · simp only [emplace, if_neg h1, if_neg h2, List.map_cons, List.pairwise_cons]
        exact hm

theorem emplace_of_mem {Path : Type} [LinearOrder Path] (k : Path) (v : TransformReference)
    (m : RequiredPaths Path) (hm : m.WF) (hk : k ∈ m.map Prod.fst) : emplace k v m = m := by
  induction m with
  | nil => simp at hk
  | cons e rest ih =>
    unfold RequiredPaths.WF at hm ih
    simp only [List.map_cons, List.pairwise_cons] at hm
    simp only [List.map_cons, List.mem_cons] at hk
    rcases hk with hk | hk
    · subst hk
      simp [emplace]
    · have hlt : e.1 < k := hm.1 k hk
      have hnlt : ¬ k < e.1 := not_lt_of_gt hlt
      simp only [emplace, if_neg hnlt, if_pos hlt, ih hm.2 hk]

theorem emplace_append_of_lt {Path : Type} [LinearOrder Path] (k : Path) (v : TransformReference)
    (m : RequiredPaths Path) (h : ∀ x ∈ m, x.1 < k) : emplace k v m = m ++ [(k, v)] := by
  induction m with
  | nil => rfl
  | cons e rest ih =>
    have hlt : e.1 < k := h e (List.mem_cons_self _ _)
    have hnlt : ¬ k < e.1 := not_lt_of_gt hlt
    simp only [emplace, if_neg hnlt, if_pos hlt, List.cons_append,
      ih (fun x hx => h x (List.mem_cons_of_mem _ hx))]

theorem findEntry_some_mem {Path : Type} [LinearOrder Path] (p : Path) (v : TransformReference)
    (m : RequiredPaths Path) (h : findEntry p m = some v) : p ∈ m.map Prod.fst := by
  induction m with
  | nil => simp [findEntry] at h
  | cons e rest ih =>
    by_cases he : e.1 = p
    · simp [he]
    · simp only [findEntry, if_neg he] at h
      simp only [List.map_cons, List.mem_cons]
      exact Or.inr (ih h)

theorem findEntry_emplace {Path : Type} [LinearOrder Path] (k : Path) (v' : TransformReference)
    (m : RequiredPaths Path) (hm : m.WF) (p : Path) (v : TransformReference)
    (h : findEntry p m = some v) : findEntry p (emplace k v' m) = some v := by
  induction m with
  | nil => simp [findEntry] at h
  | cons e rest ih =>
    have hmem := findEntry_some_mem p v _ h
    unfold RequiredPaths.WF at hm ih
    simp only [List.map_cons, List.pairwise_cons] at hm
    by_cases h1 : k < e.1
    · have hkp : ¬ k = p := by
        intro hkp
        subst hkp
        simp only [List.map_cons, List.mem_cons] at hmem
        rcases hmem with hmem | hmem
        · rw [hmem] at h1
          exact lt_irrefl _ h1
        · exact lt_asymm h1 (hm.1 _ hmem)
      simp only [emplace, if_pos h1]
      rw [findEntry]
      simp only [if_neg hkp]
      exact h
    · by_cases h2 : e.1 < k
      · simp only [emplace, if_neg h1, if_pos h2]
        by_cases he : e.1 = p
        · simp only [findEntry, if_pos he] at h ⊢
          exact h
        · simp only [findEntry, if_neg he] at h ⊢
          exact ih hm.2 h
      · simp only [emplace, if_neg h1, if_neg h2]
        exact h

/-! ## Theorems: restoring records -/

theorem split_recordBody {Path : Type} (H : Host Path) (e : Path × TransformReference)
    (hn : ' ' ∉ H.fullPathName e.2.m_node) (hp : ' ' ∉ H.GetText e.1)
    (hn0 : H.fullPathName e.2.m_node ≠ []) (hp0 : H.GetText e.1 ≠ []) :
    MString.split H ' ' (recordBody H e) = recordFields H e := by
  unfold MString.split
  rw [splitOn_recordBody H e hn hp]
  by_cases hs : H.splitSkipsEmpty = true
  · simp only [hs, if_true]
    rw [List.filter_eq_self]
    intro s hs'
    simp only [recordFields, List.mem_cons, List.mem_singleton, List.not_mem_nil, or_false] at hs'
    rcases hs' with h | h | h | h | h <;> rw [h] <;>
      first
      | (simpa using hn0)
      | (simpa using hp0)
      | (simpa using printUnsigned_ne_nil _)
  · simp [hs]

theorem split_recordBody_nameless {Path : Type} (H : Host Path) (e : Path × TransformReference)
    (hn0 : H.fullPathName e.2.m_node = []) (hp : ' ' ∉ H.GetText e.1)
    (hp0 : H.GetText e.1 ≠ []) :
    MString.split H ' ' (recordBody H e)
      = if H.splitSkipsEmpty then (recordFields H e).tail else recordFields H e := by
  have hn : ' ' ∉ H.fullPathName e.2.m_node := by simp [hn0]
  unfold MString.split
  rw [splitOn_recordBody H e hn hp]
  by_cases hs : H.splitSkipsEmpty = true
  · simp only [hs, if_true]
    have h1 := printUnsigned_ne_nil e.2.required
    have h2 := printUnsigned_ne_nil e.2.selected
    have h3 := printUnsigned_ne_nil e.2.refCount
    simp [recordFields, hn0, hp0, h1, h2, h3, List.filter]
  · simp [hs]

theorem deserialiseRecord_nil {Path : Type} [LinearOrder Path] (H : Host Path)
    (m : RequiredPaths Path) : deserialiseRecord H m [] = some m := by
  simp [deserialiseRecord]

theorem deserialiseRecord_recordBody {Path : Type} [LinearOrder Path] (H : Host Path)
    (m : RequiredPaths Path) (e : Path × TransformReference) (he : H.Restorable e) :
    deserialiseRecord H m (recordBody H e) = some (emplace e.1 (restoredReference H e.2) m) := by
  obtain ⟨hn0, hn, hres, hp0, hp, hid, _, _, _⟩ := he
  have hlen : (recordBody H e).length ≠ 0 := by
    simpa using recordBody_ne_nil H e
  simp only [deserialiseRecord, if_pos hlen, split_recordBody H e hn.2 hp.2 hn0 hp0]
  simp [recordFields, hres, hid, asUnsigned_printUnsigned, restoredReference]

theorem deserialiseRecord_noop {Path : Type} [LinearOrder Path] (H : Host Path)
    (m : RequiredPaths Path) (hm : m.WF) (e : Path × TransformReference) (hmem : e ∈ m)
    (he : H.Reparsable e) : deserialiseRecord H m (recordBody H e) = some m := by
  obtain ⟨hn, hp0, hp, hid, hnull⟩ := he
  have hlen : (recordBody H e).length ≠ 0 := by
    simpa using recordBody_ne_nil H e
  have hkey : e.1 ∈ m.map Prod.fst := List.mem_map_of_mem _ hmem
  by_cases hn0 : H.fullPathName e.2.m_node = []
  · simp only [deserialiseRecord, if_pos hlen, split_recordBody_nameless H e hn0 hp.2 hp0]
    by_cases hs : H.splitSkipsEmpty = true
    · simp [hs, recordFields, hnull hn0]
    · simp only [hs, recordFields, hn0]
      cases hg : H.getDependNode [] with
      | none => simp [hg]
      | some node => simp [hg, hid, emplace_of_mem _ _ m hm hkey]
  · simp only [deserialiseRecord, if_pos hlen, split_recordBody H e hn.2 hp.2 hn0 hp0]
    cases hg : H.getDependNode (H.fullPathName e.2.m_node) with
    | none => simp [recordFields, hg]
    | some node => simp [recordFields, hg, hid, emplace_of_mem _ _ m hm hkey]

theorem deserialiseRecord_preserves {Path : Type} [LinearOrder Path] (H : Host Path)
    (m m' : RequiredPaths Path) (hm : m.WF) (stri : Str)
    (h : deserialiseRecord H m stri = some m') :
    m'.WF ∧ ∀ p v, findEntry p m = some v → findEntry p m' = some v := by
  unfold deserialiseRecord at h
  by_cases hlen : stri.length ≠ 0
  · simp only [if_pos hlen] at h
    split at h
    · cases h
    · split at h
      · simp only [Option.some.injEq] at h
        subst h
        exact ⟨hm, fun _ _ hv => hv⟩
      · split at h
        · simp only [Option.some.injEq] at h
          subst h
          exact ⟨emplace_WF _ _ m hm, fun p v hv => findEntry_emplace _ _ m hm p v hv⟩
        · cases h
  · simp only [if_neg hlen, Option.some.injEq] at h
    subst h
    exact ⟨hm, fun _ _ hv => hv⟩

theorem deserialiseRecords_append {Path : Type} [LinearOrder Path] (H : Host Path)
    (m : RequiredPaths Path) (l1 l2 : List Str) :
    deserialiseRecords H m (l1 ++ l2)
      = (deserialiseRecords H m l1).bind (fun m' => deserialiseRecords H m' l2) := by
  induction l1 generalizing m with
  | nil => rfl
  | cons stri rest ih =>
    simp only [List.cons_append, deserialiseRecords]
    cases deserialiseRecord H m stri with
    | none => rfl
    | some m' => exact ih m'

theorem deserialiseRecords_trailing {Path : Type} [LinearOrder Path] (H : Host Path)
    (m : RequiredPaths Path) :
    deserialiseRecords H m (if H.splitSkipsEmpty then [] else [[]]) = some m := by
  by_cases hs : H.splitSkipsEmpty = true
  · simp [hs, deserialiseRecords]
  · simp [hs, deserialiseRecords, deserialiseRecord_nil]

theorem deserialiseRecords_preserves {Path : Type} [LinearOrder Path] (H : Host Path)
    (strs : List Str) (m m' : RequiredPaths Path) (hm : m.WF)
    (h : deserialiseRecords H m strs = some m') :
    m'.WF ∧ ∀ p v, findEntry p m = some v → findEntry p m' = some v := by
  induction strs generalizing m with
  | nil =>
    simp only [deserialiseRecords, Option.some.injEq] at h
    subst h
    exact ⟨hm, fun _ _ hv => hv⟩
  | cons stri rest ih =>
    simp only [deserialiseRecords] at h
    cases h1 : deserialiseRecord H m stri with
    | none => simp [h1] at h
    | some m1 =>
      simp only [h1] at h
      obtain ⟨hwf1, hfind1⟩ := deserialiseRecord_preserves H m m1 hm stri h1
      obtain ⟨hwf, hfind⟩ := ih m1 hwf1 h
      exact ⟨hwf, fun p v hv => hfind p v (hfind1 p v hv)⟩

theorem deserialiseRecords_noop {Path : Type} [LinearOrder Path] (H : Host Path)
    (m : RequiredPaths Path) (hm : m.WF) (l : RequiredPaths Path)
    (hl : ∀ e ∈ l, e ∈ m ∧ H.Reparsable e) :
    deserialiseRecords H m (l.map (recordBody H)) = some m := by
  induction l with
  | nil => rfl
  | cons e rest ih =>
    have he := hl e (List.mem_cons_self _ _)
    simp only [List.map_cons, deserialiseRecords, deserialiseRecord_noop H m hm e he.1 he.2]
    exact ih (fun x hx => hl x (List.mem_cons_of_mem _ hx))

theorem deserialiseRecords_restorable {Path : Type} [LinearOrder Path] (H : Host Path)
    (l : RequiredPaths Path) (hl : ∀ e ∈ l, H.Restorable e) (m0 : RequiredPaths Path) :
    deserialiseRecords H m0 (l.map (recordBody H))
      = some (l.foldl (fun acc e => emplace e.1 (restoredReference H e.2) acc) m0) := by
  induction l generalizing m0 with
  | nil => rfl
  | cons e rest ih =>
    have he := hl e (List.mem_cons_self _ _)
    simp only [List.map_cons, deserialiseRecords, deserialiseRecord_recordBody H m0 e he,
      List.foldl_cons]
    exact ih (fun x hx => hl x (List.mem_cons_of_mem _ hx)) _

theorem foldl_emplace_ascending {Path : Type} [LinearOrder Path] (f : TransformReference →
    TransformReference) (l m0 : RequiredPaths Path) (hl : (l.map Prod.fst).Pairwise (· < ·))
    (h0 : ∀ x ∈ m0, ∀ e ∈ l, x.1 < e.1) :
    l.foldl (fun acc e => emplace e.1 (f e.2) acc) m0 = m0 ++ l.map (fun e => (e.1, f e.2)) := by
  induction l generalizing m0 with
  | nil => simp
  | cons e rest ih =>
    simp only [List.map_cons, List.pairwise_cons] at hl
    have hstep : emplace e.1 (f e.2) m0 = m0 ++ [(e.1, f e.2)] :=
      emplace_append_of_lt _ _ m0 (fun x hx => h0 x hx e (List.mem_cons_self _ _))
    simp only [List.foldl_cons, hstep, List.map_cons]
    rw [ih (m0 ++ [(e.1, f e.2)]) hl.2]
    · simp
    · intro x hx e' he'
      rcases List.mem_append.mp hx with hx | hx
      · exact h0 x hx e' (List.mem_cons_of_mem _ he')
      · simp only [List.mem_singleton] at hx
        rw [hx]
        exact hl.1 _ (List.mem_map_of_mem _ he')

theorem findEntry_map {Path : Type} [LinearOrder Path] (f : TransformReference → TransformReference)
    (p : Path) (m : RequiredPaths Path) :
    findEntry p (m.map (fun e => (e.1, f e.2))) = (findEntry p m).map f := by
  induction m with
  | nil => rfl
  | cons e rest ih =>
    by_cases he : e.1 = p
    · simp [findEntry, he]
    · simp [findEntry, he, ih]

theorem restoredReference_fields {Path : Type} (H : Host Path) (v : TransformReference)
    (h1 : v.required < 2 ^ 32) (h2 : v.selected < 2 ^ 32) (h3 : v.refCount < 2 ^ 32) :
    (restoredReference H v).m_node = v.m_node ∧ (restoredReference H v).required = v.required
      ∧ (restoredReference H v).selected = v.selected
      ∧ (restoredReference H v).refCount = v.refCount := by
  exact ⟨rfl, Nat.mod_eq_of_lt h1, Nat.mod_eq_of_lt h2, Nat.mod_eq_of_lt h3⟩

theorem findEntry_mem {Path : Type} [LinearOrder Path] (p : Path) (v : TransformReference)
    (m : RequiredPaths Path) (h : findEntry p m = some v) : (p, v) ∈ m := by
  induction m with
  | nil => simp [findEntry] at h
  | cons e rest ih =>
    by_cases he : e.1 = p
    · simp only [findEntry, if_pos he, Option.some.injEq] at h
      have : e = (p, v) := Prod.ext he h
      rw [this]
      exact List.mem_cons_self _ _
    · simp only [findEntry, if_neg he] at h
      exact List.mem_cons_of_mem _ (ih h)

theorem deserialise_of_dump_into_empty {Path : Type} [LinearOrder Path] (H : Host Path)
    (self : ProxyShape Path) (hwf : self.m_requiredPaths.WF)
    (h : ∀ e ∈ self.m_requiredPaths, H.Restorable e) :
    deserialiseTransformRefs H { serialiseTransformRefs H self with m_requiredPaths := [] }
      = some { m_requiredPaths := self.m_requiredPaths.map (fun e => (e.1, restoredReference H e.2)),
               serializedRefCounts := [] } := by
  have hsemi : ∀ e ∈ self.m_requiredPaths,
      ';' ∉ H.fullPathName e.2.m_node ∧ ';' ∉ H.GetText e.1 :=
    fun e he => ⟨(h e he).2.1.1, (h e he).2.2.2.2.1.1⟩
  simp only [deserialiseTransformRefs, serialiseTransformRefs,
    split_serialiseEntries H _ hsemi, deserialiseRecords_append,
    deserialiseRecords_restorable H _ h, Option.bind_eq_bind, Option.some_bind,
    deserialiseRecords_trailing]
  rw [foldl_emplace_ascending (restoredReference H) _ [] hwf (by simp)]
  simp

/-- C2 (amended): serialization round trip. For every well-formed table in
which every entry is bound to a node whose DAG path is non-empty, free of `;`
and space and resolved by the scene back to that node, and whose scene path has
a non-empty text free of `;` and space, `deserialiseTransformRefs` run on the
string written by `serialiseTransformRefs`, starting from an emptied table,
succeeds, empties the string and rebuilds a table with the same scene paths in
the same order and, for every path, the same node and the same `required`,
`selected` and `refCount`; so paths bound to different nodes stay bound to
those different nodes. -/
theorem dump_restore_roundtrip {Path : Type} [LinearOrder Path] (H : Host Path)
    (self : ProxyShape Path) (hwf : self.m_requiredPaths.WF)
    (h : ∀ e ∈ self.m_requiredPaths, H.Restorable e) :
    ∃ m', deserialiseTransformRefs H { serialiseTransformRefs H self with m_requiredPaths := [] }
          = some { m_requiredPaths := m', serializedRefCounts := [] }
      ∧ m'.WF ∧ m'.contents = self.m_requiredPaths.contents
      ∧ ∀ p, (findEntry p m').map (fun v => (v.m_node, v.required, v.selected, v.refCount))
          = (findEntry p self.m_requiredPaths).map
              (fun v => (v.m_node, v.required, v.selected, v.refCount)) := by
  refine ⟨_, deserialise_of_dump_into_empty H self hwf h, ?_, ?_, ?_⟩
  · unfold RequiredPaths.WF at hwf ⊢
    simpa [List.map_map, Function.comp_def] using hwf
  · unfold RequiredPaths.contents
    rw [List.map_map]
    apply List.map_congr_left
    intro e he
    obtain ⟨_, _, _, _, _, _, h1, h2, h3⟩ := h e he
    obtain ⟨f0, f1, f2, f3⟩ := restoredReference_fields H e.2 h1 h2 h3
    simp only [Function.comp_apply, f0, f1, f2, f3]
  · intro p
    rw [findEntry_map]
    cases hf : findEntry p self.m_requiredPaths with
    | none => rfl
    | some v =>
      obtain ⟨_, _, _, _, _, _, h1, h2, h3⟩ := h _ (findEntry_mem p v _ hf)
      obtain ⟨f0, f1, f2, f3⟩ := restoredReference_fields H v h1 h2 h3
      simp only [Option.map_some', f0, f1, f2, f3]

/-- Witness of C2 (amended): the table of the save and reload test, with
`/root/one/rig` and `/root/two/rig` bound to two different nodes, is rebuilt
from its dump. -/
theorem dump_restore_roundtrip_witness :
    sampleTable.WF ∧ (∀ e ∈ sampleTable, (sampleHost true).Restorable e)
      ∧ ∃ m', deserialiseTransformRefs (sampleHost true)
            { serialiseTransformRefs (sampleHost true) ⟨sampleTable, []⟩ with
              m_requiredPaths := [] }
            = some { m_requiredPaths := m', serializedRefCounts := [] }
        ∧ m'.WF ∧ m'.contents = sampleTable.contents
        ∧ ∀ p, (findEntry p m').map (fun v => (v.m_node, v.required, v.selected, v.refCount))
            = (findEntry p sampleTable).map
                (fun v => (v.m_node, v.required, v.selected, v.refCount)) :=
  ⟨by decide, by decide,
    dump_restore_roundtrip (sampleHost true) ⟨sampleTable, []⟩ (by decide) (by decide)⟩

/-- Counterexample to C2 as stated: the table with one entry for path `1`
bound to the null handle has node and scene path texts without `;` or space,
yet its dump restored into an emptied table gives the empty table, under either
behaviour of `MString::split`: the record's node path resolves to no node and
the record is dropped, so the path `1` has an entry before and none after. -/
theorem dump_restore_null_node_counterexample :
    nullNodeTable.WF
      ∧ (∀ skip, ∀ e ∈ nullNodeTable,
          noSeparator ((sampleHost skip).fullPathName e.2.m_node)
            ∧ noSeparator ((sampleHost skip).GetText e.1)
            ∧ (sampleHost skip).SdfPath ((sampleHost skip).GetText e.1) = e.1)
      ∧ (∀ skip, deserialiseTransformRefs (sampleHost skip)
            { serialiseTransformRefs (sampleHost skip) ⟨nullNodeTable, []⟩ with
              m_requiredPaths := [] }
          = some { m_requiredPaths := [], serializedRefCounts := [] })
      ∧ (findEntry 1 nullNodeTable).isSome = true
      ∧ (findEntry 1 ([] : RequiredPaths Nat)).isSome = false := by
  decide

/-- C3: repeated dump and restore is idempotent. For every well-formed table
whose records read back to their own scene paths (texts without `;` or space),
restoring the string dumped from the table into the table itself leaves the
table unchanged and empties the string; a second restore, from the emptied
string, again changes nothing. The reason holds for every string: a restore
that succeeds keeps every entry the table had, with its value, and within one
string what earlier records have put into the table is kept by the later
records (the first record for a scene path wins). -/
theorem restore_own_dump_unchanged {Path : Type} [LinearOrder Path] (H : Host Path)
    (self : ProxyShape Path) (hwf : self.m_requiredPaths.WF)
    (h : ∀ e ∈ self.m_requiredPaths, H.Reparsable e) :
    deserialiseTransformRefs H (serialiseTransformRefs H self)
        = some { m_requiredPaths := self.m_requiredPaths, serializedRefCounts := [] }
      ∧ deserialiseTransformRefs H { m_requiredPaths := self.m_requiredPaths,
                                      serializedRefCounts := [] }
        = some { m_requiredPaths := self.m_requiredPaths, serializedRefCounts := [] }
      ∧ (∀ str after,
          deserialiseTransformRefs H { m_requiredPaths := self.m_requiredPaths,
                                       serializedRefCounts := str } = some after →
          after.m_requiredPaths.WF ∧ after.serializedRefCounts = []
            ∧ ∀ p v, findEntry p self.m_requiredPaths = some v →
                findEntry p after.m_requiredPaths = some v)
      ∧ (∀ strs1 strs2 after,
          deserialiseRecords H self.m_requiredPaths (strs1 ++ strs2) = some after →
          ∃ mid, deserialiseRecords H self.m_requiredPaths strs1 = some mid
            ∧ ∀ p v, findEntry p mid = some v → findEntry p after = some v) := by
  refine ⟨?_, ?_, ?_, ?_⟩
  · have hsemi : ∀ e ∈ self.m_requiredPaths,
        ';' ∉ H.fullPathName e.2.m_node ∧ ';' ∉ H.GetText e.1 :=
      fun e he => ⟨(h e he).1.1, (h e he).2.2.1.1⟩
    simp only [deserialiseTransformRefs, serialiseTransformRefs,
      split_serialiseEntries H _ hsemi, deserialiseRecords_append,
      deserialiseRecords_noop H _ hwf _ (fun e he => ⟨he, h e he⟩), Option.bind_eq_bind,
      Option.some_bind, deserialiseRecords_trailing]
  · have hsplit : MString.split H ';' [] = if H.splitSkipsEmpty then [] else [[]] := by
      by_cases hs : H.splitSkipsEmpty = true <;> simp [MString.split, hs]
    simp only [deserialiseTransformRefs, hsplit, deserialiseRecords_trailing]
  · intro str after hafter
    simp only [deserialiseTransformRefs] at hafter
    cases hrec : deserialiseRecords H self.m_requiredPaths (MString.split H ';' str) with
    | none => simp [hrec] at hafter
    | some m' =>
      simp only [hrec, Option.some.injEq] at hafter
      subst hafter
      obtain ⟨hwf', hfind⟩ := deserialiseRecords_preserves H _ _ m' hwf hrec
      exact ⟨hwf', rfl, hfind⟩
  · intro strs1 strs2 after hafter
    rw [deserialiseRecords_append] at hafter
    cases hmid : deserialiseRecords H self.m_requiredPaths strs1 with
    | none => simp [hmid] at hafter
    | some mid =>
      simp only [hmid, Option.bind_eq_bind, Option.some_bind] at hafter
      obtain ⟨hwfmid, _⟩ := deserialiseRecords_preserves H _ _ mid hwf hmid
      exact ⟨mid, rfl, (deserialiseRecords_preserves H _ _ after hwfmid hafter).2⟩

/-- Witness of C3: the sample table restored from its own dump is unchanged. -/
theorem restore_own_dump_unchanged_witness :
    sampleTable.WF ∧ (∀ e ∈ sampleTable, (sampleHost false).Reparsable e)
      ∧ deserialiseTransformRefs (sampleHost false)
          (serialiseTransformRefs (sampleHost false) ⟨sampleTable, []⟩)
        = some { m_requiredPaths := sampleTable, serializedRefCounts := [] } :=
  ⟨by decide, by decide,
    (restore_own_dump_unchanged (sampleHost false) ⟨sampleTable, []⟩ (by decide) (by decide)).1⟩

/-- C10: evaluation at the failing input. In the sample scene, a persisted
string whose first record has only two fields, with a node path that resolves,
makes `deserialiseTransformRefs` read `tstrs[2]` past the end of the array,
under either behaviour of `MString::split`: the restore faults, and the
well-formed second record is not inserted. A record that is dropped because
its node path resolves to no node does not have this effect: the well-formed
record behind it is inserted. -/
theorem deserialise_short_record_out_of_range :
    (∀ skip, (MString.split (sampleHost skip) ' ' "|root|one|rig /root/one/rig".toList).get? 2
        = none)
      ∧ (∀ skip, deserialiseTransformRefs (sampleHost skip)
          { m_requiredPaths := [], serializedRefCounts := shortRecordString } = none)
      ∧ (∀ skip, deserialiseTransformRefs (sampleHost skip)
          { m_requiredPaths := [], serializedRefCounts := unknownNodeString }
          = some { m_requiredPaths := [(2, TransformReference.make 12 (some 12) 1 0 1)],
                   serializedRefCounts := [] }) := by
  decide

/-! ## Theorems: partition of the candidate prims -/

theorem filterUpdatablePrims_loop_eq {Path W : Type} (C : Collaborators Path W) (w : W)
    (m : RequiredPaths Path) (front : List (UsdPrim Path)) (objs : List (MObject × UsdPrim Path))
    (rest : List (UsdPrim Path)) :
    filterUpdatablePrims.loop C w m front objs rest
      = (front ++ rest.filter (fun it => !filterUpdatablePrims.updatable C w it),
         objs ++ (rest.filter (filterUpdatablePrims.updatable C w)).map
           (fun it => (C.findRequiredPath m it.path, it))) := by
  induction rest generalizing front objs with
  | nil => simp [filterUpdatablePrims.loop]
  | cons it rest ih =>
    by_cases h : filterUpdatablePrims.updatable C w it = true
    · simp [filterUpdatablePrims.loop, h, ih]
    · simp [filterUpdatablePrims.loop, h, ih]

theorem filterUpdatablePrims_updatable_iff {Path W : Type} (C : Collaborators Path W) (w : W)
    (it : UsdPrim Path) :
    filterUpdatablePrims.updatable C w it = true
      ↔ C.getTypeForPath w it.path = it.typeName
        ∧ ∃ translator, C.translator (C.getTypeForPath w it.path) = some translator
          ∧ translator.supportsUpdate = true ∧ translator.needsTransformParent = true := by
  unfold filterUpdatablePrims.updatable
  cases h : C.translator (C.getTypeForPath w it.path) with
  | none => simp [h]
  | some t => simp [h]

/-- C11: `filterUpdatablePrims` partitions the candidate list. A candidate is
taken out of the list and returned, paired with the node `findRequiredPath`
gives for its path, if and only if the type on record for its path equals its
type name, a translator is registered for that type, and that translator's
`supportsUpdate()` and `needsTransformParent()` are both true; every other
candidate stays. No candidate is lost or duplicated (the two lists together
are a permutation of the input) and both lists keep the original order. -/
theorem filterUpdatablePrims_partitions {Path W : Type} (C : Collaborators Path W) (w : W)
    (m : RequiredPaths Path) (prims : List (UsdPrim Path)) :
    (filterUpdatablePrims C w m prims).2
        = (prims.filter (filterUpdatablePrims.updatable C w)).map
            (fun it => (C.findRequiredPath m it.path, it))
      ∧ (filterUpdatablePrims C w m prims).1
        = prims.filter (fun it => !filterUpdatablePrims.updatable C w it)
      ∧ (∀ it, filterUpdatablePrims.updatable C w it = true
          ↔ C.getTypeForPath w it.path = it.typeName
            ∧ ∃ translator, C.translator (C.getTypeForPath w it.path) = some translator
              ∧ translator.supportsUpdate = true ∧ translator.needsTransformParent = true)
      ∧ List.Perm ((filterUpdatablePrims C w m prims).1
          ++ (filterUpdatablePrims C w m prims).2.map Prod.snd) prims
      ∧ List.Sublist (filterUpdatablePrims C w m prims).1 prims
      ∧ List.Sublist ((filterUpdatablePrims C w m prims).2.map Prod.snd) prims := by
  have h := filterUpdatablePrims_loop_eq C w m [] [] prims
  simp only [List.nil_append] at h
  have h1 : (filterUpdatablePrims C w m prims).1
      = prims.filter (fun it => !filterUpdatablePrims.updatable C w it) := by
    rw [filterUpdatablePrims, h]
  have h2 : (filterUpdatablePrims C w m prims).2
      = (prims.filter (filterUpdatablePrims.updatable C w)).map
          (fun it => (C.findRequiredPath m it.path, it)) := by
    rw [filterUpdatablePrims, h]
  have h3 : (filterUpdatablePrims C w m prims).2.map Prod.snd
      = prims.filter (filterUpdatablePrims.updatable C w) := by
    rw [h2, List.map_map]
    simp [Function.comp_def]
  refine ⟨h2, h1, filterUpdatablePrims_updatable_iff C w, ?_, ?_, ?_⟩
  · rw [h1, h3]
    exact (List.perm_append_comm.trans (List.filter_append_perm _ prims))
  · rw [h1]
    exact List.filter_sublist _
  · rw [h3]
    exact List.filter_sublist _

/-! ## Theorems: change listener -/

theorem listener_field_of_composition {Path W : Type} (C : Collaborators Path W) (path : Path)
    (s : ProxyShapeData Path W) (key : String) (h : isCompositionField key = true) :
    variantSelectionListener.field C path s key
      = variantSelectionListener.field C path s SdfFieldKeys.Active := by
  have h2 : isCompositionField SdfFieldKeys.Active = true := by decide
  simp [variantSelectionListener.field, h, h2]

theorem listener_keys_foldl {Path W : Type} (C : Collaborators Path W) (path : Path)
    (keys : List String) (s : ProxyShapeData Path W) :
    keys.foldl (variantSelectionListener.field C path) s
      = ((keys.filter isCompositionField).map (fun _ => path)).foldl
          (fun s p => variantSelectionListener.field C p s SdfFieldKeys.Active) s := by
  induction keys generalizing s with
  | nil => rfl
  | cons key rest ih =>
    by_cases h : isCompositionField key = true
    · simp only [List.foldl_cons, List.filter_cons_of_pos h, List.map_cons, ih,
        listener_field_of_composition C path s key h]
    · have hf : variantSelectionListener.field C path s key = s := by
        simp [variantSelectionListener.field, h]
      simp only [List.foldl_cons, List.filter_cons_of_neg h, ih, hf]

theorem listener_entries_foldl {Path W : Type} (C : Collaborators Path W)
    (entries : List (Path × SdfChangeListEntry)) (s : ProxyShapeData Path W) :
    entries.foldl (fun s entry =>
        entry.2.infoChanged.foldl (variantSelectionListener.field C entry.1) s) s
      = (compositionEdits entries).foldl
          (fun s p => variantSelectionListener.field C p s SdfFieldKeys.Active) s := by
  induction entries generalizing s with
  | nil => rfl
  | cons entry rest ih =>
    have hce : compositionEdits (entry :: rest)
        = (entry.2.infoChanged.filter isCompositionField).map (fun _ => entry.1)
          ++ compositionEdits rest := by
      simp [compositionEdits]
    rw [List.foldl_cons, hce, List.foldl_append, ih, listener_keys_foldl]

theorem foldl_flatten {α β : Type} (f : β → α → β) (ls : List (List α)) (b : β) :
    ls.flatten.foldl f b = ls.foldl (fun b l => l.foldl f b) b := by
  induction ls generalizing b with
  | nil => rfl
  | cons l rest ih => simp [List.foldl_append, ih]

theorem listener_eq_edits {Path W : Type} (C : Collaborators Path W)
    (notice : LayersDidChange Path) (s : ProxyShapeData Path W) :
    variantSelectionListener C false notice s
      = (compositionEdits notice.flatten).foldl
          (fun s p => variantSelectionListener.field C p s SdfFieldKeys.Active) s := by
  rw [← listener_entries_foldl, foldl_flatten]
  simp [variantSelectionListener]

theorem compositionEdits_append {Path : Type} (a b : List (Path × SdfChangeListEntry)) :
    compositionEdits (a ++ b) = compositionEdits a ++ compositionEdits b := by
  simp [compositionEdits]

theorem listenAll_eq_edits {Path W : Type} (C : Collaborators Path W)
    (notices : List (LayersDidChange Path)) (s : ProxyShapeData Path W) :
    listenAll C notices s
      = (compositionEdits (allEntries notices)).foldl
          (fun s p => variantSelectionListener.field C p s SdfFieldKeys.Active) s := by
  induction notices generalizing s with
  | nil => rfl
  | cons notice rest ih =>
    have h := ih (variantSelectionListener C false notice s)
    have ha : allEntries (notice :: rest) = notice.flatten ++ allEntries rest := by
      simp [allEntries]
    unfold listenAll at h ⊢
    rw [List.foldl_cons, h, listener_eq_edits, ha, compositionEdits_append, List.foldl_append]

theorem edits_foldl {Path W : Type} (C : Collaborators Path W) (edits : List Path)
    (s : ProxyShapeData Path W) :
    edits.foldl (fun s p => variantSelectionListener.field C p s SdfFieldKeys.Active) s
      = { s with
          m_compositionHasChanged := s.m_compositionHasChanged || !edits.isEmpty,
          m_variantChangePath := edits.getLast?.getD s.m_variantChangePath,
          m_variantSwitchedPrims :=
            s.m_variantSwitchedPrims ++ (preRemovals C edits s.world).2,
          world := (preRemovals C edits s.world).1 } := by
  have h2 : isCompositionField SdfFieldKeys.Active = true := by decide
  induction edits generalizing s with
  | nil => simp [preRemovals]
  | cons p rest ih =>
    rw [List.foldl_cons, ih]
    cases rest with
    | nil =>
      simp [variantSelectionListener.field, h2, onPrePrimChanged, preRemovals]
    | cons q rest2 =>
      simp [variantSelectionListener.field, h2, onPrePrimChanged, preRemovals,
        List.getLast?_cons_cons]
      cases hl : (q :: rest2).getLast? with
      | none => simp at hl
      | some x => rfl

theorem keyEdits_of_any {Path : Type} (entry : Path × SdfChangeListEntry)
    (h : entry.2.infoChanged.any isCompositionField = true) :
    ((entry.2.infoChanged.filter isCompositionField).map (fun _ => entry.1)).getLast?
      = some entry.1 := by
  rw [List.getLast?_map]
  cases hl : (entry.2.infoChanged.filter isCompositionField).getLast? with
  | none =>
    rw [List.getLast?_eq_none_iff, List.filter_eq_nil_iff] at hl
    obtain ⟨key, hk, hkey⟩ := List.any_eq_true.mp h
    exact absurd hkey (hl key hk)
  | some x => rfl

theorem keyEdits_of_not_any {Path : Type} (entry : Path × SdfChangeListEntry)
    (h : ¬ entry.2.infoChanged.any isCompositionField = true) :
    (entry.2.infoChanged.filter isCompositionField).map (fun _ => entry.1) = [] := by
  rw [List.map_eq_nil_iff, List.filter_eq_nil_iff]
  intro key hk hkey
  exact h (List.any_eq_true.mpr ⟨key, hk, hkey⟩)

theorem compositionEdits_cons {Path : Type} (entry : Path × SdfChangeListEntry)
    (rest : List (Path × SdfChangeListEntry)) :
    compositionEdits (entry :: rest)
      = (entry.2.infoChanged.filter isCompositionField).map (fun _ => entry.1)
        ++ compositionEdits rest := by
  simp [compositionEdits]

theorem compositionEntries_cons {Path : Type} (entry : Path × SdfChangeListEntry)
    (rest : List (Path × SdfChangeListEntry)) :
    compositionEntries (entry :: rest)
      = if entry.2.infoChanged.any isCompositionField = true
        then entry :: compositionEntries rest else compositionEntries rest := by
  simp [compositionEntries, List.filter_cons]

theorem compositionEdits_getLast? {Path : Type} (entries : List (Path × SdfChangeListEntry)) :
    (compositionEdits entries).getLast? = ((compositionEntries entries).map Prod.fst).getLast? := by
  induction entries with
  | nil => rfl
  | cons entry rest ih =>
    rw [compositionEdits_cons, List.getLast?_append, ih, compositionEntries_cons]
    by_cases h : entry.2.infoChanged.any isCompositionField = true
    · rw [keyEdits_of_any entry h, if_pos h, List.map_cons]
      rw [show (entry.1 :: List.map Prod.fst (compositionEntries rest))
          = [entry.1] ++ List.map Prod.fst (compositionEntries rest) from rfl,
        List.getLast?_append]
      rfl
    · rw [keyEdits_of_not_any entry h, if_neg h]
      simp

theorem mem_compositionEdits {Path : Type} (entries : List (Path × SdfChangeListEntry))
    (p : Path) :
    p ∈ compositionEdits entries ↔ ∃ e ∈ compositionEntries entries, e.1 = p := by
  induction entries with
  | nil => simp [compositionEdits, compositionEntries]
  | cons entry rest ih =>
    rw [compositionEdits_cons, List.mem_append, ih, compositionEntries_cons]
    by_cases h : entry.2.infoChanged.any isCompositionField = true
    · have hk : p ∈ (entry.2.infoChanged.filter isCompositionField).map (fun _ => entry.1)
          ↔ entry.1 = p := by
        constructor
        · intro hp
          obtain ⟨_, _, rfl⟩ := List.mem_map.mp hp
          rfl
        · intro hp
          obtain ⟨key, hk, hkey⟩ := List.any_eq_true.mp h
          exact List.mem_map.mpr ⟨key, List.mem_filter.mpr ⟨hk, hkey⟩, hp⟩
      rw [hk, if_pos h]
      simp
    · rw [keyEdits_of_not_any entry h, if_neg h]
      simp

theorem compositionEdits_eq_nil_iff {Path : Type} (entries : List (Path × SdfChangeListEntry)) :
    compositionEdits entries = [] ↔ compositionEntries entries = [] := by
  constructor
  · intro h
    rw [List.eq_nil_iff_forall_not_mem]
    intro e he
    have : e.1 ∈ compositionEdits entries := (mem_compositionEdits entries e.1).mpr ⟨e, he, rfl⟩
    rw [h] at this
    cases this
  · intro h
    rw [List.eq_nil_iff_forall_not_mem]
    intro p hp
    obtain ⟨e, he, _⟩ := (mem_compositionEdits entries p).mp hp
    rw [h] at he
    cases he

theorem preRemovals_of_stateless {Path W : Type} (C : Collaborators Path W)
    (hC : ∀ p w, (C.preRemoveEntry p w).1 = w) (edits : List Path) (w : W) :
    preRemovals C edits w = (w, edits.flatMap (fun p => (C.preRemoveEntry p w).2)) := by
  induction edits generalizing w with
  | nil => rfl
  | cons p rest ih => simp [preRemovals, hC, ih]

/-- C12: for every sequence of layer-contents-changed notifications handled by
`variantSelectionListener` while no file is being opened. If no changed entry
has a changed field `VariantSelection` or `Active` the state is unchanged.
Otherwise `m_compositionHasChanged` is true afterwards and `m_variantChangePath`
is the path of the last such entry in iteration order. In both cases
`m_variantSwitchedPrims` is its previous content followed by what the
pre-removal callback appended for the paths of those entries, in order (the
callback runs once for every such field of an entry, and for no other path),
and the table, the stage and the trace of resync passes are untouched. -/
theorem variantSelectionListener_dirty_state {Path W : Type} (C : Collaborators Path W)
    (notices : List (LayersDidChange Path)) (s : ProxyShapeData Path W) :
    (compositionEntries (allEntries notices) = [] → listenAll C notices s = s)
      ∧ (compositionEntries (allEntries notices) ≠ [] →
          (listenAll C notices s).m_compositionHasChanged = true
            ∧ ((compositionEntries (allEntries notices)).map Prod.fst).getLast?
                = some (listenAll C notices s).m_variantChangePath)
      ∧ (listenAll C notices s).m_variantSwitchedPrims
          = s.m_variantSwitchedPrims
            ++ (preRemovals C (compositionEdits (allEntries notices)) s.world).2
      ∧ (∀ p, p ∈ compositionEdits (allEntries notices)
          ↔ ∃ e ∈ compositionEntries (allEntries notices), e.1 = p)
      ∧ ((∀ p w, (C.preRemoveEntry p w).1 = w) →
          (preRemovals C (compositionEdits (allEntries notices)) s.world).2
            = (compositionEdits (allEntries notices)).flatMap
                (fun p => (C.preRemoveEntry p s.world).2))
      ∧ (listenAll C notices s).m_requiredPaths = s.m_requiredPaths
      ∧ (listenAll C notices s).trace = s.trace
      ∧ (listenAll C notices s).m_stage = s.m_stage := by
  rw [listenAll_eq_edits, edits_foldl]
  refine ⟨?_, ?_, rfl, mem_compositionEdits _, ?_, rfl, rfl, rfl⟩
  · intro h
    rw [(compositionEdits_eq_nil_iff _).mpr h]
    simp [preRemovals]
  · intro h
    have hne : compositionEdits (allEntries notices) ≠ [] :=
      fun hnil => h ((compositionEdits_eq_nil_iff _).mp hnil)
    refine ⟨?_, ?_⟩
    · simp [hne]
    · rw [← compositionEdits_getLast?]
      cases hl : (compositionEdits (allEntries notices)).getLast? with
      | none => exact absurd (List.getLast?_eq_none_iff.mp hl) hne
      | some x => rfl
  · intro hC
    rw [preRemovals_of_stateless C hC]

/-- Witness of C12: one notice with two edited entries, the later one with both
fields changed; the later path is kept as the change path and the pending
list grows by the callback's paths. -/
theorem variantSelectionListener_dirty_state_witness :
    (listenAll sampleCollaborators
        [[[(1, ⟨["variantSelection"]⟩), (3, ⟨["comment"]⟩), (2, ⟨["active", "variantSelection"]⟩)]]]
        { sampleData with m_compositionHasChanged := false }).m_variantSwitchedPrims
      = [2] ++ (preRemovals sampleCollaborators
          (compositionEdits (allEntries
            [[[(1, ⟨["variantSelection"]⟩), (3, ⟨["comment"]⟩),
               (2, ⟨["active", "variantSelection"]⟩)]]])) ()).2 :=
  (variantSelectionListener_dirty_state sampleCollaborators
    [[[(1, ⟨["variantSelection"]⟩), (3, ⟨["comment"]⟩), (2, ⟨["active", "variantSelection"]⟩)]]]
    { sampleData with m_compositionHasChanged := false }).2.2.1

/-! ## Theorems: flushing the dirty state -/

theorem findExcludedGeometry_frame {Path W : Type} (C : Collaborators Path W)
    (s : ProxyShapeData Path W) :
    (findExcludedGeometry C s).trace = s.trace
      ∧ (findExcludedGeometry C s).m_compositionHasChanged = s.m_compositionHasChanged
      ∧ (findExcludedGeometry C s).m_variantChangePath = s.m_variantChangePath
      ∧ (findExcludedGeometry C s).m_variantSwitchedPrims = s.m_variantSwitchedPrims
      ∧ (findExcludedGeometry C s).m_requiredPaths = s.m_requiredPaths
      ∧ (findExcludedGeometry C s).m_path = s.m_path
      ∧ (findExcludedGeometry C s).m_stage.isSome = s.m_stage.isSome := by
  unfold findExcludedGeometry
  cases h : s.m_stage with
  | none => simp [h]
  | some stage => simp [constructExcludedPrims]

theorem validateTransforms_frame {Path W : Type} (s : ProxyShapeData Path W) :
    (validateTransforms s).1.trace = s.trace
      ∧ (validateTransforms s).1.m_compositionHasChanged = s.m_compositionHasChanged
      ∧ (validateTransforms s).1.m_variantChangePath = s.m_variantChangePath
      ∧ (validateTransforms s).1.m_variantSwitchedPrims = s.m_variantSwitchedPrims
      ∧ (validateTransforms s).1.m_requiredPaths = s.m_requiredPaths
      ∧ (validateTransforms s).1.m_path = s.m_path
      ∧ (validateTransforms s).1.m_stage = s.m_stage
      ∧ (validateTransforms s).1.world = s.world := by
  unfold validateTransforms
  cases h : s.m_stage with
  | none => simp [h]
  | some stage => simp [h]

/-- C14: notifications arriving while a file is being opened are ignored
entirely. For every state and every notification content, with
`MFileIO::isOpeningFile()` true, `variantSelectionListener` returns the state
as it was and `onObjectsChanged` returns without a fault and with the state as
it was: the dirty flag, the change path, the pending paths, the required-path
table and the trace of resync passes are all unchanged. -/
theorem notifications_ignored_while_opening {Path W : Type} (C : Collaborators Path W)
    (notice : LayersDidChange Path) (sender : Option Nat) (s : ProxyShapeData Path W) :
    variantSelectionListener C true notice s = s
      ∧ onObjectsChanged C true sender s = some s := by
  constructor
  · simp [variantSelectionListener]
  · simp [onObjectsChanged]

/-- C19: without an opened stage a resync request is a no-op. For every state
with a null `m_stage`, whatever the dirty state and the sender and whether or
not a file is being opened, `onObjectsChanged` runs no resync and returns the
state as it was; `validateTransforms` and `findExcludedGeometry` return the
state as it was too. -/
theorem no_stage_no_resync {Path W : Type} (C : Collaborators Path W) (opening : Bool)
    (sender : Option Nat) (s : ProxyShapeData Path W) (hstage : s.m_stage = none) :
    onObjectsChanged C opening sender s = some s
      ∧ validateTransforms s = (s, [])
      ∧ findExcludedGeometry C s = s := by
  refine ⟨?_, ?_, ?_⟩
  · unfold onObjectsChanged
    by_cases ho : opening = true
    · rw [if_pos ho]
    · rw [if_neg ho]
      have hcond : sender = none ∨ sender ≠ s.m_stage.map (fun stage => stage.id) := by
        rw [hstage]
        cases sender with
        | none => exact Or.inl rfl
        | some x => exact Or.inr (by simp)
      rw [if_pos hcond]
  · simp [validateTransforms, hstage]
  · simp [findExcludedGeometry, hstage]

/-- Witness of C19: the sample proxy shape without a stage, with the dirty
flag set, is left alone by a notice from a stage. -/
theorem no_stage_no_resync_witness :
    sampleDataNoStage.m_stage = none ∧ sampleDataNoStage.m_compositionHasChanged = true
      ∧ onObjectsChanged sampleCollaborators false (some 7) sampleDataNoStage
          = some sampleDataNoStage
      ∧ validateTransforms sampleDataNoStage = (sampleDataNoStage, [])
      ∧ findExcludedGeometry sampleCollaborators sampleDataNoStage = sampleDataNoStage :=
  ⟨rfl, rfl, no_stage_no_resync sampleCollaborators false (some 7) sampleDataNoStage rfl⟩

/-! ## Theorems: root prim path -/

theorem selectedRootPath_resolved {Path : Type} (H : Host Path) (stage : UsdStage Path)
    (primPathStr : Str) :
    selectedRootPath H stage primPathStr = H.SdfPath "/".toList
      ∨ (stage.GetPrimAtPath (selectedRootPath H stage primPathStr)).isValid = true := by
  unfold selectedRootPath
  by_cases h1 : primPathStr = []
  · exact Or.inl (by rw [if_pos h1])
  · by_cases h2 : (stage.GetPrimAtPath (H.SdfPath primPathStr)).isValid = true
    · right
      rw [if_neg h1, if_pos h2]
      exact h2
    · left
      rw [if_neg h1, if_neg h2]

theorem reloadStage_getPrim_of_stage {Path W : Type} (H : Host Path) (primPathStr : Str)
    (s : ProxyShapeData Path W) (stage : UsdStage Path) (hstage : s.m_stage = some stage) :
    reloadStage.getPrim H primPathStr s
      = some { s with m_path := selectedRootPath H stage primPathStr } := by
  unfold reloadStage.getPrim selectedRootPath
  by_cases h1 : primPathStr = []
  · simp [h1]
  · have hlen : primPathStr.length ≠ 0 := by simpa using h1
    by_cases h2 : (stage.GetPrimAtPath (H.SdfPath primPathStr)).isValid = true
    · simp [hlen, h1, hstage, h2]
    · simp [hlen, h1, hstage, h2]

theorem reloadStage_postLoad_m_path {Path W : Type} (C : Collaborators Path W)
    (L : StageLoader Path W) (opening : Bool) (s : ProxyShapeData Path W) :
    (reloadStage.postLoad C L opening s).m_path = s.m_path := by
  unfold reloadStage.postLoad
  by_cases ho : opening = true
  · rw [if_pos ho]
  · rw [if_neg ho]
    cases hs : s.m_stage with
    | none => rfl
    | some stage =>
      have hp := (findExcludedGeometry_frame C s).2.2.2.2.2.1
      cases hf : (findExcludedGeometry C s).m_stage with
      | none => simp only [hf]; exact hp
      | some st => simp only [hf]; exact hp

/-- C20: setting the root prim path on a proxy with an opened stage. For every
prim path string, after the prim path callback of `onAttributeChanged`, and
after `reloadStage` when it has opened a stage, `m_path` is `/` when the string
is empty, the given path when the stage has a prim there, and `/` when it has
none; so `m_path` is `/` or the path of a prim of the stage, never an
unresolved path. -/
theorem root_path_never_unresolved {Path W : Type} (H : Host Path) (C : Collaborators Path W)
    (L : StageLoader Path W) (opening : Bool) (inp : ReloadInputs) (s : ProxyShapeData Path W) :
    (∀ stage, s.m_stage = some stage →
        ∃ after, onAttributeChanged H C L opening true Plug.m_primPath inp s = some after
          ∧ after.m_path = selectedRootPath H stage inp.primPath
          ∧ (after.m_path = H.SdfPath "/".toList
              ∨ (stage.GetPrimAtPath after.m_path).isValid = true))
      ∧ (∀ stage, (reloadStage.openStage L inp s).m_stage = some stage →
          ∃ after, reloadStage H C L opening inp s = some after
            ∧ after.m_path = selectedRootPath H stage inp.primPath
            ∧ (after.m_path = H.SdfPath "/".toList
                ∨ (stage.GetPrimAtPath after.m_path).isValid = true)) := by
  constructor
  · intro stage hstage
    have hpath : ∃ after, onAttributeChanged H C L opening true Plug.m_primPath inp s = some after
        ∧ after.m_path = selectedRootPath H stage inp.primPath := by
      unfold onAttributeChanged selectedRootPath
      by_cases h1 : inp.primPath = []
      · simp [h1, hstage]
      · have hlen : inp.primPath.length ≠ 0 := by simpa using h1
        by_cases h2 : (stage.GetPrimAtPath (H.SdfPath inp.primPath)).isValid = true
        · simp [hlen, h1, hstage, h2]
        · simp [hlen, h1, hstage, h2]
    obtain ⟨after, hrun, hp⟩ := hpath
    refine ⟨after, hrun, hp, ?_⟩
    rw [hp]
    exact selectedRootPath_resolved H stage inp.primPath
  · intro stage hopen
    have hget := reloadStage_getPrim_of_stage H inp.primPath (reloadStage.openStage L inp s)
      stage hopen
    have hpath : ∃ after, reloadStage H C L opening inp s = some after
        ∧ after.m_path = selectedRootPath H stage inp.primPath := by
      unfold reloadStage
      rw [hget]
      exact ⟨_, rfl, reloadStage_postLoad_m_path C L opening _⟩
    obtain ⟨after, hrun, hp⟩ := hpath
    refine ⟨after, hrun, hp, ?_⟩
    rw [hp]
    exact selectedRootPath_resolved H stage inp.primPath

/-- Witness of C20: on the sample stage the prim path string `/root/one/rig`
selects path `1`, which has a prim. -/
theorem root_path_never_unresolved_witness :
    sampleData.m_stage = some sampleStage
      ∧ ∃ after, onAttributeChanged (sampleHost true) sampleCollaborators sampleLoader false true
            Plug.m_primPath ⟨[], [], false, "/root/one/rig".toList⟩ sampleData = some after
          ∧ after.m_path
              = selectedRootPath (sampleHost true) sampleStage "/root/one/rig".toList
          ∧ (after.m_path = (sampleHost true).SdfPath "/".toList
              ∨ (sampleStage.GetPrimAtPath after.m_path).isValid = true) :=
  ⟨rfl, (root_path_never_unresolved (sampleHost true) sampleCollaborators sampleLoader false
    ⟨[], [], false, "/root/one/rig".toList⟩ sampleData).1 sampleStage rfl⟩

/-! ## Theorems: driven transforms -/

theorem push_none_iff {M T : Type} [DecidableEq T] (matrix : M) (time : T)
    (ops : List (AuthoredOp M T)) :
    updateDrivenTransforms.push matrix time ops = none
      ↔ ∀ op ∈ ops, op.opType ≠ XformOpType.TypeTransform := by
  induction ops with
  | nil => simp [updateDrivenTransforms.push]
  | cons it rest ih =>
    by_cases h : it.opType = XformOpType.TypeTransform
    · simp [updateDrivenTransforms.push, h]
    · simp [updateDrivenTransforms.push, h, ih]

theorem push_some {M T : Type} [DecidableEq T] (matrix : M) (time : T)
    (ops ops' : List (AuthoredOp M T))
    (h : updateDrivenTransforms.push matrix time ops = some ops') :
    ∃ before op after, ops = before ++ op :: after
      ∧ (∀ o ∈ before, o.opType ≠ XformOpType.TypeTransform)
      ∧ op.opType = XformOpType.TypeTransform
      ∧ ops' = before ++ pushMatrix matrix op time :: after := by
  induction ops generalizing ops' with
  | nil => simp [updateDrivenTransforms.push] at h
  | cons it rest ih =>
    by_cases hit : it.opType = XformOpType.TypeTransform
    · simp only [updateDrivenTransforms.push, if_pos hit, Option.some.injEq] at h
      exact ⟨[], it, rest, rfl, by simp, hit, h.symm⟩
    · simp only [updateDrivenTransforms.push, if_neg hit] at h
      cases hr : updateDrivenTransforms.push matrix time rest with
      | none => simp [hr] at h
      | some r =>
        simp only [hr, Option.map_some', Option.some.injEq] at h
        obtain ⟨before, op, after, h1, h2, h3, h4⟩ := ih r hr
        refine ⟨it :: before, op, after, by rw [h1]; rfl, ?_, h3, by rw [← h, h4]; rfl⟩
        intro o ho
        rcases List.mem_cons.mp ho with ho | ho
        · rw [ho]
          exact hit
        · exact h2 o ho

theorem pushMatrix_opType {M T : Type} [DecidableEq T] (matrix : M) (op : AuthoredOp M T)
    (time : T) : (pushMatrix matrix op time).opType = op.opType := rfl

/-- C18: `updateDrivenTransforms` handles its dirty indices one after the other,
each as follows. An index that is negative or not below `drivenPrims.size()`,
or whose prim is invalid, changes nothing. For an index in range with a valid
prim only the ops of that prim change: when its stack has an op of type
`TypeTransform`, the matrix stored for the index is written at the current time
into the first such op and the list of ops keeps its length, order and types;
otherwise exactly one new op of type `TypeTransform` holding that matrix at the
current time is appended at the end of the stack. -/
theorem updateDrivenTransforms_writes_matrix {Path M T : Type} [DecidableEq Path]
    [DecidableEq T] (drivenPrims : List (UsdPrim Path)) (dt : DrivenTransforms M) (time : T)
    (opStacks : Path → List (AuthoredOp M T)) (idx : Int)
    (hidx : -2 ^ 31 ≤ idx ∧ idx < 2 ^ 31) (hsize : drivenPrims.length < 2 ^ 63) :
    updateDrivenTransforms drivenPrims dt time opStacks
        = dt.m_dirtyMatrices.foldl
            (updateDrivenTransforms.visit drivenPrims dt time) opStacks
      ∧ ((idx < 0 ∨ (drivenPrims.length : Int) ≤ idx) →
          updateDrivenTransforms.visit drivenPrims dt time opStacks idx = opStacks)
      ∧ (∀ usdPrim, 0 ≤ idx → drivenPrims.get? idx.toNat = some usdPrim →
          (usdPrim.isValid = false →
            updateDrivenTransforms.visit drivenPrims dt time opStacks idx = opStacks)
          ∧ (usdPrim.isValid = true →
            (∀ q, q ≠ usdPrim.path →
              updateDrivenTransforms.visit drivenPrims dt time opStacks idx q = opStacks q)
            ∧ ((∃ op ∈ opStacks usdPrim.path, op.opType = XformOpType.TypeTransform) →
                ∃ before op after, opStacks usdPrim.path = before ++ op :: after
                  ∧ (∀ o ∈ before, o.opType ≠ XformOpType.TypeTransform)
                  ∧ op.opType = XformOpType.TypeTransform
                  ∧ updateDrivenTransforms.visit drivenPrims dt time opStacks idx usdPrim.path
                      = before ++ pushMatrix (dt.m_drivenMatrix idx.toNat) op time :: after
                  ∧ (updateDrivenTransforms.visit drivenPrims dt time opStacks idx
                        usdPrim.path).map (fun o => o.opType)
                      = (opStacks usdPrim.path).map (fun o => o.opType))
            ∧ ((∀ op ∈ opStacks usdPrim.path, op.opType ≠ XformOpType.TypeTransform) →
                updateDrivenTransforms.visit drivenPrims dt time opStacks idx usdPrim.path
                  = opStacks usdPrim.path
                    ++ [{ opType := XformOpType.TypeTransform,
                          samples := [(time, dt.m_drivenMatrix idx.toNat)] }]))) := by
  have h31 : (2 : Int) ^ 31 = 2147483648 := by norm_num
  have h64 : (2 : Int) ^ 64 = 18446744073709551616 := by norm_num
  have h63 : (2 : Nat) ^ 63 = 9223372036854775808 := by norm_num
  rw [h31] at hidx
  rw [h63] at hsize
  refine ⟨rfl, ?_, ?_⟩
  · intro hout
    have hge : (idx % 2 ^ 64).toNat ≥ drivenPrims.length := by
      rw [h64]
      omega
    simp only [updateDrivenTransforms.visit, if_pos hge]
  · intro usdPrim hnonneg hget
    have hlt : idx.toNat < drivenPrims.length := by
      by_contra hge
      rw [List.get?_eq_none.mpr (by omega)] at hget
      cases hget
    have hin : ¬ (idx % 2 ^ 64).toNat ≥ drivenPrims.length := by
      rw [h64]
      omega
    constructor
    · intro hinvalid
      simp only [updateDrivenTransforms.visit, if_neg hin, hget, hinvalid]
      rfl
    · intro hvalid
      have hv : ¬ ((!usdPrim.isValid) = true) := by simp [hvalid]
      refine ⟨?_, ?_, ?_⟩
      · intro q hq
        simp only [updateDrivenTransforms.visit, if_neg hin, hget, if_neg hv]
        cases hp : updateDrivenTransforms.push (dt.m_drivenMatrix idx.toNat) time
            (opStacks usdPrim.path) with
        | none => simp [Function.update_noteq hq]
        | some ops => simp [Function.update_noteq hq]
      · rintro ⟨op0, hop0, htype0⟩
        cases hp : updateDrivenTransforms.push (dt.m_drivenMatrix idx.toNat) time
            (opStacks usdPrim.path) with
        | none => exact absurd htype0 ((push_none_iff _ _ _).mp hp op0 hop0)
        | some ops =>
          obtain ⟨before, op, after, h1, h2, h3, h4⟩ := push_some _ _ _ _ hp
          have hres : updateDrivenTransforms.visit drivenPrims dt time opStacks idx usdPrim.path
              = ops := by
            simp only [updateDrivenTransforms.visit, if_neg hin, hget, if_neg hv, hp,
              Function.update_same]
          refine ⟨before, op, after, h1, h2, h3, by rw [hres, h4], ?_⟩
          rw [hres, h4, h1]
          simp [pushMatrix_opType]
      · intro hnone
        have hp := (push_none_iff (dt.m_drivenMatrix idx.toNat) time _).mpr hnone
        simp only [updateDrivenTransforms.visit, if_neg hin, hget, if_neg hv, hp,
          Function.update_same]
        simp [pushMatrix, AddTransformOp]

/-- Witness of C18: dirty index `0` of the sample record writes matrix `40` at
time `3` into the matrix op of the prim at path `1`, behind its translate op,
and the types of the ops stay as they were. -/
theorem updateDrivenTransforms_writes_matrix_witness :
    (-2 ^ 31 ≤ (0 : Int) ∧ (0 : Int) < 2 ^ 31) ∧ [sampleDrivenPrim].length < 2 ^ 63
      ∧ ∃ before op after, sampleOpStacks sampleDrivenPrim.path = before ++ op :: after
          ∧ (∀ o ∈ before, o.opType ≠ XformOpType.TypeTransform)
          ∧ op.opType = XformOpType.TypeTransform
          ∧ updateDrivenTransforms.visit [sampleDrivenPrim] sampleDrivenTransforms 3
                sampleOpStacks 0 sampleDrivenPrim.path
              = before ++ pushMatrix (sampleDrivenTransforms.m_drivenMatrix (0 : Int).toNat) op 3
                  :: after
          ∧ (updateDrivenTransforms.visit [sampleDrivenPrim] sampleDrivenTransforms 3
                sampleOpStacks 0 sampleDrivenPrim.path).map (fun o => o.opType)
              = (sampleOpStacks sampleDrivenPrim.path).map (fun o => o.opType) :=
  ⟨by decide, by decide,
    (((updateDrivenTransforms_writes_matrix [sampleDrivenPrim] sampleDrivenTransforms 3
      sampleOpStacks 0 (by decide) (by decide)).2.2 sampleDrivenPrim (by decide) rfl).2 rfl).2.1
      ⟨{ opType := XformOpType.TypeTransform, samples := [(0, 5)] }, by decide, rfl⟩⟩

/-! ## Theorems: stage that failed to open, restored fields -/

theorem reloadStage_postLoad_of_null {Path W : Type} (C : Collaborators Path W)
    (L : StageLoader Path W) (opening : Bool) (s : ProxyShapeData Path W)
    (h : s.m_stage = none) : reloadStage.postLoad C L opening s = s := by
  unfold reloadStage.postLoad
  split
  · rfl
  · simp [h]

/-- C21: when the stage is null after the opening part of `reloadStage` (the
path is not valid or the open failed), a non-empty prim path string makes
`reloadStage` call `GetPrimAtPath` through the null stage pointer and it does
not complete; only for the empty string it completes with a null stage and the
root path `/`. -/
theorem reloadStage_null_stage_prim_lookup {Path W : Type} (H : Host Path)
    (C : Collaborators Path W) (L : StageLoader Path W) (opening : Bool) (inp : ReloadInputs)
    (s : ProxyShapeData Path W) (hfail : (reloadStage.openStage L inp s).m_stage = none) :
    (inp.primPath ≠ [] → reloadStage H C L opening inp s = none)
      ∧ (inp.primPath = [] → ∃ after, reloadStage H C L opening inp s = some after
          ∧ after.m_stage = none ∧ after.m_path = H.SdfPath "/".toList) := by
  constructor
  · intro hne
    have hlen : inp.primPath.length ≠ 0 := by
      intro h; exact hne (List.length_eq_zero.mp h)
    simp [reloadStage, reloadStage.getPrim, hlen, hfail]
  · intro he
    have hget : reloadStage.getPrim H inp.primPath (reloadStage.openStage L inp s)
        = some { reloadStage.openStage L inp s with m_path := H.SdfPath "/".toList } := by
      simp [reloadStage.getPrim, he]
    refine ⟨{ reloadStage.openStage L inp s with m_path := H.SdfPath "/".toList }, ?_, hfail, rfl⟩
    rw [reloadStage, hget]
    exact congrArg some (reloadStage_postLoad_of_null C L opening _ hfail)

/-- Witness of C21: no path names a file, so the stage stays null, and the prim
path string `/root/one/rig` makes `reloadStage` fault. -/
theorem reloadStage_null_stage_prim_lookup_witness :
    reloadStage (sampleHost true) sampleCollaborators sampleLoaderMissingFile false
      ⟨"missing.usd".toList, [], false, "/root/one/rig".toList⟩ sampleData = none :=
  (reloadStage_null_stage_prim_lookup (sampleHost true) sampleCollaborators
    sampleLoaderMissingFile false ⟨"missing.usd".toList, [], false, "/root/one/rig".toList⟩
    sampleData rfl).1 (by decide)

/-- C22: `deserialiseTranslatorContext` leaves `serializedTrCtx` as it was,
whatever it holds, while `deserialiseSchemaPrims` empties
`serializedSchemaPrims` and a `deserialiseTransformRefs` that returns empties
`serializedRefCounts`. -/
theorem deserialiseTranslatorContext_keeps_field {Path W : Type} [LinearOrder Path]
    (B : BlobCodec W) (s : PersistedBlobs W) (H : Host Path) (p : ProxyShape Path) :
    (deserialiseTranslatorContext B s).serializedTrCtx = s.serializedTrCtx
      ∧ (deserialiseTranslatorContext B s).world = B.contextDeserialise s.serializedTrCtx s.world
      ∧ (deserialiseSchemaPrims B s).serializedSchemaPrims = []
      ∧ (deserialiseSchemaPrims B s).world = B.dbDeserialize s.serializedSchemaPrims s.world
      ∧ ∀ after, deserialiseTransformRefs H p = some after → after.serializedRefCounts = [] := by
  refine ⟨rfl, rfl, rfl, rfl, ?_⟩
  intro after h
  unfold deserialiseTransformRefs at h
  split at h
  · exact absurd h (by simp)
  · cases h; rfl

/-! ## Theorems: transform validation -/

theorem validateTransforms_visit_frame {Path : Type} (stage : UsdStage Path)
    (st : (MObject → Option (UsdPrim Path)) × List Path) (it : Path × TransformReference) :
    (∀ node, it.2.m_transform ≠ some node →
        (validateTransforms.visit stage st it).1 node = st.1 node)
      ∧ ((validateTransforms.visit stage st it).2 = st.2
          ∨ (validateTransforms.visit stage st it).2 = st.2 ++ [it.1]) := by
  cases htm : it.2.m_transform with
  | none => simp [validateTransforms.visit, htm]
  | some tm =>
    cases hp : st.1 tm with
    | none => simp [validateTransforms.visit, htm, hp]
    | some prim =>
      by_cases hv : prim.isValid = true
      · simp [validateTransforms.visit, htm, hp, hv]
      · by_cases hn : (stage.GetPrimAtPath it.1).isValid = true
        · by_cases ht : (stage.GetPrimAtPath it.1).transformType = []
          · simp only [validateTransforms.visit, htm, hp, hv, hn, ht]
            refine ⟨?_, Or.inl (by simp)⟩
            intro node hne
            have hnode : node ≠ tm := fun h => hne (by rw [h])
            simp [Function.update_noteq hnode]
          · simp [validateTransforms.visit, htm, hp, hv, hn, ht]
        · simp [validateTransforms.visit, htm, hp, hv, hn]

theorem validateTransforms_fold_frame {Path : Type} (stage : UsdStage Path)
    (l : List (Path × TransformReference)) :
    ∀ st : (MObject → Option (UsdPrim Path)) × List Path,
      (∀ node, (∀ e ∈ l, e.2.m_transform ≠ some node) →
          (l.foldl (validateTransforms.visit stage) st).1 node = st.1 node)
        ∧ ∃ extra, (l.foldl (validateTransforms.visit stage) st).2 = st.2 ++ extra
            ∧ ∀ p ∈ extra, ∃ e ∈ l, e.1 = p := by
  induction l with
  | nil => intro st; exact ⟨fun _ _ => rfl, [], by simp, by simp⟩
  | cons it rest ih =>
    intro st
    obtain ⟨h1, extra, h2, h3⟩ := ih (validateTransforms.visit stage st it)
    obtain ⟨v1, v2⟩ := validateTransforms_visit_frame stage st it
    refine ⟨?_, ?_⟩
    · intro node hnode
      rw [List.foldl_cons, h1 node (fun e he => hnode e (List.mem_cons_of_mem _ he)),
        v1 node (hnode it (List.mem_cons_self _ _))]
    · rcases v2 with v2 | v2
      · refine ⟨extra, by rw [List.foldl_cons, h2, v2], ?_⟩
        intro p hp
        obtain ⟨e, he, hep⟩ := h3 p hp
        exact ⟨e, List.mem_cons_of_mem _ he, hep⟩
      · refine ⟨it.1 :: extra, by rw [List.foldl_cons, h2, v2]; simp, ?_⟩
        intro p hp
        rcases List.mem_cons.mp hp with hp | hp
        · exact ⟨it, List.mem_cons_self _ _, hp.symm⟩
        · obtain ⟨e, he, hep⟩ := h3 p hp
          exact ⟨e, List.mem_cons_of_mem _ he, hep⟩

/-- C24: the body of the loop of `validateTransforms` for one entry. For an
entry with a bound transform whose prim is not valid: when the stage has a
prim at the entry's path without custom transform-type metadata the transform
is repointed to it; when the prim there carries such metadata nothing happens
(no repointing, nothing collected); when the stage has no prim at the path the
path is appended to `pathsToNuke`. An entry without transform, with a
transform without `TransformationMatrix`, or whose prim is valid is not
touched. `validateTransforms` is this body folded over the table. -/
theorem validateTransforms_repoints_or_collects {Path W : Type} (stage : UsdStage Path)
    (st : (MObject → Option (UsdPrim Path)) × List Path) (it : Path × TransformReference)
    (s : ProxyShapeData Path W) :
    (∀ tm prim, it.2.m_transform = some tm → st.1 tm = some prim → prim.isValid = false →
      ((stage.GetPrimAtPath it.1).isValid = true
          ∧ (stage.GetPrimAtPath it.1).transformType = [] →
        validateTransforms.visit stage st it
          = (Function.update st.1 tm (some (stage.GetPrimAtPath it.1)), st.2))
      ∧ ((stage.GetPrimAtPath it.1).isValid = true
          ∧ (stage.GetPrimAtPath it.1).transformType ≠ [] →
        validateTransforms.visit stage st it = st)
      ∧ ((stage.GetPrimAtPath it.1).isValid = false →
        validateTransforms.visit stage st it = (st.1, st.2 ++ [it.1])))
    ∧ (it.2.m_transform = none → validateTransforms.visit stage st it = st)
    ∧ (∀ tm, it.2.m_transform = some tm → st.1 tm = none →
        validateTransforms.visit stage st it = st)
    ∧ (∀ tm prim, it.2.m_transform = some tm → st.1 tm = some prim → prim.isValid = true →
        validateTransforms.visit stage st it = st)
    ∧ (s.m_stage = some stage →
        validateTransforms s
          = ({ s with transformPrims :=
                (s.m_requiredPaths.foldl (validateTransforms.visit stage)
                  (s.transformPrims, [])).1 },
             (s.m_requiredPaths.foldl (validateTransforms.visit stage)
                  (s.transformPrims, [])).2)) := by
  refine ⟨?_, ?_, ?_, ?_, ?_⟩
  · intro tm prim htm hp hv
    refine ⟨?_, ?_, ?_⟩
    · rintro ⟨h1, h2⟩
      simp [validateTransforms.visit, htm, hp, hv, h1, h2]
    · rintro ⟨h1, h2⟩
      simp [validateTransforms.visit, htm, hp, hv, h1, h2]
    · intro h1
      simp [validateTransforms.visit, htm, hp, hv, h1]
  · intro htm
    simp [validateTransforms.visit, htm]
  · intro tm htm hp
    simp [validateTransforms.visit, htm, hp]
  · intro tm prim htm hp hv
    simp [validateTransforms.visit, htm, hp, hv]
  · intro hs
    simp [validateTransforms, hs]

/-- Witness of C24 (amended): on the sample stage the prim at path `1` has no
custom transform type, and the transform `11` is repointed to it. -/
theorem validateTransforms_repoints_or_collects_witness :
    validateTransforms.visit sampleStage (sampleJointData.transformPrims, [])
        (1, TransformReference.make 11 (some 11) 1 0 1)
      = (Function.update sampleJointData.transformPrims 11 (some (sampleStage.GetPrimAtPath 1)),
          []) :=
  ((validateTransforms_repoints_or_collects sampleStage (sampleJointData.transformPrims, [])
    (1, TransformReference.make 11 (some 11) 1 0 1) sampleData).1 11
      { samplePrim 0 "" with isValid := false } rfl rfl rfl).1 ⟨rfl, rfl⟩

/-- C24, counterexample: the transform of the entry at path `1` points at an
invalid prim and the stage has a prim at path `1` with the custom transform
type `joint`; `validateTransforms` does not repoint the transform and does not
collect the path in `pathsToNuke`, which holds the path `2` without prim only. -/
theorem validateTransforms_custom_type_counterexample :
    (sampleJointStage.GetPrimAtPath 1).isValid = true
      ∧ (sampleJointStage.GetPrimAtPath 1).transformType = "joint".toList
      ∧ sampleJointData.transformPrims 11 = some { samplePrim 0 "" with isValid := false }
      ∧ (validateTransforms sampleJointData).1.transformPrims 11
          = sampleJointData.transformPrims 11
      ∧ (validateTransforms sampleJointData).2 = [2] := by
  decide

/-- C29: `validateTransforms` returns the required-path table it was given,
entry by entry; every path it collected in `pathsToNuke` is still a key of the
table; the state differs from the one before in `transformPrims` only, and
there only for the transforms bound to an entry of the table. -/
theorem validateTransforms_table_frame {Path W : Type} (s : ProxyShapeData Path W) :
    (validateTransforms s).1.m_requiredPaths = s.m_requiredPaths
      ∧ (∀ p ∈ (validateTransforms s).2,
          ∃ e ∈ (validateTransforms s).1.m_requiredPaths, e.1 = p)
      ∧ (validateTransforms s).1
          = { s with transformPrims := (validateTransforms s).1.transformPrims }
      ∧ ∀ node, (∀ e ∈ s.m_requiredPaths, e.2.m_transform ≠ some node) →
          (validateTransforms s).1.transformPrims node = s.transformPrims node := by
  rcases Option.eq_none_or_eq_some s.m_stage with h | ⟨stage, h⟩
  · have e : validateTransforms s = (s, []) := by simp [validateTransforms, h]
    rw [e]
    exact ⟨rfl, by simp, rfl, fun _ _ => rfl⟩
  · have e : validateTransforms s
        = ({ s with transformPrims :=
              (s.m_requiredPaths.foldl (validateTransforms.visit stage)
                (s.transformPrims, [])).1 },
           (s.m_requiredPaths.foldl (validateTransforms.visit stage)
                (s.transformPrims, [])).2) := by
      simp [validateTransforms, h]
    obtain ⟨h1, extra, h2, h3⟩ :=
      validateTransforms_fold_frame stage s.m_requiredPaths (s.transformPrims, [])
    rw [e]
    refine ⟨rfl, ?_, rfl, ?_⟩
    · intro p hp
      simp only [h2, List.nil_append] at hp
      exact h3 p hp
    · intro node hnode
      exact h1 node hnode

/-! ## Theorems: excluded geometry -/

theorem findExcludedGeometry_visit_fst {Path W : Type} (C : Collaborators Path W)
    (st : List Path × List Path) (prim : UsdPrim Path) :
    (findExcludedGeometry.visit C st prim).1
      = if excludedTag prim then st.1 ++ [prim.path] else st.1 := by
  unfold findExcludedGeometry.visit excludedTag
  cases hv : prim.isValid
  · simp
  · cases he : prim.excludeFromProxyShape with
    | none => simp; split <;> rfl
    | some b =>
      cases b
      · simp; split <;> rfl
      · simp

theorem findExcludedGeometry_visit_snd {Path W : Type} (C : Collaborators Path W)
    (st : List Path × List Path) (prim : UsdPrim Path) :
    (findExcludedGeometry.visit C st prim).2
      = if prim.isValid && (excludedTag prim
            || st.1.any (fun excludedPath => C.HasPrefix prim.path excludedPath))
        then st.2 ++ [prim.path] else st.2 := by
  unfold findExcludedGeometry.visit excludedTag primHasExcludedParent
  cases hv : prim.isValid
  · simp
  · cases he : prim.excludeFromProxyShape with
    | none => simp [hv]; split <;> rfl
    | some b =>
      cases b
      · simp [hv]; split <;> rfl
      · simp [hv]

theorem findExcludedGeometry_fold_fst {Path W : Type} (C : Collaborators Path W)
    (l : List (UsdPrim Path)) :
    ∀ st : List Path × List Path,
      (l.foldl (findExcludedGeometry.visit C) st).1
        = st.1 ++ (l.filter excludedTag).map (fun prim => prim.path) := by
  induction l with
  | nil => intro st; simp
  | cons prim rest ih =>
    intro st
    rw [List.foldl_cons, ih, findExcludedGeometry_visit_fst]
    by_cases h : excludedTag prim = true
    · simp [h]
    · simp [h]

theorem findExcludedGeometry_fold_mono {Path W : Type} (C : Collaborators Path W)
    (l : List (UsdPrim Path)) :
    ∀ (st : List Path × List Path) (p : Path), p ∈ st.2 →
      p ∈ (l.foldl (findExcludedGeometry.visit C) st).2 := by
  induction l with
  | nil => intro st p hp; exact hp
  | cons prim rest ih =>
    intro st p hp
    rw [List.foldl_cons]
    apply ih
    rw [findExcludedGeometry_visit_snd]
    split
    · exact List.mem_append_left _ hp
    · exact hp

theorem findExcludedGeometry_fold_marks {Path W : Type} (C : Collaborators Path W)
    (pre post : List (UsdPrim Path)) (prim : UsdPrim Path) (st : List Path × List Path)
    (hv : prim.isValid = true)
    (h : excludedTag prim = true
      ∨ ∃ q ∈ pre, excludedTag q = true ∧ C.HasPrefix prim.path q.path = true) :
    prim.path ∈ ((pre ++ prim :: post).foldl (findExcludedGeometry.visit C) st).2 := by
  rw [List.foldl_append, List.foldl_cons]
  apply findExcludedGeometry_fold_mono
  rw [findExcludedGeometry_visit_snd, findExcludedGeometry_fold_fst]
  have hcond : (prim.isValid && (excludedTag prim
      || (st.1 ++ (pre.filter excludedTag).map (fun prim => prim.path)).any
          (fun excludedPath => C.HasPrefix prim.path excludedPath))) = true := by
    rw [hv, Bool.true_and, Bool.or_eq_true]
    rcases h with h | ⟨q, hq, hqt, hqp⟩
    · exact Or.inl h
    · right
      rw [List.any_eq_true]
      exact ⟨q.path, List.mem_append_right _
        (List.mem_map.mpr ⟨q, List.mem_filter.mpr ⟨hq, hqt⟩, rfl⟩), hqp⟩
  rw [if_pos hcond]
  exact List.mem_append_right _ (List.mem_singleton_self _)

theorem findExcludedGeometry_of_stage {Path W : Type} (C : Collaborators Path W)
    (s : ProxyShapeData Path W) (stage : UsdStage Path) (hs : s.m_stage = some stage) :
    (findExcludedGeometry C s).m_excludedTaggedGeometry
        = (stage.traversal.filter excludedTag).map (fun prim => prim.path)
      ∧ (findExcludedGeometry C s).m_stage
        = some { stage with excludedSchema :=
            (stage.traversal.foldl (findExcludedGeometry.visit C)
              ([], stage.excludedSchema)).2 } := by
  constructor
  · simp [findExcludedGeometry, hs, constructExcludedPrims, findExcludedGeometry_fold_fst]
  · simp [findExcludedGeometry, hs, constructExcludedPrims]

/-- C25: `findExcludedGeometry` on a proxy shape with a stage. Afterwards
`m_excludedTaggedGeometry` holds the paths of the visited valid prims whose
`excludeFromProxyShape` metadata is authored true, in the order of the visit
and whatever it held before; a second run leaves the same contents. Every
visited valid prim that carries the tag, or whose path has as prefix the path
of a tagged prim visited before it, is given the excluded schema type; when
the traversal visits no tagged prim after a prim lying below it (it goes from
parents to children), this holds for every visited valid prim below a tagged
prim of the traversal. -/
theorem findExcludedGeometry_refreshes_tags {Path W : Type} (C : Collaborators Path W)
    (s : ProxyShapeData Path W) (stage : UsdStage Path) (hs : s.m_stage = some stage) :
    (findExcludedGeometry C s).m_excludedTaggedGeometry
        = (stage.traversal.filter excludedTag).map (fun prim => prim.path)
      ∧ (findExcludedGeometry C (findExcludedGeometry C s)).m_excludedTaggedGeometry
        = (findExcludedGeometry C s).m_excludedTaggedGeometry
      ∧ ∃ after, (findExcludedGeometry C s).m_stage = some after
        ∧ after.traversal = stage.traversal
        ∧ (∀ p ∈ stage.excludedSchema, p ∈ after.excludedSchema)
        ∧ (∀ pre prim post, stage.traversal = pre ++ prim :: post → prim.isValid = true →
            (excludedTag prim = true
              ∨ ∃ q ∈ pre, excludedTag q = true ∧ C.HasPrefix prim.path q.path = true) →
            prim.path ∈ after.excludedSchema)
        ∧ ((∀ pre prim post, stage.traversal = pre ++ prim :: post →
              ∀ q ∈ post, excludedTag q = true → C.HasPrefix prim.path q.path = false) →
            ∀ prim ∈ stage.traversal, prim.isValid = true →
              (∃ q ∈ stage.traversal, excludedTag q = true
                ∧ C.HasPrefix prim.path q.path = true) →
              prim.path ∈ after.excludedSchema) := by
  obtain ⟨h1, h2⟩ := findExcludedGeometry_of_stage C s stage hs
  obtain ⟨h3, _⟩ := findExcludedGeometry_of_stage C (findExcludedGeometry C s) _ h2
  have hpos : ∀ pre prim post, stage.traversal = pre ++ prim :: post → prim.isValid = true →
      (excludedTag prim = true
        ∨ ∃ q ∈ pre, excludedTag q = true ∧ C.HasPrefix prim.path q.path = true) →
      prim.path ∈ (stage.traversal.foldl (findExcludedGeometry.visit C)
        ([], stage.excludedSchema)).2 := by
    intro pre prim post ht hv h
    rw [ht]
    exact findExcludedGeometry_fold_marks C pre post prim _ hv h
  refine ⟨h1, by rw [h3, h1], _, h2, rfl, ?_, hpos, ?_⟩
  · intro p hp
    exact findExcludedGeometry_fold_mono C _ _ p hp
  · intro hOrder prim hprim hv ⟨q, hq, hqt, hqp⟩
    obtain ⟨pre, post, ht⟩ := List.append_of_mem hprim
    refine hpos pre prim post ht hv ?_
    rw [ht] at hq
    rcases List.mem_append.mp hq with hq | hq
    · exact Or.inr ⟨q, hq, hqt, hqp⟩
    · rcases List.mem_cons.mp hq with hq | hq
      · left
        rw [← hq]
        exact hqt
      · have := hOrder pre prim post ht q hq hqt
        rw [this] at hqp
        exact absurd hqp (by simp)

/-- Witness of C25: on the stage with the tagged prim `1` the stale path `5` is
dropped and the tagged set holds path `1`. -/
theorem findExcludedGeometry_refreshes_tags_witness :
    (findExcludedGeometry sampleTreeCollaborators sampleTaggedData).m_excludedTaggedGeometry
      = [1] :=
  (findExcludedGeometry_refreshes_tags sampleTreeCollaborators sampleTaggedData
    sampleTaggedStage rfl).1.trans (by decide)

/-! ## Theorems: rank order under insertion -/

theorem vectorResize_length {α : Type} (v : List α) (n : Nat) (d : α) :
    (vectorResize v n d).length = n := by
  simp [vectorResize]
  omega

theorem vectorResize_get? {α : Type} (v : List α) (n : Nat) (d : α) (j : Nat) (hj : j < n)
    (hjv : j < v.length) : (vectorResize v n d).get? j = v.get? j := by
  have h : j < (v.take n).length := by simp; omega
  simp only [vectorResize, List.get?_eq_getElem?]
  rw [List.getElem?_append_left h, List.getElem?_take_of_lt hj]

theorem initPrim_dropMatrixOp_caches {Path D : Type} [DecidableEq Path] (E : DrivenEnv Path D)
    (prim : UsdPrim Path) (s : DrivenState Path D) :
    (initPrim.dropMatrixOp E prim s).m_paths = s.m_paths
      ∧ (initPrim.dropMatrixOp E prim s).m_prims = s.m_prims := by
  unfold initPrim.dropMatrixOp
  simp only
  split
  · split <;> exact ⟨rfl, rfl⟩
  · exact ⟨rfl, rfl⟩

/-- C27: `initPrim` for an index whose element exists, on a proxy shape with a
stage. When `m_paths` is shorter than the index the caches are not resized and
the path is written past the end of `m_paths`. When `m_paths` has at least
`index` elements both caches are resized to `index + 1` elements, whatever
their length was, so that the elements behind the index are dropped; the
element at the index then holds the path and its prim and the elements before
it are kept. -/
theorem initPrim_resizes_to_index {Path D : Type} [DecidableEq Path] (H : Host Path)
    (E : DrivenEnv Path D) (index : Nat) (self : DrivenState Path D) (path : Str)
    (stage : UsdStage Path) (hel : E.elementByLogicalIndex index = some path)
    (hs : self.m_stage = some stage) (hidx : index + 1 < 2 ^ 32) :
    (self.m_paths.length < index → initPrim H E index self = none)
      ∧ (index ≤ self.m_paths.length →
          ∃ after, initPrim H E index self
              = some ((stage.GetPrimAtPath (H.SdfPath path)).isValid, after)
            ∧ after.m_paths.length = index + 1 ∧ after.m_prims.length = index + 1
            ∧ after.m_paths.get? index = some (H.SdfPath path)
            ∧ after.m_prims.get? index = some (stage.GetPrimAtPath (H.SdfPath path))
            ∧ ∀ j, j < index → after.m_paths.get? j = self.m_paths.get? j) := by
  have hidx2 : index + 1 < 4294967296 := by simpa using hidx
  have hmod : (index + 1) % 4294967296 = index + 1 := Nat.mod_eq_of_lt hidx2
  constructor
  · intro hlt
    have hnot : ¬ self.m_paths.length ≥ index := by omega
    have hnot2 : ¬ index < self.m_paths.length := by omega
    simp [initPrim, hel, hs, hnot, vectorAssign, hnot2]
  · intro hle
    have hge : self.m_paths.length ≥ index := hle
    have h1 : index < (vectorResize self.m_paths (index + 1) E.emptyPath).length := by
      rw [vectorResize_length]; omega
    have h2 : index < (vectorResize self.m_prims (index + 1)
        (UsdPrim.invalid E.emptyPath)).length := by
      rw [vectorResize_length]; omega
    have hpaths : ∀ j, j < index →
        ((vectorResize self.m_paths (index + 1) E.emptyPath).set index (H.SdfPath path)).get? j
          = self.m_paths.get? j := by
      intro j hj
      rw [List.get?_eq_getElem?, List.getElem?_set_ne (by omega), ← List.get?_eq_getElem?]
      exact vectorResize_get? _ _ _ _ (by omega) (by omega)
    by_cases hv : (stage.GetPrimAtPath (H.SdfPath path)).isValid = true
    · refine ⟨initPrim.dropMatrixOp E (stage.GetPrimAtPath (H.SdfPath path))
        { self with
          m_paths := (vectorResize self.m_paths (index + 1) E.emptyPath).set index
            (H.SdfPath path),
          m_prims := (vectorResize self.m_prims (index + 1) (UsdPrim.invalid E.emptyPath)).set
            index (stage.GetPrimAtPath (H.SdfPath path)) }, ?_, ?_⟩
      · simp [initPrim, hel, hs, hge, hmod, vectorAssign, h1, h2, hv]
      · rw [(initPrim_dropMatrixOp_caches E _ _).1, (initPrim_dropMatrixOp_caches E _ _).2]
        refine ⟨by simp [vectorResize_length], by simp [vectorResize_length], ?_, ?_, hpaths⟩
        · simp only [List.get?_eq_getElem?]
          rw [List.getElem?_set_self h1]
        · simp only [List.get?_eq_getElem?]
          rw [List.getElem?_set_self h2]
    · refine ⟨{ self with
          m_paths := (vectorResize self.m_paths (index + 1) E.emptyPath).set index
            (H.SdfPath path),
          m_prims := (vectorResize self.m_prims (index + 1) (UsdPrim.invalid E.emptyPath)).set
            index (stage.GetPrimAtPath (H.SdfPath path)) }, ?_, ?_⟩
      · simp [initPrim, hel, hs, hge, hmod, vectorAssign, h1, h2, hv]
      · refine ⟨by simp [vectorResize_length], by simp [vectorResize_length], ?_, ?_, hpaths⟩
        · simp only [List.get?_eq_getElem?]
          rw [List.getElem?_set_self h1]
        · simp only [List.get?_eq_getElem?]
          rw [List.getElem?_set_self h2]

/-- Witness of C27: with empty caches `initPrim(1)` writes past the end of
`m_paths`; with three cached elements `initPrim(0)` leaves caches of one
element. -/
theorem initPrim_resizes_to_index_witness :
    initPrim (sampleHost true) sampleDrivenEnv 1 sampleDrivenState = none
      ∧ sampleDrivenCached.m_paths.length = 3
      ∧ ∃ after, initPrim (sampleHost true) sampleDrivenEnv 0 sampleDrivenCached
            = some ((sampleStage.GetPrimAtPath
                ((sampleHost true).SdfPath "/root/one/rig".toList)).isValid, after)
          ∧ after.m_paths.length = 1 ∧ after.m_prims.length = 1 :=
  ⟨(initPrim_resizes_to_index (sampleHost true) sampleDrivenEnv 1 sampleDrivenState
      "/root/two/rig".toList sampleStage rfl rfl (by decide)).1 (by decide), rfl,
    (initPrim_resizes_to_index (sampleHost true) sampleDrivenEnv 0 sampleDrivenCached
      "/root/one/rig".toList sampleStage rfl rfl (by decide)).2 (by decide) |>.imp
        (fun _ h => ⟨h.1, h.2.1, h.2.2.1⟩)⟩

theorem needsInit_of_valid {Path D : Type} (index : Nat) (self : DrivenState Path D)
    (prim : UsdPrim Path) (hp : self.m_prims.get? index = some prim)
    (hv : prim.isValid = true) : needsInit index self = false := by
  unfold needsInit
  rw [hp]
  simp [hv]

/-- C28: for an index whose cached prim is valid, the rotate-order branch of
`getInternalValueInContext` sets the value `0` on the data handle and returns
true without changing the state, whatever ops the prim has: the loop starts at
`xformops.end()` and visits no op. A loop from the first op on would give `5`
for a stack with a ZYX rotation. -/
theorem getInternalValueInContext_rotateOrder_zero {Path D : Type} [DecidableEq Path]
    (H : Host Path) (E : DrivenEnv Path D) (index : Nat) (self : DrivenState Path D)
    (prim : UsdPrim Path) (hp : self.m_prims.get? index = some prim)
    (hv : prim.isValid = true) :
    getInternalValueInContext.rotateOrder H E index self = some (true, some 0, self)
      ∧ rotateOrderLoop E
          ((self.xformOpOrder prim.path).drop (self.xformOpOrder prim.path).length) (-1) = -1
      ∧ ∀ op rest, E.GetOpType op = XformOpType.TypeRotateZYX →
          rotateOrderLoop E (op :: rest) (-1) = 5 := by
  have hp2 : self.m_prims[index]? = some prim := by
    rw [← List.get?_eq_getElem?]; exact hp
  refine ⟨?_, ?_, ?_⟩
  · simp [getInternalValueInContext.rotateOrder, needsInit_of_valid index self prim hp hv, hp2,
      hv, rotateOrderLoop]
  · simp [rotateOrderLoop]
  · intro op rest hop
    cases rest <;> simp [rotateOrderLoop, hop, rotateOrderOf]

/-- Witness of C28: the rig at path `1` has a `rotateZYX` op and its rotate
order reads `0`. -/
theorem getInternalValueInContext_rotateOrder_zero_witness :
    sampleDrivenCached.xformOpOrder 1 = [sampleTranslate, sampleRotateZYX]
      ∧ getInternalValueInContext.rotateOrder (sampleHost true) sampleDrivenEnv 0
          sampleDrivenCached = some (true, some 0, sampleDrivenCached) :=
  ⟨rfl, (getInternalValueInContext_rotateOrder_zero (sampleHost true) sampleDrivenEnv 0
    sampleDrivenCached (sampleStage.GetPrimAtPath 1) rfl rfl).1⟩

theorem pushRotation_none {Path D : Type} (E : DrivenEnv Path D) (v : MVector D)
    (values : OpValues D) (ops : List UsdGeomXformOp)
    (h : ∀ op ∈ ops, (E.GetOpType op).isRotate = false) :
    setInternalValueInContext.pushRotation E v values ops = none := by
  induction ops with
  | nil => rfl
  | cons it rest ih =>
    have hit := h it (List.mem_cons_self _ _)
    have hrest := ih (fun op hop => h op (List.mem_cons_of_mem _ hop))
    unfold setInternalValueInContext.pushRotation
    cases hty : E.GetOpType it <;> simp_all [XformOpType.isRotate]

theorem pushRotation_skip {Path D : Type} (E : DrivenEnv Path D) (v : MVector D)
    (values : OpValues D) (pre ops : List UsdGeomXformOp)
    (h : ∀ op ∈ pre, (E.GetOpType op).isRotate = false) :
    setInternalValueInContext.pushRotation E v values (pre ++ ops)
      = setInternalValueInContext.pushRotation E v values ops := by
  induction pre with
  | nil => rfl
  | cons it rest ih =>
    have hit := h it (List.mem_cons_self _ _)
    have hrest := ih (fun op hop => h op (List.mem_cons_of_mem _ hop))
    rw [List.cons_append]
    conv => lhs; unfold setInternalValueInContext.pushRotation
    cases hty : E.GetOpType it <;> simp_all [XformOpType.isRotate]

theorem pushRotation_three_axis {Path D : Type} (E : DrivenEnv Path D) (v : MVector D)
    (values : OpValues D) (it : UsdGeomXformOp) (rest : List UsdGeomXformOp)
    (h : (E.GetOpType it).isThreeAxisRotate = true) :
    setInternalValueInContext.pushRotation E v values (it :: rest)
      = some (E.pushVector (MVector.toDegrees E v) it values) := by
  unfold setInternalValueInContext.pushRotation
  cases hty : E.GetOpType it <;> simp_all [XformOpType.isThreeAxisRotate]

/-- C30: the rotate branch of `setInternalValueInContext` for an index whose
cached prim is valid and the vector `v` of the data handle. When the first
rotate op of the stack is a three-axis rotate op, `v * radToDeg` is pushed into
it. When the stack has no rotate op, the op returned by `AddRotateXYZOp` is
inserted with `addRotateOp` and `v` itself, not multiplied by `radToDeg`, is
pushed into it. -/
theorem setInternalValueInContext_rotate_values {Path D : Type} [DecidableEq Path]
    (H : Host Path) (E : DrivenEnv Path D) (index : Nat) (v : MVector D)
    (self : DrivenState Path D) (prim : UsdPrim Path)
    (hp : self.m_prims.get? index = some prim) (hv : prim.isValid = true) :
    (∀ pre it rest, self.xformOpOrder prim.path = pre ++ it :: rest →
        (∀ op ∈ pre, (E.GetOpType op).isRotate = false) →
        (E.GetOpType it).isThreeAxisRotate = true →
        setInternalValueInContext.rotate H E index v self
          = some (true, { self with
              opValues := Function.update self.opValues prim.path
                (E.pushVector (MVector.toDegrees E v) it (self.opValues prim.path)) }))
      ∧ ((∀ op ∈ self.xformOpOrder prim.path, (E.GetOpType op).isRotate = false) →
        setInternalValueInContext.rotate H E index v self
          = some (true, { self with
              xformOpOrder := Function.update self.xformOpOrder prim.path
                (addRotateOp E.ranks E.AddRotateXYZOp (self.xformOpOrder prim.path)),
              opValues := Function.update self.opValues prim.path
                (E.pushVector v E.AddRotateXYZOp (self.opValues prim.path)) })) := by
  have hinit := needsInit_of_valid index self prim hp hv
  have hp2 : self.m_prims[index]? = some prim := by
    rw [← List.get?_eq_getElem?]; exact hp
  constructor
  · intro pre it rest horder hpre hit
    have hpush : setInternalValueInContext.pushRotation E v (self.opValues prim.path)
        (self.xformOpOrder prim.path)
        = some (E.pushVector (MVector.toDegrees E v) it (self.opValues prim.path)) := by
      rw [horder, pushRotation_skip E v _ pre _ hpre, pushRotation_three_axis E v _ it rest hit]
    simp [setInternalValueInContext.rotate, hinit, hp2, hpush]
  · intro hnone
    have hpush := pushRotation_none E v (self.opValues prim.path) (self.xformOpOrder prim.path)
      hnone
    simp [setInternalValueInContext.rotate, hinit, hp2, hpush]

/-- Witness of C30: the rig at path `2` has no rotate op; the vector
`(1, 0, 0)` is pushed into the new op as it is, while `v * radToDeg` is
`(57, 0, 0)` for the sample factor. -/
theorem setInternalValueInContext_rotate_values_witness :
    setInternalValueInContext.rotate (sampleHost true) sampleDrivenEnv 1 ⟨1, 0, 0⟩
        sampleDrivenCached
      = some (true, { sampleDrivenCached with
          xformOpOrder := Function.update sampleDrivenCached.xformOpOrder 2
            (addRotateOp sampleRanks sampleRotate [sampleTranslate]),
          opValues := Function.update sampleDrivenCached.opValues 2
            (Function.update (fun _ => none) sampleRotate
              (some (OpValue.vector ⟨1, 0, 0⟩))) })
      ∧ MVector.toDegrees sampleDrivenEnv ⟨1, 0, 0⟩ = ⟨57, 0, 0⟩ :=
  ⟨(setInternalValueInContext_rotate_values (sampleHost true) sampleDrivenEnv 1 ⟨1, 0, 0⟩
    sampleDrivenCached (sampleStage.GetPrimAtPath 2) rfl rfl).2 (by decide), by decide⟩

/-! ## Theorems: order of the effects of a resync pass -/

theorem findExcludedGeometry_effect {Path W : Type} (C : Collaborators Path W)
    (s : ProxyShapeData Path W) (stage : UsdStage Path) (hs : s.m_stage = some stage) :
    (findExcludedGeometry C s).world = C.constructGLImagingEngine s.world
      ∧ (findExcludedGeometry C s).m_requiredPaths = s.m_requiredPaths
      ∧ (findExcludedGeometry C s).transformPrims = s.transformPrims := by
  simp [findExcludedGeometry, hs, constructExcludedPrims]

theorem onPrimResync_remove_effect {Path W : Type} (C : Collaborators Path W)
    (pending : List Path) (x : ProxyShapeData Path W) :
    (onPrimResync.remove C pending x).m_requiredPaths
        = cleanupTransformRefs (C.removeEntries pending x.m_requiredPaths (C.lock x.world)).1
      ∧ (onPrimResync.remove C pending x).world
        = (C.removeEntries pending x.m_requiredPaths (C.lock x.world)).2
      ∧ (onPrimResync.remove C pending x).transformPrims = x.transformPrims
      ∧ (onPrimResync.remove C pending x).m_stage = x.m_stage := by
  simp only [onPrimResync.remove, ProxyShapeData.step]
  exact ⟨trivial, trivial, trivial, trivial⟩

theorem onPrimResync_create_effect {Path W : Type} (C : Collaborators Path W)
    (prims : List (UsdPrim Path)) (x : ProxyShapeData Path W)
    (m : RequiredPaths Path) (w : W) (hm : x.m_requiredPaths = m) (hw : x.world = w) :
    let filtered := filterUpdatablePrims C w m prims
    let typed := C.updatePrimTypes w
    let chains := C.createTranformChainsForSchemaPrims filtered.1 filtered.2 m typed
    let created := C.createSchemaPrims chains.1 chains.2.1 chains.2.2
    let unlocked := C.unlock created.2
    let connected := C.connectSchemaPrims chains.1 created.1 unlocked
    (onPrimResync.create C prims x).m_requiredPaths = connected.1
      ∧ (onPrimResync.create C prims x).world = connected.2
      ∧ (onPrimResync.create C prims x).transformPrims = x.transformPrims
      ∧ (onPrimResync.create C prims x).m_stage = x.m_stage := by
  subst hm
  subst hw
  simp only [onPrimResync.create, ProxyShapeData.step]
  exact ⟨trivial, trivial, trivial, trivial⟩

theorem onPrimResync_create_remove_effect {Path W : Type} (C : Collaborators Path W)
    (prims : List (UsdPrim Path)) (pending : List Path) (x : ProxyShapeData Path W)
    (m : RequiredPaths Path) (w : W) (hm : x.m_requiredPaths = m) (hw : x.world = w) :
    let locked := C.lock w
    let removed := C.removeEntries pending m locked
    let cleaned := cleanupTransformRefs removed.1
    let filtered := filterUpdatablePrims C removed.2 cleaned prims
    let typed := C.updatePrimTypes removed.2
    let chains := C.createTranformChainsForSchemaPrims filtered.1 filtered.2 cleaned typed
    let created := C.createSchemaPrims chains.1 chains.2.1 chains.2.2
    let unlocked := C.unlock created.2
    let connected := C.connectSchemaPrims chains.1 created.1 unlocked
    (onPrimResync.create C prims (onPrimResync.remove C pending x)).m_requiredPaths = connected.1
      ∧ (onPrimResync.create C prims (onPrimResync.remove C pending x)).world = connected.2
      ∧ (onPrimResync.create C prims (onPrimResync.remove C pending x)).transformPrims
          = x.transformPrims
      ∧ (onPrimResync.create C prims (onPrimResync.remove C pending x)).m_stage = x.m_stage := by
  subst hm
  subst hw
  obtain ⟨r1, r2, r3, r4⟩ := onPrimResync_remove_effect C pending x
  have hc := onPrimResync_create_effect C prims (onPrimResync.remove C pending x) _ _ r1 r2
  exact ⟨hc.1, hc.2.1, hc.2.2.1.trans r3, hc.2.2.2.trans r4⟩

theorem validateTransforms_visit_stage {Path : Type} (stage other : UsdStage Path)
    (h : other.GetPrimAtPath = stage.GetPrimAtPath) :
    validateTransforms.visit other = validateTransforms.visit stage := by
  funext st it
  simp [validateTransforms.visit, h]

theorem validateTransforms_of_stage {Path W : Type} (s : ProxyShapeData Path W)
    (stage : UsdStage Path) (hs : s.m_stage = some stage) :
    (validateTransforms s).1.transformPrims
      = (s.m_requiredPaths.foldl (validateTransforms.visit stage) (s.transformPrims, [])).1 := by
  simp [validateTransforms, hs]

theorem onPrimResync_finish_effect {Path W : Type} (C : Collaborators Path W)
    (s : ProxyShapeData Path W) :
    (onPrimResync.finish C s).m_requiredPaths = s.m_requiredPaths
      ∧ (onPrimResync.finish C s).world = C.constructGLImagingEngine s.world
      ∧ (onPrimResync.finish C s).transformPrims
          = (validateTransforms (s.log Step.validateTransforms)).1.transformPrims := by
  obtain ⟨_, _, _, _, h5, _, _, h8⟩ := validateTransforms_frame (s.log Step.validateTransforms)
  refine ⟨?_, ?_, rfl⟩
  · show (validateTransforms (s.log Step.validateTransforms)).1.m_requiredPaths = _
    rw [h5]
    rfl
  · show C.constructGLImagingEngine (validateTransforms (s.log Step.validateTransforms)).1.world = _
    rw [h8]
    rfl

theorem onPrimResync_finish_validated {Path W : Type} (C : Collaborators Path W)
    (y : ProxyShapeData Path W) (stage other : UsdStage Path) (hst : y.m_stage = some other)
    (hget : other.GetPrimAtPath = stage.GetPrimAtPath) (m : RequiredPaths Path)
    (tp : MObject → Option (UsdPrim Path)) (hm : y.m_requiredPaths = m)
    (htp : y.transformPrims = tp) :
    (onPrimResync.finish C y).transformPrims
      = (m.foldl (validateTransforms.visit stage) (tp, [])).1 := by
  subst hm
  subst htp
  have hlog : (y.log Step.validateTransforms).m_stage = some other := hst
  rw [(onPrimResync_finish_effect C y).2.2, validateTransforms_of_stage _ other hlog,
    validateTransforms_visit_stage stage other hget]
  rfl

/-- C23: the effects of a resync pass on an open stage, in the order in which
they are applied to the required-path table and to the state of the registry
and the scene. The subtree walk collects the valid schema prims and rebuilds
the rendering engine for the refreshed exclusions; on the state it leaves the
registry is locked; the pending paths are removed from the locked registry;
`cleanupTransformRefs` runs once, on the table the removal left; the partition
(`filterUpdatablePrims`) looks its nodes up in the cleaned table; the prim
types are updated, the ancestor chains built and the prims imported; the
registry is unlocked; the connection pass runs on the unlocked registry; the
validation folds over the table the connection pass left; the rendering
rebuild comes last. -/
theorem onPrimResync_effect_order {Path W : Type} (C : Collaborators Path W) (primPath : Path)
    (pending : List Path) (s : ProxyShapeData Path W) (stage : UsdStage Path)
    (hs : s.m_stage = some stage) :
    let prims := (stage.subtree (stage.GetPrimAtPath primPath)).filter
      (fun prim => prim.isValid && C.isSchemaPrim prim)
    let walked := C.constructGLImagingEngine s.world
    let locked := C.lock walked
    let removed := C.removeEntries pending s.m_requiredPaths locked
    let cleaned := cleanupTransformRefs removed.1
    let filtered := filterUpdatablePrims C removed.2 cleaned prims
    let typed := C.updatePrimTypes removed.2
    let chains := C.createTranformChainsForSchemaPrims filtered.1 filtered.2 cleaned typed
    let created := C.createSchemaPrims chains.1 chains.2.1 chains.2.2
    let unlocked := C.unlock created.2
    let connected := C.connectSchemaPrims chains.1 created.1 unlocked
    let validated := connected.1.foldl (validateTransforms.visit stage) (s.transformPrims, [])
    ∃ after, onPrimResync C primPath pending s = some after
      ∧ after.m_requiredPaths = connected.1
      ∧ after.transformPrims = validated.1
      ∧ after.world = C.constructGLImagingEngine connected.2 := by
  intro prims walked locked removed cleaned filtered typed chains created unlocked connected
    validated
  have hs0 : ((s.log (Step.primResync primPath pending)).log
      (Step.huntForNativeNodesUnderPrim primPath)).m_stage = some stage := hs
  have hhunt : huntForNativeNodesUnderPrim C primPath
      ((s.log (Step.primResync primPath pending)).log (Step.huntForNativeNodesUnderPrim primPath))
      = some (prims, findExcludedGeometry C ((s.log (Step.primResync primPath pending)).log
          (Step.huntForNativeNodesUnderPrim primPath))) := by
    simp [huntForNativeNodesUnderPrim, ProxyShapeData.log, hs, prims]
  obtain ⟨w0, t0, p0⟩ := findExcludedGeometry_effect C _ stage hs0
  obtain ⟨_, st0⟩ := findExcludedGeometry_of_stage C _ stage hs0
  have heff := onPrimResync_create_remove_effect C prims pending _ s.m_requiredPaths walked t0 w0
  obtain ⟨e1, e2, _⟩ := onPrimResync_finish_effect C
    (onPrimResync.create C prims (onPrimResync.remove C pending
      (findExcludedGeometry C ((s.log (Step.primResync primPath pending)).log
        (Step.huntForNativeNodesUnderPrim primPath)))))
  refine ⟨onPrimResync.finish C
    (onPrimResync.create C prims (onPrimResync.remove C pending
      (findExcludedGeometry C ((s.log (Step.primResync primPath pending)).log
        (Step.huntForNativeNodesUnderPrim primPath))))), by rw [onPrimResync, hhunt], ?_, ?_, ?_⟩
  · exact e1.trans heff.1
  · exact onPrimResync_finish_validated C _ stage _ (heff.2.2.2.trans st0) rfl _ _ heff.1
      (heff.2.2.1.trans p0)
  · rw [e2, heff.2.1]

/-- Witness of C23 (amended): the pass on the sample proxy shape with the
recording collaborators leaves the table without the released entry and the
registry unlocked. -/
theorem onPrimResync_effect_order_witness :
    ∃ after, onPrimResync recordingCollaborators 2 [2] recordingData = some after
      ∧ after.m_requiredPaths = [(1, TransformReference.make 11 (some 11) 1 0 1)]
      ∧ after.world.locked = false := by
  obtain ⟨after, h1, h2, _, h4⟩ :=
    onPrimResync_effect_order recordingCollaborators 2 [2] recordingData sampleStage rfl
  exact ⟨after, h1, h2.trans (by decide), by rw [h4]; decide⟩

/-- C23, counterexample: the pass on the sample proxy shape with the recording
collaborators. The rendering rebuild that ends the subtree walk reaches the
registry before it is locked, the connection pass reaches it after it was
unlocked, and the partition receives the null node for path `2`, whose entry
`cleanupTransformRefs` has erased by then, where the table before the cleanup
gives node `12`. -/
theorem onPrimResync_effect_order_counterexample :
    (onPrimResync recordingCollaborators 2 [2] recordingData).map (fun after => after.world)
        = some
          { locked := false,
            calls := [(RegistryCall.constructGLImagingEngine, false),
              (RegistryCall.lock, false), (RegistryCall.removeEntries, true),
              (RegistryCall.updatePrimTypes, true),
              (RegistryCall.createTranformChainsForSchemaPrims, true),
              (RegistryCall.createSchemaPrims, true), (RegistryCall.unlock, true),
              (RegistryCall.connectSchemaPrims, false),
              (RegistryCall.constructGLImagingEngine, false)],
            objsToCreate := [(MObject.kNullObj, 2)] }
      ∧ (filterUpdatablePrims recordingCollaborators recordingData.world
            (recordingCollaborators.removeEntries [2] sampleTable recordingData.world).1
            [sampleStage.GetPrimAtPath 2]).2
          = [(12, sampleStage.GetPrimAtPath 2)] := by
  decide

/-! ## Theorems: rank tables that do not rank the new ops by their category -/

end AL.usdmaya.nodes
